import Mathlib

set_option maxHeartbeats 1000000

/-!
Verification of the super_snake simulation core.

This file gives a shallow embedding, in Lean 4, of the game's simulation
core (the `game` package: grid geometry, snakes, food, the per-frame
movement/collision engine, and the A* pathfinding engine), and proves the
specification's testable properties against it.

Modelling conventions:
* Go `float64` quantities (speeds, move progress, times) are modelled as
  exact rationals `ℚ`; every concrete value appearing in the theorems below
  is exactly representable in binary floating point, so the rational model
  agrees with the float semantics at those points.
* Go pointer identity of `*Snake` values is modelled by a numeric `id`
  field; the game allocates fresh ids (`nextSnakeId`), and the pointer
  comparisons `s == other` of the source become id comparisons.
* `math/rand` and `time.Now()` are external collaborators: randomness is
  modelled by an oracle (`Rng`) supplying the stream of values that
  `rand.Intn` / `rand.Float64` return, and the current wall-clock time is a
  parameter `now : ℚ` of each operation that reads it.
* The `Food.Effect` closure field only ever holds one of the three
  closures built in `spawnFoodItem` (grow; grow+boost 1.5; grow+boost 0.6),
  one per `FoodType`; it is therefore modelled by dispatch on the type.
* `time.AfterFunc` (the asynchronous speed-boost expiry callback) is
  concurrency and is outside this frame-synchronous model; the timer's
  presence is recorded (`speedTimer`), its asynchronous firing is not
  modelled.  No claim below depends on it.
* Go loops that the source bounds only by a runtime condition are embedded
  with an explicit fuel that provably dominates the number of iterations
  performed by the source loop, so that every definition stays executable.
* A Go function that can panic (nil dereference, index out of range) is
  embedded with an `Option` result, `none` being the panic.
-/

/-- A point on the grid (`Position` in the source, integer coordinates). -/
structure Position where
  x : Int
  y : Int
deriving DecidableEq, Repr

/-- Movement direction (`Direction` in the source). -/
inductive Direction where
  | DirNone | DirUp | DirDown | DirLeft | DirRight
deriving DecidableEq, Repr

open Direction

/-- Kind of a food item (`FoodType` in the source). -/
inductive FoodType where
  | FoodTypeStandard | FoodTypeSpeedUp | FoodTypeSlowDown
deriving DecidableEq, Repr

open FoodType

def GridWidth : Int := 40

def GridHeight : Int := 30

def InitialSpeed : ℚ := 8

def InitialSnakeLen : Nat := 3

def InitialFoodItems : Nat := 3

def MaxTotalFoodItems : Nat := 50

def NumEnemySnakes : Nat := 2

def MaxEnemySnakes : Nat := 3

/-- `FoodSpawnInterval` in seconds. -/
def FoodSpawnInterval : ℚ := 5

/-- `EnemySpawnInterval` in seconds. -/
def EnemySpawnInterval : ℚ := 15

/-- State of one snake (`Snake` in the source).  The `id` field models Go
pointer identity of the `*Snake` (see the conventions above). -/
structure Snake where
  id : Nat
  body : List Position
  prevBody : List Position
  direction : Direction
  nextDir : Direction
  speedFactor : ℚ
  speedTimer : Option ℚ
  speedEffectEndTime : ℚ
  isPlayer : Bool
  moveProgress : ℚ
  currentPath : List Position
deriving DecidableEq, Repr

/-- A food item (`Food` in the source).  The `Effect` closure is modelled by
dispatch on `type` (see the conventions above). -/
structure Food where
  pos : Position
  type : FoodType
  points : Int
  duration : ℚ
deriving DecidableEq, Repr

/-- The whole game session state (`Game` in the source). -/
structure Game where
  playerSnake : Option Snake
  enemySnakes : List Snake
  foodItems : List Food
  score : Int
  speed : ℚ
  isOver : Bool
  isPaused : Bool
  nextFoodSpawnTime : ℚ
  nextEnemySpawnTime : ℚ
  foodEatenPos : Option Position
  foodEatenTime : ℚ
  enemyFoodEatenPos : Option Position
  nextSnakeId : Nat
deriving DecidableEq, Repr

/-- Oracle for `math/rand`: `intSeq` supplies the stream of values that
successive `rand.Intn` calls return (reduced mod the bound), `floatSeq` the
stream of `rand.Float64` results; `ik`/`fk` are the cursors. -/
structure Rng where
  intSeq : Nat → Nat
  floatSeq : Nat → ℚ
  ik : Nat
  fk : Nat

/-- One `rand.Intn n` draw. -/
def randIntn (n : Nat) (r : Rng) : Nat × Rng :=
  (r.intSeq r.ik % n, { r with ik := r.ik + 1 })

/-- One `rand.Float64` draw. -/
def randFloat (r : Rng) : ℚ × Rng :=
  (r.floatSeq r.fk, { r with fk := r.fk + 1 })

/-- The head shift that a direction produces; this is the
`switch s.Direction { case DirUp: newHead.Y-- ... }` block that the source
repeats at each movement site (`DirNone` shifts nothing, as in the source
where no case matches). -/
def stepPos (p : Position) (d : Direction) : Position :=
  match d with
  | DirNone => p
  | DirUp => { p with y := p.y - 1 }
  | DirDown => { p with y := p.y + 1 }
  | DirLeft => { p with x := p.x - 1 }
  | DirRight => { p with x := p.x + 1 }

instance : Inhabited Position := ⟨⟨0, 0⟩⟩

instance : Inhabited Direction := ⟨DirNone⟩

instance : Inhabited FoodType := ⟨FoodTypeStandard⟩

instance : Inhabited Food := ⟨⟨⟨0, 0⟩, FoodTypeStandard, 0, 0⟩⟩

/-! ### The A* pathfinding engine (`internal/game/astar.go`)

The source keeps its open set in a `container/heap` priority queue of
`*aStarNode` ordered by `Less` (smaller `f`, ties by smaller `h`), with
`nodeMap` as the per-position node store.  `container/heap` is Go standard
library, not repository code; it is modelled by its documented contract:
`heap.Pop` removes and returns a minimum element according to `Less`
(deterministically, the first minimal element of the list here), `heap.Push`
adds an element, and `heap.Fix` re-establishes the ordering after a node's
costs changed (a no-op on the set of queued positions).  The source's
push-with-zero-costs-then-set-then-`Fix` dance exists only to drive that
API and collapses to inserting the node with its final costs. -/

/-- `heuristic`: the Manhattan distance, computed as in the source. -/
def heuristic (a b : Position) : Int :=
  let dx := a.x - b.x
  let dy := a.y - b.y
  (if dx < 0 then -dx else dx) + (if dy < 0 then -dy else dy)

/-- `isValid`: position within grid boundaries. -/
def isValid (pos : Position) (width height : Int) : Bool :=
  pos.x ≥ 0 && pos.x < width && pos.y ≥ 0 && pos.y < height

/-- The per-position search data of an `aStarNode` (its `pos` is the key it
is stored under; the heap `index` belongs to the modelled-away heap). -/
structure ANode where
  g : Int
  h : Int
  f : Int
  parent : Option Position
deriving DecidableEq, Repr

instance : Inhabited ANode := ⟨⟨0, 0, 0, none⟩⟩

/-- The `nodeMap`: an association list keyed by position. -/
abbrev NodeMap := List (Position × ANode)

def lookupNode : NodeMap → Position → Option ANode
  | [], _ => none
  | (q, a) :: rest, p => if p = q then some a else lookupNode rest p

def insertNode : NodeMap → Position → ANode → NodeMap
  | [], p, a => [(p, a)]
  | (q, b) :: rest, p, a =>
    if p = q then (p, a) :: rest else (q, b) :: insertNode rest p a

/-- `priorityQueue.Less` lifted to positions via the node store: min by
`f`-cost, ties broken by smaller `h`-cost. -/
def nodeLess (m : NodeMap) (p q : Position) : Bool :=
  let a := (lookupNode m p).getD default
  let b := (lookupNode m q).getD default
  if a.f = b.f then a.h < b.h else a.f < b.f

/-- The element `heap.Pop` returns: the first minimal element of the open
list under `nodeLess` (the heap contract guarantees a minimum; first-minimal
makes the model deterministic). -/
def selectMin (m : NodeMap) : Position → List Position → Position
  | best, [] => best
  | best, x :: xs =>
    if nodeLess m x best then selectMin m x xs else selectMin m best xs

/-- State of the A* main loop: open set (as the queued positions), closed
set, and the node store. -/
structure AState where
  openList : List Position
  closedSet : List Position
  nodes : NodeMap
deriving Repr

/-- The fixed neighbor offsets of the source (up, down, left, right). -/
def neighborOffsets : List Position := [⟨0, -1⟩, ⟨0, 1⟩, ⟨-1, 0⟩, ⟨1, 0⟩]

/-- Processing of one neighbor offset inside the A* expansion: skip
out-of-bounds, obstacle and closed cells; insert a fresh node (with parent
`cur` and cost `curG + 1`) or relax an existing one when the tentative cost
is strictly smaller. -/
def processNeighbor (w h : Int) (obs : Position → Bool) (target cur : Position)
    (curG : Int) (st : AState) (off : Position) : AState :=
  let npos : Position := ⟨cur.x + off.x, cur.y + off.y⟩
  if ¬ (isValid npos w h) ∨ obs npos = true ∨ npos ∈ st.closedSet then st
  else
    let tentativeG := curG + 1
    match lookupNode st.nodes npos with
    | none =>
      let hval := heuristic npos target
      { st with
        nodes := insertNode st.nodes npos ⟨tentativeG, hval, tentativeG + hval, some cur⟩
        openList := st.openList ++ [npos] }
    | some nb =>
      if tentativeG < nb.g then
        let hval := heuristic npos target
        { st with
          nodes := insertNode st.nodes npos ⟨tentativeG, hval, tentativeG + hval, some cur⟩ }
      else st

/-- `reconstructPath`'s walk up the parent links, collecting positions until
the node with no parent (the start) is reached; the fuel dominates the walk
because parent links strictly decrease `g` (proved below). -/
def reconstructPathAux (m : NodeMap) : Nat → Position → List Position
  | 0, _ => []
  | fuel + 1, p =>
    match lookupNode m p with
    | none => []
    | some a =>
      match a.parent with
      | none => []
      | some q => p :: reconstructPathAux m fuel q

/-- `reconstructPath`: the walked list reversed into travel order, excluding
the start, including the target. -/
def reconstructPath (m : NodeMap) (p : Position) : List Position :=
  (reconstructPathAux m m.length p).reverse

/-- The A* main loop.  Each iteration pops one position; a position enters
the open list at most once ever, and at most `w*h + 1` positions (the valid
cells plus possibly the start) ever get a node, so the fuel chosen in
`findPath` dominates the iteration count (proved below). -/
def astarLoop (w h : Int) (obs : Position → Bool) (target : Position) :
    Nat → AState → Option (List Position)
  | 0, _ => none
  | fuel + 1, st =>
    match st.openList with
    | [] => none
    | o :: os =>
      let cur := selectMin st.nodes o os
      if cur = target then some (reconstructPath st.nodes cur)
      else
        let rest := (o :: os).erase cur
        let curG := ((lookupNode st.nodes cur).getD default).g
        let st' : AState := { st with openList := rest, closedSet := cur :: st.closedSet }
        let st'' := neighborOffsets.foldl (processNeighbor w h obs target cur curG) st'
        astarLoop w h obs target fuel st''

def astarFuel (w h : Int) : Nat := 2 * (w.toNat * h.toNat + 1) + 2

/-- `findPath`: A* from `start` to `target` on the `width × height` grid
avoiding `obstacles`; `none` is the source's `nil` ("not found"). -/
def findPath (start target : Position) (width height : Int)
    (obstacles : Position → Bool) : Option (List Position) :=
  let h0 := heuristic start target
  let startNode : ANode := ⟨0, h0, h0, none⟩
  astarLoop width height obstacles target (astarFuel width height)
    ⟨[start], [], [(start, startNode)]⟩

/-! ### Snake and food operations (`internal/game/game.go`) -/

/-- `(*Snake).grow`: duplicate the tail segment of `Body`, and extend
`PrevBody` by duplicating its own tail (falling back to `Body`'s tail when
`PrevBody` is empty, as the source does). -/
def Snake.grow (s : Snake) : Snake :=
  match s.body.getLast? with
  | none => s
  | some tail =>
    let s' := { s with body := s.body ++ [tail] }
    match s'.prevBody.getLast? with
    | some prevTail => { s' with prevBody := s'.prevBody ++ [prevTail] }
    | none => { s' with prevBody := s'.prevBody ++ [tail] }

/-- `(*Snake).applySpeedBoost`: stop any previous timer, install the factor,
and record the absolute end time `now + duration` (the asynchronous
`time.AfterFunc` reset is not modelled; see the conventions above). -/
def Snake.applySpeedBoost (s : Snake) (now factor duration : ℚ) : Snake :=
  { s with
    speedFactor := factor
    speedEffectEndTime := now + duration
    speedTimer := some (now + duration) }

/-- `(*Snake).checkCollision`: `(hitWall, hitSelf)` for the current head
against the grid bounds and the snake's own later segments. -/
def Snake.checkCollision (s : Snake) (width height : Int) : Bool × Bool :=
  match s.body with
  | [] => (false, false)
  | head :: rest =>
    if head.x < 0 || head.x ≥ width || head.y < 0 || head.y ≥ height then
      (true, false)
    else
      (false, rest.contains head)

/-- `(*Game).HandleInput`: buffer `newDir` into the player's `NextDir`
unless it is the exact reverse of the committed `Direction`.  The source
dereferences `g.PlayerSnake` unconditionally, so a missing player is the
panic (`none`). -/
def HandleInput (g : Game) (newDir : Direction) : Option Game :=
  match g.playerSnake with
  | none => none
  | some p =>
    let currentDir := p.direction
    let isValidMove : Bool :=
      match newDir with
      | DirUp => currentDir != DirDown
      | DirDown => currentDir != DirUp
      | DirLeft => currentDir != DirRight
      | DirRight => currentDir != DirLeft
      | DirNone => true
    if isValidMove then
      some { g with playerSnake := some { p with nextDir := newDir } }
    else
      some g

/-- `(*Game).triggerGameOver`: set `IsOver` and stop the player's speed
timer if one is running. -/
def triggerGameOver (g : Game) : Game :=
  let g' := { g with isOver := true }
  match g'.playerSnake with
  | none => g'
  | some p => { g' with playerSnake := some { p with speedTimer := none } }

/-- `(*Game).removeEnemySnake`: filter the enemy collection, dropping the
snake with the given identity (Go compares the `*Snake` pointers; here the
`id`). -/
def removeEnemySnake (g : Game) (victimId : Nat) : Game :=
  { g with enemySnakes := g.enemySnakes.filter (fun s => s.id ≠ victimId) }

/-- `(*Game).isSnakeAlive`: the player is always "alive" here (handled via
`IsOver`); an enemy is alive iff its pointer (id) is still in the
collection. -/
def isSnakeAlive (g : Game) (s : Snake) : Bool :=
  if s.isPlayer then true
  else g.enemySnakes.any (fun e => e.id = s.id)

/-- The `occupied` map that `spawnFoodItem` (and `spawnEnemyIfPossible`)
builds: every snake segment plus every food position, in insertion order;
the Go map's length is the number of distinct keys (`dedup.length`). -/
def occupiedCells (g : Game) : List Position :=
  (match g.playerSnake with | none => [] | some p => p.body)
    ++ (g.enemySnakes.map Snake.body).flatten
    ++ g.foodItems.map Food.pos

/-- The random-sampling loop of `spawnFoodItem`: draw positions until a free
one is found or the attempt budget is exhausted; the last drawn position is
what the Go loop leaves in `newPos` on exhaustion. -/
def findSpotLoop (occ : Position → Bool) : Nat → Rng → Position → Position × Rng
  | 0, rng, last => (last, rng)
  | fuel + 1, rng, _ =>
    let xv := (randIntn GridWidth.toNat rng).1
    let rng1 := (randIntn GridWidth.toNat rng).2
    let yv := (randIntn GridHeight.toNat rng1).1
    let rng2 := (randIntn GridHeight.toNat rng1).2
    let p : Position := ⟨(xv : Int), (yv : Int)⟩
    if occ p then findSpotLoop occ fuel rng2 p else (p, rng2)

/-- The effect closure a food carries, dispatched on its type: grow, and for
SpeedUp/SlowDown also install the timed speed multiplier (the closure built
in `spawnFoodItem` captures the same duration stored in `Food.Duration`). -/
def applyFoodEffect (now : ℚ) (f : Food) (s : Snake) : Snake :=
  match f.type with
  | FoodTypeStandard => s.grow
  | FoodTypeSpeedUp => (s.grow).applySpeedBoost now (3/2) f.duration
  | FoodTypeSlowDown => (s.grow).applySpeedBoost now (3/5) f.duration

/-- `(*Game).spawnFoodItem`: place a single food item at a random free cell,
with the type chosen by the probability bands of the source (SpeedUp below
0.15, SlowDown below 0.30, Standard otherwise). -/
def spawnFoodItem (g : Game) (rng : Rng) : Game × Rng :=
  if g.foodItems.length ≥ MaxTotalFoodItems then (g, rng)
  else
    let occupied := occupiedCells g
    let occ : Position → Bool := fun p => occupied.contains p
    let r := (randFloat rng).1
    let rng1 := (randFloat rng).2
    let foodType :=
      if r < (15 / 100 : ℚ) then FoodTypeSpeedUp
      else if r < (30 / 100 : ℚ) then FoodTypeSlowDown
      else FoodTypeStandard
    let points : Int :=
      match foodType with
      | FoodTypeStandard => 10
      | FoodTypeSpeedUp => 15
      | FoodTypeSlowDown => 5
    let duration : ℚ :=
      match foodType with
      | FoodTypeStandard => 0
      | FoodTypeSpeedUp => 7
      | FoodTypeSlowDown => 7
    let maxAttempts : Int := GridWidth * GridHeight - occupied.dedup.length
    if maxAttempts ≤ 0 then (g, rng1)
    else
      let spot := findSpotLoop occ (maxAttempts * 2).toNat rng1 ⟨0, 0⟩
      if occ spot.1 then (g, spot.2)
      else
        ({ g with foodItems := g.foodItems ++ [⟨spot.1, foodType, points, duration⟩] }, spot.2)

def scheduleNextFoodSpawn (now : ℚ) (g : Game) : Game :=
  { g with nextFoodSpawnTime := now + FoodSpawnInterval }

def scheduleNextEnemySpawn (now : ℚ) (g : Game) : Game :=
  { g with nextEnemySpawnTime := now + EnemySpawnInterval }

/-- `directionFromTo`: the direction moving one step from `a` toward `b`,
with the source's priority order (up, down, left, right). -/
def directionFromTo (a b : Position) : Direction :=
  if b.y < a.y then DirUp
  else if b.y > a.y then DirDown
  else if b.x < a.x then DirLeft
  else if b.x > a.x then DirRight
  else DirNone

/-- `(*Game).findClosestFood`: nearest food by Manhattan distance, first
encountered wins ties. -/
def findClosestFood (g : Game) (pos : Position) : Option Food :=
  (g.foodItems.foldl
    (fun acc food =>
      let dist := heuristic pos food.pos
      match acc with
      | none => some (food, dist)
      | some (bf, bd) => if dist < bd then some (food, dist) else some (bf, bd))
    none).map Prod.fst

/-- `(*Game).buildObstacleMap`: all player segments (head included), all
other enemies' segments, and this snake's own segments except its head. -/
def buildObstacleMap (g : Game) (self : Snake) : List Position :=
  (match g.playerSnake with | none => [] | some p => p.body)
    ++ ((g.enemySnakes.filter (fun e => e.id ≠ self.id)).map Snake.body).flatten
    ++ self.body.drop 1

/-- The reversal test of `setRandomEnemyDirection`. -/
def isReverseOf (dir cur : Direction) : Bool :=
  (dir == DirUp && cur == DirDown) || (dir == DirDown && cur == DirUp) ||
    (dir == DirLeft && cur == DirRight) || (dir == DirRight && cur == DirLeft)

/-- `(*Game).setRandomEnemyDirection`: pick uniformly among the in-bounds,
obstacle-free, non-reversing directions; keep the current direction when
trapped; always clear the cached path. -/
def setRandomEnemyDirection (g : Game) (s : Snake) (rng : Rng) : Snake × Rng :=
  let head := s.body.headI
  let obstacles := buildObstacleMap g s
  let validDirs := [DirUp, DirDown, DirLeft, DirRight].filter
    (fun dir =>
      ¬ isReverseOf dir s.direction ∧
        isValid (stepPos head dir) GridWidth GridHeight ∧
        ¬ obstacles.contains (stepPos head dir))
  if validDirs.length > 0 then
    let k := (randIntn validDirs.length rng).1
    ({ s with nextDir := validDirs.getD k DirNone, currentPath := [] },
      (randIntn validDirs.length rng).2)
  else
    ({ s with nextDir := s.direction, currentPath := [] }, rng)

/-- The `recalculate:` label block of `updateEnemyAI`: target the closest
food, A* toward it through the obstacle map, fall back to a safe random
direction when there is no food or no path. -/
def enemyRecalculate (g : Game) (s : Snake) (rng : Rng) : Snake × Rng :=
  let head := s.body.headI
  match findClosestFood g head with
  | none => setRandomEnemyDirection g s rng
  | some targetFood =>
    let obstacles := buildObstacleMap g s
    match findPath head targetFood.pos GridWidth GridHeight
        (fun p => obstacles.contains p) with
    | some path =>
      if path.length > 0 then
        let s1 := { s with currentPath := path }
        let newDir := directionFromTo head path.headI
        if newDir ≠ DirNone then ({ s1 with nextDir := newDir }, rng)
        else setRandomEnemyDirection g s1 rng
      else setRandomEnemyDirection g s rng
    | none => setRandomEnemyDirection g s rng

/-- The path-following tail of `updateEnemyAI`: commit the direction toward
the next path step unless it would run into the neck, in which case the
path is invalidated and recalculation runs (the source's `goto`). -/
def followPathStep (g : Game) (s : Snake) (head : Position)
    (bodyRest : List Position) (nextStep : Position) (rng : Rng) : Snake × Rng :=
  let newDir := directionFromTo head nextStep
  if newDir = DirNone then enemyRecalculate g s rng
  else
    match bodyRest with
    | [] => ({ s with nextDir := newDir }, rng)
    | neck :: _ =>
      if stepPos head newDir = neck then
        enemyRecalculate g { s with currentPath := [] } rng
      else ({ s with nextDir := newDir }, rng)

/-- `(*Game).updateEnemyAI`: the Following/Recalculating decision, with the
source's pop-completed-step behavior. -/
def updateEnemyAI (g : Game) (s : Snake) (rng : Rng) : Snake × Rng :=
  match s.body with
  | [] => (s, rng)
  | head :: bodyRest =>
    match s.currentPath with
    | [] => enemyRecalculate g s rng
    | p0 :: pathRest =>
      if p0 = head then
        let s1 := { s with currentPath := pathRest }
        match pathRest with
        | [] => enemyRecalculate g s1 rng
        | nextStep :: _ => followPathStep g s1 head bodyRest nextStep rng
      else followPathStep g s head bodyRest p0 rng

/-- Identifies the snake a movement routine operates on (the `*Snake`
argument of the source): the player, or an enemy by pointer id. -/
inductive SnakeRef where
  | player
  | enemy (id : Nat)
deriving DecidableEq, Repr

def getSnake (g : Game) : SnakeRef → Option Snake
  | .player => g.playerSnake
  | .enemy i => g.enemySnakes.find? (fun e => e.id = i)

def setSnake (g : Game) (r : SnakeRef) (s : Snake) : Game :=
  match r with
  | .player => { g with playerSnake := some s }
  | .enemy i =>
    { g with enemySnakes := g.enemySnakes.map (fun e => if e.id = i then s else e) }

/-- The enemy loop of `checkInterSnakeCollisions`, iterating the collection
in order; pointer comparisons are id comparisons. -/
def interEnemyLoop (g : Game) (s : Snake) (head : Position) :
    List Snake → Game × Bool
  | [] => (g, false)
  | other :: rest =>
    if s.id = other.id ∨ other.body = [] then interEnemyLoop g s head rest
    else
      let otherHead := other.body.headI
      if head = otherHead then
        if s.isPlayer then (removeEnemySnake (triggerGameOver g) other.id, true)
        else (removeEnemySnake (removeEnemySnake g s.id) other.id, true)
      else if (other.body.tail).contains head then
        if s.isPlayer then (triggerGameOver g, true)
        else (removeEnemySnake g s.id, true)
      else interEnemyLoop g s head rest

/-- The first section of `checkInterSnakeCollisions`: an enemy `s` against
the player's head and body; `some` is an early `return true`. -/
def vsPlayerCheck (g : Game) (s : Snake) (head : Position) : Option (Game × Bool) :=
  if s.isPlayer then none
  else
    match g.playerSnake with
    | none => none
    | some p =>
      match p.body with
      | [] => none
      | playerHead :: playerRest =>
        if head = playerHead then
          some (removeEnemySnake (triggerGameOver g) s.id, true)
        else if playerRest.contains head then
          some (removeEnemySnake g s.id, true)
        else none

/-- `(*Game).checkInterSnakeCollisions`: collisions of snake `s` (current
head) against the player and all other snakes; `true` means processing of
`s` must stop. -/
def checkInterSnakeCollisions (g : Game) (s : Snake) : Game × Bool :=
  match s.body with
  | [] => (g, false)
  | head :: _ =>
    match vsPlayerCheck g s head with
    | some res => res
    | none => interEnemyLoop g s head g.enemySnakes

/-- The wall/self/inter-snake collision section run after one finalized
step; the `Bool` is the source's early `return` (stop processing this
snake's remaining progress this frame). -/
def afterMove (g : Game) (ref : SnakeRef) (rng : Rng) : Game × Rng × Bool :=
  match getSnake g ref with
  | none => (g, rng, true)
  | some s =>
    let wallSelf := s.checkCollision GridWidth GridHeight
    if wallSelf.1 ∨ wallSelf.2 then
      if s.isPlayer then (triggerGameOver g, rng, true)
      else (removeEnemySnake g s.id, rng, true)
    else
      let res := checkInterSnakeCollisions g s
      if res.2 then
        if res.1.isOver ∨ isSnakeAlive res.1 s = false then (res.1, rng, true)
        else (res.1, rng, false)
      else (res.1, rng, false)

/-- The source's pop of the just-completed path step at the top of a
finalized step (AI snakes only). -/
def popPathStep (s : Snake) : Snake :=
  if s.isPlayer = false ∧ s.currentPath ≠ [] ∧
      s.currentPath.headI = s.body.headI then
    { s with currentPath := s.currentPath.tail }
  else s

/-- The rebuilt body after a finalized step: new head prepended, old tail
dropped (the tail was already duplicated inside `grow` when food was
eaten, so the net effect there is growth by one). -/
def moveBody (s : Snake) (newHead : Position) : Snake :=
  { s with body := newHead :: s.body.dropLast }

/-- `g.Score += food.Points`, applied for the player only. -/
def addScore (g : Game) (isPl : Bool) (pts : Int) : Game :=
  if isPl then { g with score := g.score + pts } else g

/-- The eaten-marker record: position + timestamp for the player, the
separate position channel for an enemy. -/
def recordEaten (g : Game) (isPl : Bool) (pos : Position) (now : ℚ) : Game :=
  if isPl then { g with foodEatenPos := some pos, foodEatenTime := now }
  else { g with enemyFoodEatenPos := some pos }

/-- Replace the food collection. -/
def withFoodItems (g : Game) (l : List Food) : Game := { g with foodItems := l }

/-- The food-scan and body-rebuild section of one finalized step: find the
first food item on the candidate head cell; if found, award points (player
only), apply the effect, trigger a replacement spawn attempt, record the
eaten marker, rebuild the body and remove the eaten item; otherwise just
rebuild the body. -/
def eatPhase (now : ℚ) (g0 : Game) (ref : SnakeRef) (s3 : Snake)
    (newHead : Position) (rng : Rng) : Game × Rng :=
  match g0.foodItems.findIdx? (fun food => newHead = food.pos) with
  | some i =>
    let food := g0.foodItems.getD i default
    let g1 := addScore g0 s3.isPlayer food.points
    let s4 := applyFoodEffect now food s3
    let g2 := setSnake g1 ref s4
    let g3 := (spawnFoodItem g2 rng).1
    let rng1 := (spawnFoodItem g2 rng).2
    let g4 := recordEaten g3 s4.isPlayer food.pos now
    let g5 := setSnake g4 ref (moveBody s4 newHead)
    (withFoodItems g5 (g5.foodItems.eraseIdx i), rng1)
  | none => (setSnake g0 ref (moveBody s3 newHead), rng)

/-- Step finalization's `PrevBody` snapshot (deep copy of the body) and
direction commit (`s.Direction = s.NextDir`). -/
def commitStep (s : Snake) : Snake :=
  { s with prevBody := s.body, direction := s.nextDir }

/-- One iteration of the `for s.MoveProgress >= 1.0` loop of
`updateSnakeProgress`: consume one unit of progress and finalize exactly one
discrete grid step (path pop, `PrevBody` snapshot, direction commit, food,
body rebuild, collision checks). -/
def finalizeStep (now : ℚ) (g0 : Game) (ref : SnakeRef) (rng : Rng) :
    Game × Rng × Bool :=
  match getSnake g0 ref with
  | none => (g0, rng, true)
  | some s0 =>
    let s2 := popPathStep { s0 with moveProgress := s0.moveProgress - 1 }
    let s3 := commitStep s2
    let newHead := stepPos s3.body.headI s3.direction
    let res := eatPhase now g0 ref s3 newHead rng
    afterMove res.1 ref res.2

/-- The `for s.MoveProgress >= 1.0` loop; each iteration consumes exactly
one unit of progress, so `⌊progress⌋ + 1` units of fuel dominate it. -/
def drainLoop (now : ℚ) : Nat → Game → SnakeRef → Rng → Game × Rng
  | 0, g, _, rng => (g, rng)
  | fuel + 1, g, ref, rng =>
    match getSnake g ref with
    | none => (g, rng)
    | some s =>
      if s.moveProgress ≥ 1 then
        let res := finalizeStep now g ref rng
        if res.2.2 then (res.1, res.2.1)
        else drainLoop now fuel res.1 ref res.2.1
      else (g, rng)

/-- `(*Game).updateSnakeProgress`: accumulate
`speedFactor * Speed * deltaTime` of progress and finalize the due steps. -/
def updateSnakeProgress (now dt : ℚ) (g : Game) (ref : SnakeRef) (rng : Rng) :
    Game × Rng :=
  match getSnake g ref with
  | none => (g, rng)
  | some s =>
    if s.body = [] then (g, rng)
    else
      let moveAmount := s.speedFactor * g.speed * dt
      let s' := { s with moveProgress := s.moveProgress + moveAmount }
      let g' := setSnake g ref s'
      drainLoop now (s'.moveProgress.floor.toNat + 1) g' ref rng

/-- The placement-attempt loop of `(*Game).createEnemy`; `newId` is the
fresh pointer identity the allocation would produce. -/
def createEnemyLoop (occupied : Position → Bool) (newId : Nat) :
    Nat → Rng → Option Snake × Rng
  | 0, rng => (none, rng)
  | fuel + 1, rng =>
    let xr := (randIntn (GridWidth / 4).toNat rng).1
    let rng1 := (randIntn (GridWidth / 4).toNat rng).2
    let startX : Int := GridWidth - GridWidth / 4 + xr
    let yr := (randIntn GridHeight.toNat rng1).1
    let rng2 := (randIntn GridHeight.toNat rng1).2
    let startY : Int := yr
    let cells := (List.range InitialSnakeLen).map
      (fun i => Position.mk (startX + i) startY)
    let validPlacement := cells.all
      (fun p => ¬ occupied p ∧ p.x < GridWidth ∧ 0 ≤ p.x ∧ p.y < GridHeight ∧ 0 ≤ p.y)
    if validPlacement then
      (some
        { id := newId, body := cells, prevBody := cells, direction := DirLeft,
          nextDir := DirLeft, speedFactor := 1, speedTimer := none,
          speedEffectEndTime := 0, isPlayer := false, moveProgress := 0,
          currentPath := [] }, rng2)
    else createEnemyLoop occupied newId fuel rng2

/-- `(*Game).createEnemy`: bounded random placement on the right side of
the grid; `none` is the logged placement failure. -/
def createEnemy (occupied : Position → Bool) (newId : Nat) (rng : Rng) :
    Option Snake × Rng :=
  createEnemyLoop occupied newId ((GridWidth * GridHeight) / 2).toNat rng

/-- The enemy-placement loop of `Reset`, accumulating occupied cells. -/
def createEnemies (occ : List Position) (nextId : Nat) :
    Nat → Rng → List Snake × Rng
  | 0, rng => ([], rng)
  | k + 1, rng =>
    let res := createEnemy (fun p => occ.contains p) nextId rng
    match res.1 with
    | none => createEnemies occ nextId k res.2
    | some e =>
      let rest := createEnemies (occ ++ e.body) (nextId + 1) k res.2
      (e :: rest.1, rest.2)

def spawnInitialFood : Nat → Game → Rng → Game × Rng
  | 0, g, rng => (g, rng)
  | k + 1, g, rng =>
    let res := spawnFoodItem g rng
    spawnInitialFood k res.1 res.2

/-- `(*Game).Reset`: reinitialize the player, the enemies (non-overlapping),
score, flags, food, and the spawn schedules. -/
def Reset (now : ℚ) (g : Game) (rng : Rng) : Game × Rng :=
  let startX : Int := GridWidth / 4
  let startY : Int := GridHeight / 2
  let initialBody := (List.range InitialSnakeLen).map
    (fun i => Position.mk (startX - i) startY)
  let player : Snake :=
    { id := 0, body := initialBody, prevBody := initialBody,
      direction := DirRight, nextDir := DirRight, speedFactor := 1,
      speedTimer := none, speedEffectEndTime := 0, isPlayer := true,
      moveProgress := 0, currentPath := [] }
  let er := createEnemies initialBody 1 NumEnemySnakes rng
  let enemies := er.1
  let g1 :=
    { g with
      playerSnake := some player, enemySnakes := enemies, score := 0,
      speed := InitialSpeed, isOver := false, isPaused := false,
      foodItems := [], foodEatenPos := none, foodEatenTime := 0,
      enemyFoodEatenPos := none, nextSnakeId := 1 + enemies.length }
  let fr := spawnInitialFood InitialFoodItems g1 er.2
  (scheduleNextEnemySpawn now (scheduleNextFoodSpawn now fr.1), fr.2)

/-- `(*Game).spawnEnemyIfPossible`: add a new enemy when below the cap. -/
def spawnEnemyIfPossible (g : Game) (rng : Rng) : Game × Rng :=
  if g.enemySnakes.length < MaxEnemySnakes then
    let occupied := occupiedCells g
    let res := createEnemy (fun p => occupied.contains p) g.nextSnakeId rng
    match res.1 with
    | some e =>
      ({ g with enemySnakes := g.enemySnakes ++ [e],
                nextSnakeId := g.nextSnakeId + 1 }, res.2)
    | none => (g, res.2)
  else (g, rng)

/-- The backwards enemy loop of `(*Game).Update` (`i` counts down from the
collection length at loop entry); reading an index at or beyond the current
length is Go's index-out-of-range panic (`none`), which is reachable when
an earlier iteration removed two enemies. -/
def enemyUpdateLoop (now dt : ℚ) : Nat → Game → Rng → Option (Game × Rng)
  | 0, g, rng => some (g, rng)
  | i + 1, g, rng =>
    if h : i < g.enemySnakes.length then
      let enemy := g.enemySnakes.get ⟨i, h⟩
      let ai := updateEnemyAI g enemy rng
      let g1 := setSnake g (.enemy enemy.id) ai.1
      let res := updateSnakeProgress now dt g1 (.enemy enemy.id) ai.2
      if res.1.isOver then some res
      else enemyUpdateLoop now dt i res.1 res.2
    else none

/-- `(*Game).Update`: one frame of the session (timed spawns, player
movement, enemy AI + movement), skipped entirely when paused or over. -/
def Update (now dt : ℚ) (g : Game) (rng : Rng) : Option (Game × Rng) :=
  if g.isOver ∨ g.isPaused then some (g, rng)
  else
    let fr :=
      if now > g.nextFoodSpawnTime then
        let fr0 := spawnFoodItem g rng
        (scheduleNextFoodSpawn now fr0.1, fr0.2)
      else (g, rng)
    let er :=
      if now > fr.1.nextEnemySpawnTime then
        let er0 := spawnEnemyIfPossible fr.1 fr.2
        (scheduleNextEnemySpawn now er0.1, er0.2)
      else fr
    match er.1.playerSnake with
    | none => enemyUpdateLoop now dt er.1.enemySnakes.length er.1 er.2
    | some _ =>
      let pr := updateSnakeProgress now dt er.1 .player er.2
      if pr.1.isOver then some pr
      else enemyUpdateLoop now dt pr.1.enemySnakes.length pr.1 pr.2

/-! ### Claim-statement helpers and concrete fixtures -/

/-- The exact 180-degree opposite of a travel direction. -/
def oppositeDir : Direction → Direction
  | DirUp => DirDown
  | DirDown => DirUp
  | DirLeft => DirRight
  | DirRight => DirLeft
  | DirNone => DirNone

/-- Everything of a snake except the speed-effect bookkeeping
(`speedTimer`, `speedEffectEndTime`); the collision phase of a step may
stop the player's timer but never touches these components. -/
def snakeCore (s : Snake) :
    Nat × List Position × List Position × Direction × Direction × ℚ × ℚ ×
      Bool × List Position :=
  (s.id, s.body, s.prevBody, s.direction, s.nextDir, s.speedFactor,
    s.moveProgress, s.isPlayer, s.currentPath)

/-- A deterministic oracle used by the concrete witnesses. -/
def testRng : Rng := ⟨fun n => n, fun _ => 1 / 2, 0, 0⟩

/-- A freshly spawned snake in the given shape (fixture builder). -/
def mkSnake (i : Nat) (b : List Position) (d : Direction) (pl : Bool) : Snake :=
  { id := i, body := b, prevBody := b, direction := d, nextDir := d,
    speedFactor := 1, speedTimer := none, speedEffectEndTime := 0,
    isPlayer := pl, moveProgress := 0, currentPath := [] }

def gBase : Game :=
  { playerSnake := some (mkSnake 0 [⟨10, 15⟩, ⟨9, 15⟩, ⟨8, 15⟩] DirRight true)
    enemySnakes := []
    foodItems := []
    score := 0
    speed := 8
    isOver := false
    isPaused := false
    nextFoodSpawnTime := 1000
    nextEnemySpawnTime := 1000
    foodEatenPos := none
    foodEatenTime := 0
    enemyFoodEatenPos := none
    nextSnakeId := 1 }

def gPausedW : Game := { gBase with isPaused := true }

/-- Player one cell from the right wall, with a quarter second of frame
time due (two full steps at speed 8). -/
def gWall : Game :=
  { gBase with
    playerSnake := some (mkSnake 0 [⟨39, 15⟩, ⟨38, 15⟩, ⟨37, 15⟩] DirRight true) }

/-- Player about to step onto a Standard food item. -/
def gEat : Game :=
  { gBase with foodItems := [⟨⟨11, 15⟩, FoodTypeStandard, 10, 0⟩] }

def eBody1 : Snake := mkSnake 1 [⟨20, 10⟩, ⟨21, 10⟩, ⟨22, 10⟩] DirLeft false

/-- Player head resting on a non-head segment of enemy 1. -/
def pHit : Snake := mkSnake 0 [⟨21, 10⟩, ⟨20, 10⟩, ⟨19, 10⟩] DirRight true

def gPB : Game := { gBase with playerSnake := some pHit, enemySnakes := [eBody1] }

def e1h : Snake := mkSnake 1 [⟨19, 10⟩, ⟨20, 10⟩, ⟨21, 10⟩] DirLeft false

def e2h : Snake := mkSnake 2 [⟨19, 10⟩, ⟨18, 10⟩, ⟨17, 10⟩] DirRight false

/-- Two enemies whose heads occupy the same cell. -/
def gEE : Game := { gBase with enemySnakes := [e1h, e2h] }

def eEat : Snake :=
  { (mkSnake 1 [⟨20, 10⟩, ⟨21, 10⟩, ⟨22, 10⟩] DirLeft false) with moveProgress := 1 }

/-- An enemy with one step due, about to land on a SpeedUp food. -/
def gEnEat : Game :=
  { gBase with
    enemySnakes := [eEat]
    foodItems := [⟨⟨19, 10⟩, FoodTypeSpeedUp, 15, 7⟩] }

/-- What the collision phase of a finalized step can never change: score,
food, speed, schedules, the pause flag, the player's core fields, and the
identity of every surviving enemy. -/
def collisionFrame (g g' : Game) : Prop :=
  g'.score = g.score ∧ g'.foodItems = g.foodItems ∧ g'.speed = g.speed ∧
    g'.isPaused = g.isPaused ∧
    g'.nextFoodSpawnTime = g.nextFoodSpawnTime ∧
    g'.nextEnemySpawnTime = g.nextEnemySpawnTime ∧
    g'.playerSnake.map snakeCore = g.playerSnake.map snakeCore ∧
    (∀ e ∈ g'.enemySnakes, e ∈ g.enemySnakes)

/-! ### Specification-side notions for the A* claims

`Adj`, `freeCell`, `Steps`, `RouteList` say what a 4-connected
obstacle-avoiding route is; `segCells` names the cells of an axis-aligned
straight line between two cells, `gridCells` enumerates the grid.  `AInv`
is the A* loop invariant the correctness proof maintains. -/

/-- One of the four neighbor moves of the source. -/
def Adj (p q : Position) : Prop :=
  ∃ off ∈ neighborOffsets, q = ⟨p.x + off.x, p.y + off.y⟩

instance (p q : Position) : Decidable (Adj p q) := by
  unfold Adj; infer_instance

/-- A cell a route may use: in bounds and not an obstacle. -/
def freeCell (w h : Int) (obs : Position → Bool) (p : Position) : Prop :=
  isValid p w h = true ∧ obs p = false

instance (w h : Int) (obs : Position → Bool) (p : Position) :
    Decidable (freeCell w h obs p) := by
  unfold freeCell; infer_instance

/-- `Steps w h obs p q n`: a 4-connected route of `n` steps from `p` to
`q` whose cells after `p` are all in bounds and obstacle-free. -/
inductive Steps (w h : Int) (obs : Position → Bool) : Position → Position → Nat → Prop
  | refl (p : Position) : Steps w h obs p p 0
  | tail {p q r : Position} {n : Nat} : Steps w h obs p q n → Adj q r →
      freeCell w h obs r → Steps w h obs p r (n + 1)

/-- `RouteList w h obs p qs`: the cell list `qs` is a route readable in
travel order from `p`: consecutive cells adjacent, every listed cell in
bounds and obstacle-free. -/
def RouteList (w h : Int) (obs : Position → Bool) : Position → List Position → Prop
  | _, [] => True
  | p, q :: rest => Adj p q ∧ freeCell w h obs q ∧ RouteList w h obs q rest

/-- All cells of the `w × h` grid. -/
def gridCells (w h : Int) : List Position :=
  (List.range h.toNat).flatMap (fun y => (List.range w.toNat).map
    (fun x => ⟨x, y⟩))

/-- The cells of the axis-aligned straight line from `a` (exclusive) to
`b` (inclusive), for a pair sharing a row or a column. -/
def segCells (a b : Position) : List Position :=
  if a.y = b.y then
    (List.range (b.x - a.x).natAbs).map (fun (i : Nat) =>
      (⟨a.x + (if a.x ≤ b.x then Int.ofNat i + 1 else -(Int.ofNat i + 1)),
        a.y⟩ : Position))
  else
    (List.range (b.y - a.y).natAbs).map (fun (i : Nat) =>
      (⟨a.x, a.y + (if a.y ≤ b.y then Int.ofNat i + 1
        else -(Int.ofNat i + 1))⟩ : Position))

/-- The invariant of the A* main loop. -/
structure AInv (w h : Int) (obs : Position → Bool) (start target : Position)
    (st : AState) : Prop where
  keys_nodup : (st.nodes.map Prod.fst).Nodup
  open_nodup : st.openList.Nodup
  closed_nodup : st.closedSet.Nodup
  open_sub : ∀ p ∈ st.openList, p ∈ st.nodes.map Prod.fst
  closed_sub : ∀ p ∈ st.closedSet, p ∈ st.nodes.map Prod.fst
  key_split : ∀ p ∈ st.nodes.map Prod.fst,
    (p ∈ st.openList ∧ p ∉ st.closedSet) ∨ (p ∈ st.closedSet ∧ p ∉ st.openList)
  keys_valid : ∀ p ∈ st.nodes.map Prod.fst, p = start ∨ freeCell w h obs p
  start_key : start ∈ st.nodes.map Prod.fst
  start_node : ∀ a, lookupNode st.nodes start = some a → a.g = 0 ∧ a.parent = none
  g_nonneg : ∀ p a, lookupNode st.nodes p = some a → 0 ≤ a.g
  hf_def : ∀ p a, lookupNode st.nodes p = some a →
    a.h = heuristic p target ∧ a.f = a.g + a.h
  parent_prop : ∀ p a, lookupNode st.nodes p = some a → p ≠ start →
    ∃ q b, a.parent = some q ∧ lookupNode st.nodes q = some b ∧ Adj q p ∧
      freeCell w h obs p ∧ a.g = b.g + 1 ∧ q ∈ st.closedSet
  closed_exp : ∀ p ∈ st.closedSet, ∀ a, lookupNode st.nodes p = some a →
    ∀ q, Adj p q → freeCell w h obs q → q ∉ st.closedSet →
      ∃ b, lookupNode st.nodes q = some b ∧ q ∈ st.openList ∧ b.g ≤ a.g + 1
  closed_opt : ∀ p ∈ st.closedSet, ∀ a, lookupNode st.nodes p = some a →
    ∀ n, Steps w h obs start p n → a.g ≤ (n : Int)
  target_open : target ∉ st.closedSet

/-- The parts of `AInv` that one neighbor-processing call preserves
locally (the closed-set properties are re-assembled per loop iteration). -/
structure ACore (w h : Int) (obs : Position → Bool) (start target : Position)
    (st : AState) : Prop where
  keys_nodup : (st.nodes.map Prod.fst).Nodup
  open_nodup : st.openList.Nodup
  closed_nodup : st.closedSet.Nodup
  open_sub : ∀ p ∈ st.openList, p ∈ st.nodes.map Prod.fst
  closed_sub : ∀ p ∈ st.closedSet, p ∈ st.nodes.map Prod.fst
  key_split : ∀ p ∈ st.nodes.map Prod.fst,
    (p ∈ st.openList ∧ p ∉ st.closedSet) ∨ (p ∈ st.closedSet ∧ p ∉ st.openList)
  keys_valid : ∀ p ∈ st.nodes.map Prod.fst, p = start ∨ freeCell w h obs p
  start_key : start ∈ st.nodes.map Prod.fst
  start_node : ∀ a, lookupNode st.nodes start = some a → a.g = 0 ∧ a.parent = none
  g_nonneg : ∀ p a, lookupNode st.nodes p = some a → 0 ≤ a.g
  hf_def : ∀ p a, lookupNode st.nodes p = some a →
    a.h = heuristic p target ∧ a.f = a.g + a.h
  parent_prop : ∀ p a, lookupNode st.nodes p = some a → p ≠ start →
    ∃ q b, a.parent = some q ∧ lookupNode st.nodes q = some b ∧ Adj q p ∧
      freeCell w h obs p ∧ a.g = b.g + 1 ∧ q ∈ st.closedSet

/-! ### Theorems -/

/-- C6: calling `HandleInput` with the exact 180-degree opposite of the
player's currently committed direction leaves the game (in particular
`nextDir`) unchanged, and calling it with any non-opposite travel direction
buffers that direction into `nextDir`. -/
theorem handleInput_reversal_rule (g : Game) (p : Snake) (d : Direction)
    (hp : g.playerSnake = some p) (hdir : p.direction ≠ DirNone) :
    (d = oppositeDir p.direction → HandleInput g d = some g) ∧
    (d ≠ DirNone → d ≠ oppositeDir p.direction →
      HandleInput g d = some { g with playerSnake := some { p with nextDir := d } }) := by
  constructor
  · intro hopp
    cases hd : p.direction <;> rw [hd] at hopp <;> subst hopp <;>
      simp_all [HandleInput, oppositeDir, hd]
  · intro hne hnopp
    cases hd : p.direction <;> rw [hd] at hnopp <;> cases d <;>
      simp_all [HandleInput, oppositeDir]

/-- Witness for C6 at a concrete state: with the player committed to
`DirRight`, `DirLeft` is rejected and `DirUp` is buffered. -/
theorem handleInput_reversal_rule_witness :
    HandleInput gBase DirLeft = some gBase ∧
    (HandleInput gBase DirUp).map (fun g' => g'.playerSnake.map Snake.nextDir) =
      some (some DirUp) := by
  have h := handleInput_reversal_rule gBase
    (mkSnake 0 [⟨10, 15⟩, ⟨9, 15⟩, ⟨8, 15⟩] DirRight true) DirLeft rfl (by decide)
  have h2 := handleInput_reversal_rule gBase
    (mkSnake 0 [⟨10, 15⟩, ⟨9, 15⟩, ⟨8, 15⟩] DirRight true) DirUp rfl (by decide)
  refine ⟨h.1 rfl, ?_⟩
  rw [h2.2 (by decide) (by decide)]
  rfl

/-- C9: calling `HandleInput` with the `DirNone` sentinel always buffers
`DirNone` into the player's `nextDir` (the reversal filter only rejects the
four exact-opposite pairs, so `DirNone` passes through and overwrites any
previously buffered direction). -/
theorem handleInput_none_overwrites (g : Game) (p : Snake)
    (hp : g.playerSnake = some p) :
    HandleInput g DirNone =
      some { g with playerSnake := some { p with nextDir := DirNone } } := by
  simp [HandleInput, hp]

/-- Witness for C9 at a concrete state: the buffered `DirRight` is
overwritten by `DirNone`. -/
theorem handleInput_none_overwrites_witness :
    (HandleInput gBase DirNone).map (fun g' => g'.playerSnake.map Snake.nextDir) =
      some (some DirNone) := by
  rw [handleInput_none_overwrites gBase
    (mkSnake 0 [⟨10, 15⟩, ⟨9, 15⟩, ⟨8, 15⟩] DirRight true) rfl]
  rfl

/-- C8: when the session is paused or over, `Update` returns immediately
and leaves the entire session state (and the randomness oracle)
unchanged. -/
theorem update_skipped_when_paused_or_over (now dt : ℚ) (g : Game) (rng : Rng)
    (h : g.isOver = true ∨ g.isPaused = true) :
    Update now dt g rng = some (g, rng) := by
  rcases h with h | h <;> simp [Update, h]

/-- Witness for C8 at a concrete paused state. -/
theorem update_skipped_when_paused_or_over_witness :
    Update 5 (1 / 60) gPausedW testRng = some (gPausedW, testRng) :=
  update_skipped_when_paused_or_over 5 (1 / 60) gPausedW testRng (Or.inr rfl)

/-- When the player's head rests on some enemy's non-head segment and on no
enemy head, the enemy loop ends the game and removes nobody. -/
theorem interEnemyLoop_playerBodyHit (g : Game) (s : Snake) (head : Position)
    (hsp : s.isPlayer = true) :
    ∀ l : List Snake, (∀ e ∈ l, e.id ≠ s.id) →
      (∃ e ∈ l, head ∈ e.body.tail) →
      (∀ e ∈ l, e.body ≠ [] → e.body.headI ≠ head) →
      interEnemyLoop g s head l = (triggerGameOver g, true) := by
  intro l
  induction l with
  | nil => rintro _ ⟨e, he, _⟩ _; exact absurd he (List.not_mem_nil e)
  | cons a rest ih =>
    intro hid hhit hnohead
    by_cases hskip : s.id = a.id ∨ a.body = []
    · have hbody : a.body = [] := by
        rcases hskip with h | h
        · exact absurd h.symm (hid a (List.mem_cons_self a rest))
        · exact h
      rw [interEnemyLoop, if_pos hskip]
      refine ih (fun e he => hid e (List.mem_cons_of_mem a he)) ?_
        (fun e he => hnohead e (List.mem_cons_of_mem a he))
      rcases hhit with ⟨e, he, hc⟩
      rcases List.mem_cons.mp he with rfl | he'
      · rw [hbody] at hc; simp at hc
      · exact ⟨e, he', hc⟩
    · push_neg at hskip
      rw [interEnemyLoop, if_neg (not_or.mpr ⟨hskip.1, hskip.2⟩)]
      have hnh : ¬ (head = a.body.headI) := fun h =>
        hnohead a (List.mem_cons_self a rest) hskip.2 h.symm
      rw [if_neg hnh]
      by_cases hc : head ∈ a.body.tail
      · rw [if_pos (by simpa using hc), if_pos hsp]
      · rw [if_neg (by simpa using hc)]
        refine ih (fun e he => hid e (List.mem_cons_of_mem a he)) ?_
          (fun e he => hnohead e (List.mem_cons_of_mem a he))
        rcases hhit with ⟨e, he, hce⟩
        rcases List.mem_cons.mp he with rfl | he'
        · exact absurd hce hc
        · exact ⟨e, he', hce⟩

/-- When an enemy's head rests on exactly the head of one other enemy (and
touches nothing else), the enemy loop removes both. -/
theorem interEnemyLoop_enemyHeadOn (g : Game) (s : Snake) (head : Position)
    (hsp : s.isPlayer = false) :
    ∀ l : List Snake, (l.map Snake.id).Nodup →
      ∀ other ∈ l, other.id ≠ s.id → other.body ≠ [] → other.body.headI = head →
      (∀ e ∈ l, e.id ≠ s.id → e.id ≠ other.id →
        e.body = [] ∨ (e.body.headI ≠ head ∧ head ∉ e.body.tail)) →
      interEnemyLoop g s head l =
        (removeEnemySnake (removeEnemySnake g s.id) other.id, true) := by
  intro l
  induction l with
  | nil => rintro _ other ho; exact absurd ho (List.not_mem_nil other)
  | cons a rest ih =>
    intro hnd other hmem hos hob hoh hrest
    rcases List.mem_cons.mp hmem with rfl | hmem'
    · rw [interEnemyLoop, if_neg (not_or.mpr ⟨fun h => hos h.symm, hob⟩),
        if_pos hoh.symm, if_neg (by simp [hsp])]
    · have haid : a.id ≠ other.id := by
        intro h
        have hor : other.id ∈ rest.map Snake.id := List.mem_map_of_mem Snake.id hmem'
        rw [← h] at hor
        exact (List.nodup_cons.mp hnd).1 hor
      by_cases hskip : s.id = a.id ∨ a.body = []
      · rw [interEnemyLoop, if_pos hskip]
        exact ih (List.nodup_cons.mp hnd).2 other hmem' hos hob hoh
          (fun e he => hrest e (List.mem_cons_of_mem a he))
      · push_neg at hskip
        rcases hrest a (List.mem_cons_self a rest) (fun h => hskip.1 h.symm) haid with
          hb | ⟨hh, hc⟩
        · exact absurd hb hskip.2
        · rw [interEnemyLoop, if_neg (not_or.mpr ⟨hskip.1, hskip.2⟩),
            if_neg (fun h => hh h.symm), if_neg (by simpa using hc)]
          exact ih (List.nodup_cons.mp hnd).2 other hmem' hos hob hoh
            (fun e he => hrest e (List.mem_cons_of_mem a he))

theorem triggerGameOver_isOver (g : Game) : (triggerGameOver g).isOver = true := by
  unfold triggerGameOver
  cases g.playerSnake <;> rfl

theorem triggerGameOver_enemies (g : Game) :
    (triggerGameOver g).enemySnakes = g.enemySnakes := by
  unfold triggerGameOver
  cases g.playerSnake <;> rfl

theorem checkInterSnakeCollisions_cons (g : Game) (s : Snake) (head : Position)
    (t : List Position) (hbody : s.body = head :: t) :
    checkInterSnakeCollisions g s =
      (match vsPlayerCheck g s head with
        | some res => res
        | none => interEnemyLoop g s head g.enemySnakes) := by
  unfold checkInterSnakeCollisions
  rw [hbody]

/-- C2: the inter-snake collision outcomes match the specified table; in
particular (A) when the player's head lands on a non-head segment of a
living enemy (and on no enemy head), the game is set over and every enemy
— including that one — remains in the collection, and (B) when an enemy's
head lands on exactly another enemy's head (touching neither the player nor
any third snake), both enemies are removed from the collection in that
step. -/
theorem checkInterSnakeCollisions_matches_table (g : Game) (s : Snake)
    (head : Position) (t : List Position) (hbody : s.body = head :: t) :
    ((s.isPlayer = true) →
      (∀ e ∈ g.enemySnakes, e.id ≠ s.id) →
      (∃ e ∈ g.enemySnakes, head ∈ e.body.tail) →
      (∀ e ∈ g.enemySnakes, e.body ≠ [] → e.body.headI ≠ head) →
      (checkInterSnakeCollisions g s).1.isOver = true ∧
        (checkInterSnakeCollisions g s).1.enemySnakes = g.enemySnakes ∧
        (checkInterSnakeCollisions g s).2 = true) ∧
    ((s.isPlayer = false) →
      (∀ p, g.playerSnake = some p → head ∉ p.body) →
      (g.enemySnakes.map Snake.id).Nodup →
      ∀ other ∈ g.enemySnakes, other.id ≠ s.id → other.body ≠ [] →
        other.body.headI = head →
      (∀ e ∈ g.enemySnakes, e.id ≠ s.id → e.id ≠ other.id →
        e.body = [] ∨ (e.body.headI ≠ head ∧ head ∉ e.body.tail)) →
      (checkInterSnakeCollisions g s).1.enemySnakes =
          (g.enemySnakes.filter (fun e => e.id ≠ s.id)).filter
            (fun e => e.id ≠ other.id) ∧
        (checkInterSnakeCollisions g s).1.isOver = g.isOver ∧
        (checkInterSnakeCollisions g s).2 = true) := by
  constructor
  · intro hsp hid hhit hnohead
    have hres : checkInterSnakeCollisions g s = (triggerGameOver g, true) := by
      rw [checkInterSnakeCollisions_cons g s head t hbody]
      have hvs : vsPlayerCheck g s head = none := by
        unfold vsPlayerCheck
        rw [if_pos hsp]
      rw [hvs]
      exact interEnemyLoop_playerBodyHit g s head hsp g.enemySnakes hid hhit hnohead
    rw [hres]
    exact ⟨triggerGameOver_isOver g, triggerGameOver_enemies g, rfl⟩
  · intro hsp hplayer hnd other hmem hos hob hoh hrest
    have hres : checkInterSnakeCollisions g s =
        (removeEnemySnake (removeEnemySnake g s.id) other.id, true) := by
      rw [checkInterSnakeCollisions_cons g s head t hbody]
      have hvs : vsPlayerCheck g s head = none := by
        unfold vsPlayerCheck
        rw [if_neg (by simp [hsp])]
        split
        · rfl
        next p hp =>
          have hnp := hplayer p hp
          split
          · rfl
          next playerHead playerRest hpb =>
            rw [hpb] at hnp
            have h1 : ¬ (head = playerHead) := fun h => hnp (by
              rw [h]; exact List.mem_cons_self playerHead playerRest)
            have h2 : head ∉ playerRest := fun h => hnp (List.mem_cons_of_mem _ h)
            rw [if_neg h1, if_neg (by simpa using h2)]
      rw [hvs]
      exact interEnemyLoop_enemyHeadOn g s head hsp g.enemySnakes hnd other hmem
        hos hob hoh hrest
    rw [hres]
    exact ⟨rfl, rfl, rfl⟩

/-- Witness for C2 at concrete states: (A) the player's head on enemy 1's
middle segment ends the game and keeps the enemy; (B) two enemies head-on
are both removed. -/
theorem checkInterSnakeCollisions_matches_table_witness :
    ((checkInterSnakeCollisions gPB pHit).1.isOver = true ∧
      (checkInterSnakeCollisions gPB pHit).1.enemySnakes = gPB.enemySnakes) ∧
    ((checkInterSnakeCollisions gEE e1h).1.enemySnakes = [] ∧
      (checkInterSnakeCollisions gEE e1h).2 = true) := by
  have hA := (checkInterSnakeCollisions_matches_table gPB pHit ⟨21, 10⟩
    [⟨20, 10⟩, ⟨19, 10⟩] rfl).1 rfl (by decide)
    ⟨eBody1, by decide, by decide⟩ (by decide)
  have hB := (checkInterSnakeCollisions_matches_table gEE e1h ⟨19, 10⟩
    [⟨20, 10⟩, ⟨21, 10⟩] rfl).2 rfl
    (fun p hp => by rw [← Option.some.inj hp]; decide)
    (by decide) e2h (by decide) (by decide) (by decide) (by decide) (by decide)
  refine ⟨⟨hA.1, hA.2.1⟩, ?_, hB.2.2⟩
  rw [hB.1]
  decide

theorem collisionFrame_refl (g : Game) : collisionFrame g g :=
  ⟨rfl, rfl, rfl, rfl, rfl, rfl, rfl, fun _ he => he⟩

theorem collisionFrame_trans {g1 g2 g3 : Game} (h12 : collisionFrame g1 g2)
    (h23 : collisionFrame g2 g3) : collisionFrame g1 g3 := by
  obtain ⟨a1, a2, a3, a4, a5, a6, a7, a8⟩ := h12
  obtain ⟨b1, b2, b3, b4, b5, b6, b7, b8⟩ := h23
  exact ⟨b1.trans a1, b2.trans a2, b3.trans a3, b4.trans a4, b5.trans a5,
    b6.trans a6, b7.trans a7, fun e he => a8 e (b8 e he)⟩

theorem collisionFrame_triggerGameOver (g : Game) :
    collisionFrame g (triggerGameOver g) := by
  unfold triggerGameOver
  cases hp : g.playerSnake with
  | none => exact ⟨rfl, rfl, rfl, rfl, rfl, rfl, by simp [hp], fun _ he => he⟩
  | some p =>
    refine ⟨rfl, rfl, rfl, rfl, rfl, rfl, ?_, fun _ he => he⟩
    simp [hp, snakeCore]

theorem collisionFrame_removeEnemySnake (g : Game) (i : Nat) :
    collisionFrame g (removeEnemySnake g i) := by
  refine ⟨rfl, rfl, rfl, rfl, rfl, rfl, rfl, fun e he => ?_⟩
  exact List.mem_of_mem_filter he

theorem collisionFrame_interEnemyLoop (g : Game) (s : Snake) (head : Position) :
    ∀ l : List Snake, collisionFrame g (interEnemyLoop g s head l).1 := by
  intro l
  induction l with
  | nil => exact collisionFrame_refl g
  | cons a rest ih =>
    rw [interEnemyLoop]
    by_cases hskip : s.id = a.id ∨ a.body = []
    · rw [if_pos hskip]; exact ih
    · rw [if_neg hskip]
      by_cases hh : head = a.body.headI
      · rw [if_pos hh]
        by_cases hp : s.isPlayer
        · rw [if_pos hp]
          exact collisionFrame_trans (collisionFrame_triggerGameOver g)
            (collisionFrame_removeEnemySnake _ a.id)
        · rw [if_neg hp]
          exact collisionFrame_trans (collisionFrame_removeEnemySnake g s.id)
            (collisionFrame_removeEnemySnake _ a.id)
      · rw [if_neg hh]
        by_cases hc : (a.body.tail).contains head
        · rw [if_pos hc]
          by_cases hp : s.isPlayer
          · rw [if_pos hp]; exact collisionFrame_triggerGameOver g
          · rw [if_neg hp]; exact collisionFrame_removeEnemySnake g s.id
        · rw [if_neg hc]; exact ih

theorem vsPlayerCheck_cases (g : Game) (s : Snake) (head : Position)
    (res : Game × Bool) (hvs : vsPlayerCheck g s head = some res) :
    res.1 = removeEnemySnake (triggerGameOver g) s.id ∨
      res.1 = removeEnemySnake g s.id := by
  unfold vsPlayerCheck at hvs
  by_cases hp : s.isPlayer
  · rw [if_pos hp] at hvs; exact absurd hvs (by simp)
  · rw [if_neg hp] at hvs
    cases hps : g.playerSnake with
    | none => rw [hps] at hvs; exact absurd hvs (by simp)
    | some p =>
      rw [hps] at hvs
      dsimp only at hvs
      cases hpb : p.body with
      | nil => rw [hpb] at hvs; exact absurd hvs (by simp)
      | cons playerHead playerRest =>
        rw [hpb] at hvs
        dsimp only at hvs
        by_cases h1 : head = playerHead
        · rw [if_pos h1] at hvs
          cases hvs
          exact Or.inl rfl
        · rw [if_neg h1] at hvs
          by_cases h2 : playerRest.contains head
          · rw [if_pos h2] at hvs
            cases hvs
            exact Or.inr rfl
          · rw [if_neg h2] at hvs; exact absurd hvs (by simp)

theorem collisionFrame_check (g : Game) (s : Snake) :
    collisionFrame g (checkInterSnakeCollisions g s).1 := by
  unfold checkInterSnakeCollisions
  cases hb : s.body with
  | nil => exact collisionFrame_refl g
  | cons head t =>
    dsimp only
    cases hvs : vsPlayerCheck g s head with
    | none => exact collisionFrame_interEnemyLoop g s head g.enemySnakes
    | some res =>
      rcases vsPlayerCheck_cases g s head res hvs with h | h <;> rw [h]
      · exact collisionFrame_trans (collisionFrame_triggerGameOver g)
          (collisionFrame_removeEnemySnake _ s.id)
      · exact collisionFrame_removeEnemySnake g s.id

theorem collisionFrame_afterMove (g : Game) (ref : SnakeRef) (rng : Rng) :
    collisionFrame g (afterMove g ref rng).1 := by
  unfold afterMove
  cases hs : getSnake g ref with
  | none => exact collisionFrame_refl g
  | some s =>
    dsimp only
    by_cases hw : (s.checkCollision GridWidth GridHeight).1 = true ∨
        (s.checkCollision GridWidth GridHeight).2 = true
    · rw [if_pos hw]
      by_cases hp : s.isPlayer
      · rw [if_pos hp]; exact collisionFrame_triggerGameOver g
      · rw [if_neg hp]; exact collisionFrame_removeEnemySnake g s.id
    · rw [if_neg hw]
      by_cases hc : (checkInterSnakeCollisions g s).2 = true
      · rw [if_pos hc]
        by_cases hstop : (checkInterSnakeCollisions g s).1.isOver = true ∨
            isSnakeAlive (checkInterSnakeCollisions g s).1 s = false
        · rw [if_pos hstop]; exact collisionFrame_check g s
        · rw [if_neg hstop]; exact collisionFrame_check g s
      · rw [if_neg hc]; exact collisionFrame_check g s

theorem findIdx?_concrete {α : Type} (p : α → Bool) (pre post : List α) (a : α)
    (hpre : ∀ x ∈ pre, p x = false) (ha : p a = true) :
    (pre ++ a :: post).findIdx? p = some pre.length := by
  induction pre with
  | nil => rw [List.nil_append, List.findIdx?_cons, if_pos ha]; rfl
  | cons b rest ih =>
    have hb : p b = false := hpre b (List.mem_cons_self b rest)
    rw [List.cons_append, List.findIdx?_cons, hb]
    simp only [Bool.false_eq_true, if_false]
    rw [List.findIdx?_succ]
    rw [ih (fun x hx => hpre x (List.mem_cons_of_mem b hx))]
    rfl

theorem getD_concrete {α : Type} [Inhabited α] (pre post : List α) (a : α) (d : α) :
    (pre ++ a :: post).getD pre.length d = a := by
  induction pre with
  | nil => rfl
  | cons b rest ih => simpa using ih

theorem eraseIdx_concrete {α : Type} (pre post : List α) (a : α) :
    (pre ++ a :: post).eraseIdx pre.length = pre ++ post := by
  induction pre with
  | nil => rfl
  | cons b rest ih => simpa using ih

/-- `spawnFoodItem` only appends at most one new item, placed on a cell
that was unoccupied (in particular carrying none of the existing food
positions), and changes nothing else of the game. -/
theorem spawnFoodItem_extends (g : Game) (rng : Rng) :
    ∃ tail, (spawnFoodItem g rng).1 = { g with foodItems := g.foodItems ++ tail } ∧
      (∀ f ∈ tail, f.pos ∉ occupiedCells g) ∧ tail.length ≤ 1 := by
  unfold spawnFoodItem
  by_cases hmax : g.foodItems.length ≥ MaxTotalFoodItems
  · rw [if_pos hmax]
    exact ⟨[], by simp, by simp, by simp⟩
  · rw [if_neg hmax]
    dsimp only
    by_cases hcap : (GridWidth * GridHeight - ((occupiedCells g).dedup.length : Int)) ≤ 0
    · rw [if_pos hcap]
      exact ⟨[], by simp, by simp, by simp⟩
    · rw [if_neg hcap]
      by_cases hocc : (occupiedCells g).contains
          (findSpotLoop (fun p => (occupiedCells g).contains p)
            ((GridWidth * GridHeight - ((occupiedCells g).dedup.length : Int)) * 2).toNat
            (randFloat rng).2 ⟨0, 0⟩).1
      · rw [if_pos hocc]
        exact ⟨[], by simp, by simp, by simp⟩
      · rw [if_neg hocc]
        refine ⟨_, rfl, ?_, by simp⟩
        intro f hf
        rcases List.mem_singleton.mp hf with rfl
        simpa using hocc

theorem grow_fields (s : Snake) :
    (s.grow).id = s.id ∧ (s.grow).direction = s.direction ∧
      (s.grow).nextDir = s.nextDir ∧ (s.grow).speedFactor = s.speedFactor ∧
      (s.grow).moveProgress = s.moveProgress ∧ (s.grow).isPlayer = s.isPlayer ∧
      (s.grow).currentPath = s.currentPath ∧ (s.grow).speedTimer = s.speedTimer ∧
      (s.grow).speedEffectEndTime = s.speedEffectEndTime := by
  unfold Snake.grow
  cases s.body.getLast? with
  | none => exact ⟨rfl, rfl, rfl, rfl, rfl, rfl, rfl, rfl, rfl⟩
  | some tail =>
    dsimp only
    cases s.prevBody.getLast? <;>
      exact ⟨rfl, rfl, rfl, rfl, rfl, rfl, rfl, rfl, rfl⟩

theorem grow_lengths (s : Snake) (hb : s.body ≠ []) :
    (s.grow).body.length = s.body.length + 1 ∧
      (s.grow).prevBody.length = s.prevBody.length + 1 := by
  unfold Snake.grow
  cases hl : s.body.getLast? with
  | none => exact absurd (List.getLast?_eq_none_iff.mp hl) hb
  | some tail =>
    dsimp only
    cases s.prevBody.getLast? <;> simp

theorem applySpeedBoost_fields (s : Snake) (now factor duration : ℚ) :
    (s.applySpeedBoost now factor duration).id = s.id ∧
      (s.applySpeedBoost now factor duration).body = s.body ∧
      (s.applySpeedBoost now factor duration).prevBody = s.prevBody ∧
      (s.applySpeedBoost now factor duration).direction = s.direction ∧
      (s.applySpeedBoost now factor duration).nextDir = s.nextDir ∧
      (s.applySpeedBoost now factor duration).moveProgress = s.moveProgress ∧
      (s.applySpeedBoost now factor duration).isPlayer = s.isPlayer ∧
      (s.applySpeedBoost now factor duration).currentPath = s.currentPath ∧
      (s.applySpeedBoost now factor duration).speedFactor = factor :=
  ⟨rfl, rfl, rfl, rfl, rfl, rfl, rfl, rfl, rfl⟩

/-- The effect of a food item on the eating snake: the body and `prevBody`
each gain one segment, the speed factor becomes 1.5 / 0.6 for the speed
foods and is untouched for Standard, and all other core state persists. -/
theorem applyFoodEffect_spec (now : ℚ) (fd : Food) (s : Snake) (hb : s.body ≠ []) :
    (applyFoodEffect now fd s).body.length = s.body.length + 1 ∧
      (applyFoodEffect now fd s).prevBody.length = s.prevBody.length + 1 ∧
      (applyFoodEffect now fd s).id = s.id ∧
      (applyFoodEffect now fd s).isPlayer = s.isPlayer ∧
      (applyFoodEffect now fd s).moveProgress = s.moveProgress ∧
      (applyFoodEffect now fd s).direction = s.direction ∧
      (applyFoodEffect now fd s).nextDir = s.nextDir ∧
      (applyFoodEffect now fd s).speedFactor =
        (match fd.type with
          | FoodTypeStandard => s.speedFactor
          | FoodTypeSpeedUp => (3 / 2 : ℚ)
          | FoodTypeSlowDown => (3 / 5 : ℚ)) := by
  obtain ⟨gid, gdir, gnext, gfac, gmov, gpl, gpath, _, _⟩ := grow_fields s
  obtain ⟨glen, gplen⟩ := grow_lengths s hb
  unfold applyFoodEffect
  cases fd.type with
  | FoodTypeStandard => exact ⟨glen, gplen, gid, gpl, gmov, gdir, gnext, gfac⟩
  | FoodTypeSpeedUp =>
    obtain ⟨bid, bbody, bprev, bdir, bnext, bmov, bpl, bpath, bfac⟩ :=
      applySpeedBoost_fields s.grow now (3 / 2) fd.duration
    exact ⟨by rw [bbody]; exact glen, by rw [bprev]; exact gplen,
      by rw [bid]; exact gid, by rw [bpl]; exact gpl, by rw [bmov]; exact gmov,
      by rw [bdir]; exact gdir, by rw [bnext]; exact gnext, bfac⟩
  | FoodTypeSlowDown =>
    obtain ⟨bid, bbody, bprev, bdir, bnext, bmov, bpl, bpath, bfac⟩ :=
      applySpeedBoost_fields s.grow now (3 / 5) fd.duration
    exact ⟨by rw [bbody]; exact glen, by rw [bprev]; exact gplen,
      by rw [bid]; exact gid, by rw [bpl]; exact gpl, by rw [bmov]; exact gmov,
      by rw [bdir]; exact gdir, by rw [bnext]; exact gnext, bfac⟩

theorem getSnake_enemy_facts (g : Game) (i : Nat) (s : Snake)
    (h : getSnake g (.enemy i) = some s) : s ∈ g.enemySnakes ∧ s.id = i := by
  unfold getSnake at h
  exact ⟨List.mem_of_find?_eq_some h, by simpa using List.find?_some h⟩

theorem setSnake_enemy_mem (g : Game) (i : Nat) (s x : Snake)
    (hx : x ∈ (setSnake g (.enemy i) s).enemySnakes) :
    (∃ e ∈ g.enemySnakes, e.id = i ∧ x = s) ∨ (x ∈ g.enemySnakes ∧ x.id ≠ i ∧ x ≠ s) ∨
      (x ∈ g.enemySnakes ∧ x = s) := by
  unfold setSnake at hx
  dsimp only at hx
  rcases List.mem_map.mp hx with ⟨e, he, hmap⟩
  by_cases hei : e.id = i
  · rw [if_pos hei] at hmap
    exact Or.inl ⟨e, he, hei, hmap.symm⟩
  · rw [if_neg hei] at hmap
    by_cases hxs : x = s
    · exact Or.inr (Or.inr ⟨hmap ▸ he, hxs⟩)
    · exact Or.inr (Or.inl ⟨hmap ▸ he, hmap ▸ hei, hxs⟩)

theorem setSnake_enemy_mem_id (g : Game) (i : Nat) (s x : Snake)
    (hsid : s.id = i) (hx : x ∈ (setSnake g (.enemy i) s).enemySnakes)
    (hxi : x.id = i) : x = s := by
  rcases setSnake_enemy_mem g i s x hx with ⟨e, _, _, hxs⟩ | ⟨_, hne, _⟩ | ⟨_, hxs⟩
  · exact hxs
  · exact absurd hxi hne
  · exact hxs

theorem find?_map_replace (i : Nat) (s : Snake) (hsid : s.id = i) :
    ∀ l : List Snake, (∃ e ∈ l, e.id = i) →
      (l.map (fun e => if e.id = i then s else e)).find?
        (fun e => e.id = i) = some s := by
  intro l
  induction l with
  | nil => rintro ⟨e0, he0, _⟩; exact absurd he0 (List.not_mem_nil e0)
  | cons a rest ih =>
    rintro ⟨e0, he0, hei0⟩
    rw [List.map_cons]
    by_cases hai : a.id = i
    · rw [if_pos hai, List.find?_cons_of_pos _ (by simpa using hsid)]
    · rw [if_neg hai, List.find?_cons_of_neg _ (by simpa using hai)]
      rcases List.mem_cons.mp he0 with rfl | he0'
      · exact absurd hei0 hai
      · exact ih ⟨e0, he0', hei0⟩

theorem getSnake_set_enemy (g : Game) (i : Nat) (s : Snake)
    (hmem : ∃ e ∈ g.enemySnakes, e.id = i) (hsid : s.id = i) :
    getSnake (setSnake g (.enemy i) s) (.enemy i) = some s := by
  unfold getSnake setSnake
  exact find?_map_replace i s hsid g.enemySnakes hmem

theorem popPathStep_fields (s : Snake) :
    (popPathStep s).id = s.id ∧ (popPathStep s).body = s.body ∧
      (popPathStep s).prevBody = s.prevBody ∧
      (popPathStep s).direction = s.direction ∧
      (popPathStep s).nextDir = s.nextDir ∧
      (popPathStep s).speedFactor = s.speedFactor ∧
      (popPathStep s).moveProgress = s.moveProgress ∧
      (popPathStep s).isPlayer = s.isPlayer := by
  unfold popPathStep
  split <;> exact ⟨rfl, rfl, rfl, rfl, rfl, rfl, rfl, rfl⟩

theorem setSnake_foodItems (g : Game) (r : SnakeRef) (s : Snake) :
    (setSnake g r s).foodItems = g.foodItems := by
  cases r <;> rfl

theorem setSnake_score (g : Game) (r : SnakeRef) (s : Snake) :
    (setSnake g r s).score = g.score := by
  cases r <;> rfl

theorem setSnake_isOver (g : Game) (r : SnakeRef) (s : Snake) :
    (setSnake g r s).isOver = g.isOver := by
  cases r <;> rfl

theorem afterMove_lookup_player (G : Game) (rng : Rng) (s' : Snake)
    (h : getSnake (afterMove G .player rng).1 .player = some s') :
    G.playerSnake.map snakeCore = some (snakeCore s') := by
  have hframe := collisionFrame_afterMove G .player rng
  have hmap := hframe.2.2.2.2.2.2.1
  have h' : (afterMove G .player rng).1.playerSnake = some s' := h
  rw [h'] at hmap
  exact hmap.symm

theorem afterMove_lookup_enemy (G : Game) (rng : Rng) (i : Nat) (s5 : Snake)
    (hall : ∀ x ∈ G.enemySnakes, x.id = i → x = s5) (s' : Snake)
    (h : getSnake (afterMove G (.enemy i) rng).1 (.enemy i) = some s') :
    s' = s5 := by
  have hframe := collisionFrame_afterMove G (.enemy i) rng
  obtain ⟨hmem, hid⟩ := getSnake_enemy_facts _ i s' h
  exact hall s' (hframe.2.2.2.2.2.2.2 s' hmem) hid


theorem moveBody_fields (s : Snake) (newHead : Position) :
    (moveBody s newHead).id = s.id ∧ (moveBody s newHead).prevBody = s.prevBody ∧
      (moveBody s newHead).isPlayer = s.isPlayer ∧
      (moveBody s newHead).moveProgress = s.moveProgress ∧
      (moveBody s newHead).speedFactor = s.speedFactor ∧
      (moveBody s newHead).body.length = s.body.dropLast.length + 1 :=
  ⟨rfl, rfl, rfl, rfl, rfl, by simp [moveBody]⟩


theorem addScore_fields (g : Game) (isPl : Bool) (pts : Int) :
    (addScore g isPl pts).foodItems = g.foodItems ∧
      (addScore g isPl pts).playerSnake = g.playerSnake ∧
      (addScore g isPl pts).enemySnakes = g.enemySnakes ∧
      (addScore g isPl pts).isOver = g.isOver ∧
      (addScore g isPl pts).score = (if isPl then g.score + pts else g.score) := by
  unfold addScore
  cases isPl <;> exact ⟨rfl, rfl, rfl, rfl, rfl⟩

theorem recordEaten_fields (g : Game) (isPl : Bool) (pos : Position) (now : ℚ) :
    (recordEaten g isPl pos now).foodItems = g.foodItems ∧
      (recordEaten g isPl pos now).playerSnake = g.playerSnake ∧
      (recordEaten g isPl pos now).enemySnakes = g.enemySnakes ∧
      (recordEaten g isPl pos now).isOver = g.isOver ∧
      (recordEaten g isPl pos now).score = g.score := by
  unfold recordEaten
  cases isPl <;> exact ⟨rfl, rfl, rfl, rfl, rfl⟩

theorem withFoodItems_fields (g : Game) (l : List Food) :
    (withFoodItems g l).foodItems = l ∧
      (withFoodItems g l).playerSnake = g.playerSnake ∧
      (withFoodItems g l).enemySnakes = g.enemySnakes ∧
      (withFoodItems g l).isOver = g.isOver ∧
      (withFoodItems g l).score = g.score :=
  ⟨rfl, rfl, rfl, rfl, rfl⟩

theorem setSnake_player_player (g : Game) (s : Snake) :
    (setSnake g .player s).playerSnake = some s := rfl

theorem setSnake_player_enemies (g : Game) (s : Snake) :
    (setSnake g .player s).enemySnakes = g.enemySnakes := rfl

theorem setSnake_enemy_player (g : Game) (i : Nat) (s : Snake) :
    (setSnake g (.enemy i) s).playerSnake = g.playerSnake := rfl

theorem spawnFoodItem_fields (g : Game) (rng : Rng) :
    (spawnFoodItem g rng).1.playerSnake = g.playerSnake ∧
      (spawnFoodItem g rng).1.enemySnakes = g.enemySnakes ∧
      (spawnFoodItem g rng).1.isOver = g.isOver ∧
      (spawnFoodItem g rng).1.score = g.score := by
  obtain ⟨tail, h, -, -⟩ := spawnFoodItem_extends g rng
  rw [h]
  exact ⟨rfl, rfl, rfl, rfl⟩

/-- Effect of one finalized step (including its collision section) when the
candidate head cell carries the food item `fd`, the first and only item on
that cell: the score grows by its points for the player only, the eaten
item disappears (a replacement attempt may add one item on some other free
cell), and the stepped snake — if it is still present afterwards — is one
segment longer with `prevBody` in lockstep and the speed factor dictated by
the food type. -/
theorem stepPipeline_eats (now : ℚ) (g0 : Game) (ref : SnakeRef) (s3 : Snake)
    (rng : Rng) (pre post : List Food) (fd : Food)
    (hb3 : s3.body ≠ [])
    (hid : ∀ i, ref = SnakeRef.enemy i → s3.id = i)
    (hfoods : g0.foodItems = pre ++ fd :: post)
    (hfd : fd.pos = stepPos s3.body.headI s3.direction)
    (hpre : ∀ f ∈ pre, f.pos ≠ stepPos s3.body.headI s3.direction) :
    (afterMove (eatPhase now g0 ref s3 (stepPos s3.body.headI s3.direction) rng).1
        ref (eatPhase now g0 ref s3 (stepPos s3.body.headI s3.direction) rng).2).1.score =
        (if s3.isPlayer = true then g0.score + fd.points else g0.score) ∧
      (∃ tail,
        (afterMove (eatPhase now g0 ref s3 (stepPos s3.body.headI s3.direction) rng).1
          ref (eatPhase now g0 ref s3 (stepPos s3.body.headI s3.direction) rng).2).1.foodItems =
            (pre ++ post) ++ tail ∧
          (∀ f ∈ tail, f.pos ∉ (pre ++ fd :: post).map Food.pos) ∧ tail.length ≤ 1) ∧
      (∀ s', getSnake
          (afterMove (eatPhase now g0 ref s3 (stepPos s3.body.headI s3.direction) rng).1
            ref (eatPhase now g0 ref s3 (stepPos s3.body.headI s3.direction) rng).2).1
          ref = some s' →
        s'.body.length = s3.body.length + 1 ∧
          s'.prevBody.length = s3.prevBody.length + 1 ∧
          s'.id = s3.id ∧ s'.isPlayer = s3.isPlayer ∧
          s'.moveProgress = s3.moveProgress ∧
          s'.speedFactor =
            (match fd.type with
              | FoodTypeStandard => s3.speedFactor
              | FoodTypeSpeedUp => (3 / 2 : ℚ)
              | FoodTypeSlowDown => (3 / 5 : ℚ))) := by
  unfold eatPhase
  rw [hfoods]
  rw [findIdx?_concrete
    (fun food => decide (stepPos s3.body.headI s3.direction = food.pos)) pre post fd
    (fun f hf => decide_eq_false (fun h => hpre f hf h.symm))
    (decide_eq_true hfd.symm)]
  dsimp only
  rw [getD_concrete pre post fd default]
  obtain ⟨effLen, effPLen, effId, effPl, effMp, effDir, effNext, effFac⟩ :=
    applyFoodEffect_spec now fd s3 hb3
  set S4 := applyFoodEffect now fd s3 with hS4
  set G1 := addScore g0 s3.isPlayer fd.points with hG1
  set G2 := setSnake G1 ref S4 with hG2
  set G3 := (spawnFoodItem G2 rng).1 with hG3
  set G4 := recordEaten G3 S4.isPlayer fd.pos now with hG4
  set S5 := moveBody S4 (stepPos s3.body.headI s3.direction) with hS5
  set G5 := setSnake G4 ref S5 with hG5
  set G6 := withFoodItems G5 (G5.foodItems.eraseIdx pre.length) with hG6
  set RNG1 := (spawnFoodItem G2 rng).2 with hRNG1
  obtain ⟨tail, hsp, htail, hlen⟩ := spawnFoodItem_extends G2 rng
  have hG3eq : G3 = { G2 with foodItems := G2.foodItems ++ tail } := hsp
  have hG2foods : G2.foodItems = pre ++ fd :: post := by
    rw [hG2, setSnake_foodItems, hG1, (addScore_fields g0 s3.isPlayer fd.points).1]
    exact hfoods
  have hG5foods : G5.foodItems = (pre ++ fd :: post) ++ tail := by
    rw [hG5, setSnake_foodItems, hG4, (recordEaten_fields G3 S4.isPlayer fd.pos now).1,
      hG3eq]
    show G2.foodItems ++ tail = _
    rw [hG2foods]
  have hG6foods : G6.foodItems = (pre ++ post) ++ tail := by
    rw [hG6, (withFoodItems_fields _ _).1, hG5foods, List.append_assoc,
      List.cons_append, eraseIdx_concrete pre (post ++ tail) fd, List.append_assoc]
  have hG6score : G6.score = (if s3.isPlayer = true then g0.score + fd.points else g0.score) := by
    rw [hG6, (withFoodItems_fields _ _).2.2.2.2, hG5, setSnake_score, hG4,
      (recordEaten_fields G3 S4.isPlayer fd.pos now).2.2.2.2, hG3eq]
    show G2.score = _
    rw [hG2, setSnake_score, hG1, (addScore_fields g0 s3.isPlayer fd.points).2.2.2.2]
  have hframe := collisionFrame_afterMove G6 ref RNG1
  have hS5len : S5.body.length = s3.body.length + 1 := by
    rw [hS5, (moveBody_fields S4 _).2.2.2.2.2, List.length_dropLast, effLen]
    omega
  have hS5plen : S5.prevBody.length = s3.prevBody.length + 1 := by
    rw [hS5, (moveBody_fields S4 _).2.1, effPLen]
  have hS5id : S5.id = s3.id := by rw [hS5, (moveBody_fields S4 _).1, effId]
  have hS5pl : S5.isPlayer = s3.isPlayer := by
    rw [hS5, (moveBody_fields S4 _).2.2.1, effPl]
  have hS5mp : S5.moveProgress = s3.moveProgress := by
    rw [hS5, (moveBody_fields S4 _).2.2.2.1, effMp]
  have hS5fac : S5.speedFactor =
      (match fd.type with
        | FoodTypeStandard => s3.speedFactor
        | FoodTypeSpeedUp => (3 / 2 : ℚ)
        | FoodTypeSlowDown => (3 / 5 : ℚ)) := by
    rw [hS5, (moveBody_fields S4 _).2.2.2.2.1, effFac]
  refine ⟨?_, ⟨tail, ?_, ?_, hlen⟩, ?_⟩
  · rw [hframe.1, hG6score]
  · rw [hframe.2.1, hG6foods]
  · intro f hf hmemf
    refine htail f hf ?_
    unfold occupiedCells
    refine List.mem_append_right _ ?_
    rw [hG2foods]
    exact hmemf
  · intro s' hs'
    cases ref with
    | player =>
      have hcore := afterMove_lookup_player G6 RNG1 s' hs'
      have hG6p : G6.playerSnake = some S5 := by
        rw [hG6, (withFoodItems_fields _ _).2.1, hG5, setSnake_player_player]
      rw [hG6p] at hcore
      have hcoreEq : snakeCore S5 = snakeCore s' := by
        simpa using hcore
      simp only [snakeCore, Prod.mk.injEq] at hcoreEq
      obtain ⟨hid', hbody', hprev', hdir', hnext', hfac', hmp', hpl', hpath'⟩ := hcoreEq
      exact ⟨by rw [← hbody']; exact hS5len, by rw [← hprev']; exact hS5plen,
        by rw [← hid']; exact hS5id, by rw [← hpl']; exact hS5pl,
        by rw [← hmp']; exact hS5mp, by rw [← hfac']; exact hS5fac⟩
    | enemy i =>
      have hSid : S5.id = i := by rw [hS5id]; exact hid i rfl
      have hall : ∀ x ∈ G6.enemySnakes, x.id = i → x = S5 := by
        intro x hx hxi
        rw [hG6, (withFoodItems_fields _ _).2.2.1, hG5] at hx
        exact setSnake_enemy_mem_id G4 i S5 x hSid hx hxi
      have := afterMove_lookup_enemy G6 RNG1 i S5 hall s' hs'
      subst this
      exact ⟨hS5len, hS5plen, hS5id, hS5pl, hS5mp, hS5fac⟩

theorem eatPhase_none (now : ℚ) (g0 : Game) (ref : SnakeRef) (s3 : Snake)
    (newHead : Position) (rng : Rng)
    (hnone : ∀ f ∈ g0.foodItems, newHead ≠ f.pos) :
    eatPhase now g0 ref s3 newHead rng = (setSnake g0 ref (moveBody s3 newHead), rng) := by
  unfold eatPhase
  rw [List.findIdx?_eq_none_iff.mpr (fun f hf => by simpa using hnone f hf)]

/-- Effect of one finalized step (including its collision section) when no
food sits on the candidate head cell: score and food are untouched, and the
stepped snake — if still present — has the same body length, `prevBody`
snapshotted to the pre-step body, and an unchanged speed factor. -/
theorem stepPipeline_noFood (g0 : Game) (ref : SnakeRef) (s3 : Snake)
    (newHead : Position) (rng : Rng)
    (hb3 : s3.body ≠ [])
    (hid : ∀ i, ref = SnakeRef.enemy i → s3.id = i) :
    (afterMove (setSnake g0 ref (moveBody s3 newHead)) ref rng).1.score = g0.score ∧
      (afterMove (setSnake g0 ref (moveBody s3 newHead)) ref rng).1.foodItems =
        g0.foodItems ∧
      (∀ s', getSnake (afterMove (setSnake g0 ref (moveBody s3 newHead)) ref rng).1
          ref = some s' →
        s'.body.length = s3.body.length ∧
          s'.prevBody.length = s3.prevBody.length ∧
          s'.id = s3.id ∧ s'.isPlayer = s3.isPlayer ∧
          s'.moveProgress = s3.moveProgress ∧
          s'.speedFactor = s3.speedFactor) := by
  set S5 := moveBody s3 newHead with hS5
  set G5 := setSnake g0 ref S5 with hG5
  have hframe := collisionFrame_afterMove G5 ref rng
  have hS5len : S5.body.length = s3.body.length := by
    rw [hS5, (moveBody_fields s3 _).2.2.2.2.2, List.length_dropLast]
    have : s3.body.length ≠ 0 := fun h => hb3 (List.length_eq_zero.mp h)
    omega
  have hS5plen : S5.prevBody.length = s3.prevBody.length := by
    rw [hS5, (moveBody_fields s3 _).2.1]
  have hS5id : S5.id = s3.id := by rw [hS5, (moveBody_fields s3 _).1]
  have hS5pl : S5.isPlayer = s3.isPlayer := by
    rw [hS5, (moveBody_fields s3 _).2.2.1]
  have hS5mp : S5.moveProgress = s3.moveProgress := by
    rw [hS5, (moveBody_fields s3 _).2.2.2.1]
  have hS5fac : S5.speedFactor = s3.speedFactor := by
    rw [hS5, (moveBody_fields s3 _).2.2.2.2.1]
  refine ⟨?_, ?_, ?_⟩
  · rw [hframe.1, hG5, setSnake_score]
  · rw [hframe.2.1, hG5, setSnake_foodItems]
  · intro s' hs'
    cases ref with
    | player =>
      have hcore := afterMove_lookup_player G5 rng s' hs'
      have hG5p : G5.playerSnake = some S5 := by rw [hG5, setSnake_player_player]
      rw [hG5p] at hcore
      have hcoreEq : snakeCore S5 = snakeCore s' := by simpa using hcore
      simp only [snakeCore, Prod.mk.injEq] at hcoreEq
      obtain ⟨hid', hbody', hprev', hdir', hnext', hfac', hmp', hpl', hpath'⟩ := hcoreEq
      exact ⟨by rw [← hbody']; exact hS5len, by rw [← hprev']; exact hS5plen,
        by rw [← hid']; exact hS5id, by rw [← hpl']; exact hS5pl,
        by rw [← hmp']; exact hS5mp, by rw [← hfac']; exact hS5fac⟩
    | enemy i =>
      have hSid : S5.id = i := by rw [hS5id]; exact hid i rfl
      have hall : ∀ x ∈ G5.enemySnakes, x.id = i → x = S5 := by
        intro x hx hxi
        rw [hG5] at hx
        exact setSnake_enemy_mem_id g0 i S5 x hSid hx hxi
      have hEq := afterMove_lookup_enemy G5 rng i S5 hall s' hs'
      subst hEq
      exact ⟨hS5len, hS5plen, hS5id, hS5pl, hS5mp, hS5fac⟩

theorem commitStep_fields (s : Snake) :
    (commitStep s).id = s.id ∧ (commitStep s).body = s.body ∧
      (commitStep s).prevBody = s.body ∧ (commitStep s).direction = s.nextDir ∧
      (commitStep s).nextDir = s.nextDir ∧
      (commitStep s).speedFactor = s.speedFactor ∧
      (commitStep s).moveProgress = s.moveProgress ∧
      (commitStep s).isPlayer = s.isPlayer :=
  ⟨rfl, rfl, rfl, rfl, rfl, rfl, rfl, rfl⟩

/-- One finalized step of snake `s` whose candidate head cell carries the
food item `fd` (first and only item there), in terms of the pre-step snake:
score changes by `fd.points` for the player only; the eaten item is gone
(one replacement item may appear elsewhere); the surviving stepped snake is
one segment longer, `prevBody` in lockstep, with one unit of progress
consumed and the speed factor the food type dictates. -/
theorem finalizeStep_eats (now : ℚ) (g : Game) (ref : SnakeRef) (rng : Rng)
    (s : Snake) (hs : getSnake g ref = some s) (hb : s.body ≠ [])
    (pre post : List Food) (fd : Food)
    (hfoods : g.foodItems = pre ++ fd :: post)
    (hfd : fd.pos = stepPos s.body.headI s.nextDir)
    (hpre : ∀ f ∈ pre, f.pos ≠ stepPos s.body.headI s.nextDir) :
    (finalizeStep now g ref rng).1.score =
        (if s.isPlayer = true then g.score + fd.points else g.score) ∧
      (∃ tail, (finalizeStep now g ref rng).1.foodItems = (pre ++ post) ++ tail ∧
        (∀ f ∈ tail, f.pos ∉ (pre ++ fd :: post).map Food.pos) ∧ tail.length ≤ 1) ∧
      (∀ s', getSnake (finalizeStep now g ref rng).1 ref = some s' →
        s'.body.length = s.body.length + 1 ∧
          s'.prevBody.length = s.body.length + 1 ∧
          s'.id = s.id ∧ s'.isPlayer = s.isPlayer ∧
          s'.moveProgress = s.moveProgress - 1 ∧
          s'.speedFactor =
            (match fd.type with
              | FoodTypeStandard => s.speedFactor
              | FoodTypeSpeedUp => (3 / 2 : ℚ)
              | FoodTypeSlowDown => (3 / 5 : ℚ))) := by
  unfold finalizeStep
  rw [hs]
  dsimp only
  generalize hS3g : commitStep
    (popPathStep { s with moveProgress := s.moveProgress - 1 }) = S3
  have hS3b : S3.body = s.body := by
    rw [← hS3g]
    exact ((commitStep_fields _).2.1).trans ((popPathStep_fields _).2.1)
  have hS3prev : S3.prevBody = s.body := by
    rw [← hS3g]
    exact ((commitStep_fields _).2.2.1).trans ((popPathStep_fields _).2.1)
  have hS3dir : S3.direction = s.nextDir := by
    rw [← hS3g]
    exact ((commitStep_fields _).2.2.2.1).trans ((popPathStep_fields _).2.2.2.2.1)
  have hS3id : S3.id = s.id := by
    rw [← hS3g]
    exact ((commitStep_fields _).1).trans ((popPathStep_fields _).1)
  have hS3pl : S3.isPlayer = s.isPlayer := by
    rw [← hS3g]
    exact ((commitStep_fields _).2.2.2.2.2.2.2).trans
      ((popPathStep_fields _).2.2.2.2.2.2.2)
  have hS3mp : S3.moveProgress = s.moveProgress - 1 := by
    rw [← hS3g]
    exact ((commitStep_fields _).2.2.2.2.2.2.1).trans
      ((popPathStep_fields _).2.2.2.2.2.2.1)
  have hS3fac : S3.speedFactor = s.speedFactor := by
    rw [← hS3g]
    exact ((commitStep_fields _).2.2.2.2.2.1).trans
      ((popPathStep_fields _).2.2.2.2.2.1)
  have hidS3 : ∀ i, ref = SnakeRef.enemy i → S3.id = i := by
    intro i hri
    subst hri
    rw [hS3id]
    exact (getSnake_enemy_facts g i s hs).2
  obtain ⟨h1, h2, h3⟩ := stepPipeline_eats now g ref S3 rng pre post fd
    (by rw [hS3b]; exact hb) hidS3
    hfoods (by rw [hS3b, hS3dir]; exact hfd)
    (by rw [hS3b, hS3dir]; exact hpre)
  rw [hS3b, hS3dir] at h1 h2 h3 ⊢
  rw [hS3pl] at h1
  refine ⟨h1, h2, fun s' hs' => ?_⟩
  obtain ⟨c1, c2, c3, c4, c5, c6⟩ := h3 s' hs'
  rw [hS3prev] at c2
  rw [hS3id] at c3
  rw [hS3pl] at c4
  rw [hS3mp] at c5
  rw [hS3fac] at c6
  exact ⟨c1, c2, c3, c4, c5, c6⟩

theorem afterMove_rng (G : Game) (ref : SnakeRef) (rng : Rng) :
    (afterMove G ref rng).2.1 = rng := by
  unfold afterMove
  cases getSnake G ref with
  | none => rfl
  | some s =>
    dsimp only
    by_cases hw : (s.checkCollision GridWidth GridHeight).1 = true ∨
        (s.checkCollision GridWidth GridHeight).2 = true
    · rw [if_pos hw]
      by_cases hp : s.isPlayer <;> simp [hp]
    · rw [if_neg hw]
      by_cases hc : (checkInterSnakeCollisions G s).2 = true
      · rw [if_pos hc]
        by_cases hstop : (checkInterSnakeCollisions G s).1.isOver = true ∨
            isSnakeAlive (checkInterSnakeCollisions G s).1 s = false
        · rw [if_pos hstop]
        · rw [if_neg hstop]
      · rw [if_neg hc]

/-- One finalized step of snake `s` when no food sits on the candidate head
cell: score and food untouched; the surviving stepped snake keeps its body
length, gets `prevBody` snapshotted to the pre-step body, consumes one unit
of progress, and keeps its speed factor. -/
theorem finalizeStep_noFood (now : ℚ) (g : Game) (ref : SnakeRef) (rng : Rng)
    (s : Snake) (hs : getSnake g ref = some s) (hb : s.body ≠ [])
    (hnone : ∀ f ∈ g.foodItems, stepPos s.body.headI s.nextDir ≠ f.pos) :
    (finalizeStep now g ref rng).1.score = g.score ∧
      (finalizeStep now g ref rng).1.foodItems = g.foodItems ∧
      (finalizeStep now g ref rng).2.1 = rng ∧
      (∀ s', getSnake (finalizeStep now g ref rng).1 ref = some s' →
        s'.body.length = s.body.length ∧
          s'.prevBody.length = s.body.length ∧
          s'.id = s.id ∧ s'.isPlayer = s.isPlayer ∧
          s'.moveProgress = s.moveProgress - 1 ∧
          s'.speedFactor = s.speedFactor) := by
  unfold finalizeStep
  rw [hs]
  dsimp only
  generalize hS3g : commitStep
    (popPathStep { s with moveProgress := s.moveProgress - 1 }) = S3
  have hS3b : S3.body = s.body := by
    rw [← hS3g]
    exact ((commitStep_fields _).2.1).trans ((popPathStep_fields _).2.1)
  have hS3prev : S3.prevBody = s.body := by
    rw [← hS3g]
    exact ((commitStep_fields _).2.2.1).trans ((popPathStep_fields _).2.1)
  have hS3dir : S3.direction = s.nextDir := by
    rw [← hS3g]
    exact ((commitStep_fields _).2.2.2.1).trans ((popPathStep_fields _).2.2.2.2.1)
  have hS3id : S3.id = s.id := by
    rw [← hS3g]
    exact ((commitStep_fields _).1).trans ((popPathStep_fields _).1)
  have hS3pl : S3.isPlayer = s.isPlayer := by
    rw [← hS3g]
    exact ((commitStep_fields _).2.2.2.2.2.2.2).trans
      ((popPathStep_fields _).2.2.2.2.2.2.2)
  have hS3mp : S3.moveProgress = s.moveProgress - 1 := by
    rw [← hS3g]
    exact ((commitStep_fields _).2.2.2.2.2.2.1).trans
      ((popPathStep_fields _).2.2.2.2.2.2.1)
  have hS3fac : S3.speedFactor = s.speedFactor := by
    rw [← hS3g]
    exact ((commitStep_fields _).2.2.2.2.2.1).trans
      ((popPathStep_fields _).2.2.2.2.2.1)
  have hidS3 : ∀ i, ref = SnakeRef.enemy i → S3.id = i := by
    intro i hri
    subst hri
    rw [hS3id]
    exact (getSnake_enemy_facts g i s hs).2
  rw [eatPhase_none now g ref S3 (stepPos S3.body.headI S3.direction) rng
    (by rw [hS3b, hS3dir]; exact hnone)]
  obtain ⟨h1, h2, h3⟩ := stepPipeline_noFood g ref S3
    (stepPos S3.body.headI S3.direction) rng (by rw [hS3b]; exact hb) hidS3
  refine ⟨h1, h2, afterMove_rng _ ref rng, fun s' hs' => ?_⟩
  obtain ⟨c1, c2, c3, c4, c5, c6⟩ := h3 s' hs'
  rw [hS3b] at c1
  rw [hS3prev] at c2
  rw [hS3id] at c3
  rw [hS3pl] at c4
  rw [hS3mp] at c5
  rw [hS3fac] at c6
  exact ⟨c1, c2, c3, c4, c5, c6⟩

/-- Any food list either has no item on `pos`, or splits around the first
item sitting on `pos`. -/
theorem foods_split (pos : Position) :
    ∀ l : List Food, (∀ f ∈ l, pos ≠ f.pos) ∨
      ∃ pre fd post, l = pre ++ fd :: post ∧ fd.pos = pos ∧
        ∀ f ∈ pre, f.pos ≠ pos := by
  intro l
  induction l with
  | nil => exact Or.inl (by simp)
  | cons a rest ih =>
    by_cases ha : pos = a.pos
    · exact Or.inr ⟨[], a, rest, by simp, ha.symm, by simp⟩
    · rcases ih with hnone | ⟨pre, fd, post, hl, hfd, hpre⟩
      · refine Or.inl ?_
        intro f hf
        rcases List.mem_cons.mp hf with rfl | hf'
        · exact ha
        · exact hnone f hf'
      · refine Or.inr ⟨a :: pre, fd, post, by rw [hl]; rfl, hfd, ?_⟩
        intro f hf
        rcases List.mem_cons.mp hf with rfl | hf'
        · exact fun h => ha h.symm
        · exact hpre f hf'

theorem getSnake_remove_self (g : Game) (i : Nat) :
    getSnake (removeEnemySnake g i) (.enemy i) = none := by
  unfold getSnake removeEnemySnake
  dsimp only
  refine List.find?_eq_none.mpr ?_
  intro x hx
  have := List.of_mem_filter hx
  simpa using this

theorem isSnakeAlive_false_facts (g : Game) (s : Snake)
    (h : isSnakeAlive g s = false) :
    s.isPlayer = false ∧ ∀ e ∈ g.enemySnakes, e.id ≠ s.id := by
  unfold isSnakeAlive at h
  by_cases hp : s.isPlayer
  · rw [if_pos hp] at h; cases h
  · rw [if_neg hp] at h
    refine ⟨by simpa using hp, ?_⟩
    intro e he hei
    have : g.enemySnakes.any (fun e => e.id = s.id) = true :=
      List.any_eq_true.mpr ⟨e, he, by simpa using hei⟩
    rw [this] at h
    cases h

/-- If `afterMove` asks processing to stop, then any still-present stepped
snake means the game was just ended (a removed snake is simply absent). -/
theorem afterMove_stop (G : Game) (ref : SnakeRef) (rng : Rng)
    (hcoh : ∀ x, getSnake G ref = some x → ref = SnakeRef.player → x.isPlayer = true)
    (hstop : (afterMove G ref rng).2.2 = true) :
    ∀ s', getSnake (afterMove G ref rng).1 ref = some s' →
      (afterMove G ref rng).1.isOver = true := by
  intro s' hs'
  unfold afterMove at hstop hs' ⊢
  cases hG : getSnake G ref with
  | none =>
    rw [hG] at hs'
    dsimp only at hs'
    rw [hG] at hs'
    exact Option.noConfusion hs'
  | some s0 =>
    rw [hG] at hstop hs'
    dsimp only at hstop hs' ⊢
    by_cases hw : (s0.checkCollision GridWidth GridHeight).1 = true ∨
        (s0.checkCollision GridWidth GridHeight).2 = true
    · rw [if_pos hw] at hstop hs' ⊢
      by_cases hp : s0.isPlayer
      · rw [if_pos hp] at hs' ⊢
        exact triggerGameOver_isOver G
      · rw [if_neg hp] at hs' ⊢
        cases ref with
        | player => exact absurd (hcoh s0 hG rfl) (by simpa using hp)
        | enemy i =>
          have hi : s0.id = i := (getSnake_enemy_facts G i s0 hG).2
          rw [← hi] at hs'
          rw [getSnake_remove_self G s0.id] at hs'
          cases hs'
    · rw [if_neg hw] at hstop hs' ⊢
      by_cases hc : (checkInterSnakeCollisions G s0).2 = true
      · rw [if_pos hc] at hstop hs' ⊢
        by_cases hovamp : (checkInterSnakeCollisions G s0).1.isOver = true ∨
            isSnakeAlive (checkInterSnakeCollisions G s0).1 s0 = false
        · rw [if_pos hovamp] at hs' ⊢
          rcases hovamp with hov | hal
          · exact hov
          · obtain ⟨hplf, hnone⟩ := isSnakeAlive_false_facts _ s0 hal
            cases ref with
            | player => exact absurd (hcoh s0 hG rfl) (by simpa using hplf)
            | enemy i =>
              have hi : s0.id = i := (getSnake_enemy_facts G i s0 hG).2
              obtain ⟨hmem', hid'⟩ := getSnake_enemy_facts _ i s' hs'
              exact absurd (hid'.trans hi.symm) (hnone s' hmem')
        · rw [if_neg hovamp] at hstop
          cases hstop
      · rw [if_neg hc] at hstop
        cases hstop

theorem interEnemyLoop_not_collided (g : Game) (s : Snake) (head : Position) :
    ∀ l : List Snake, (interEnemyLoop g s head l).2 = false →
      (interEnemyLoop g s head l).1 = g := by
  intro l
  induction l with
  | nil => intro _; rfl
  | cons other rest ih =>
    intro hf
    unfold interEnemyLoop at hf ⊢
    by_cases hskip : s.id = other.id ∨ other.body = []
    · rw [if_pos hskip] at hf ⊢
      exact ih hf
    · rw [if_neg hskip] at hf ⊢
      dsimp only at hf ⊢
      by_cases hhd : head = other.body.headI
      · rw [if_pos hhd] at hf
        by_cases hp : s.isPlayer = true
        · rw [if_pos hp] at hf; cases hf
        · rw [if_neg hp] at hf; cases hf
      · rw [if_neg hhd] at hf ⊢
        by_cases hbt : (other.body.tail).contains head = true
        · rw [if_pos hbt] at hf
          by_cases hp : s.isPlayer = true
          · rw [if_pos hp] at hf; cases hf
          · rw [if_neg hp] at hf; cases hf
        · rw [if_neg hbt] at hf ⊢
          exact ih hf

theorem vsPlayerCheck_snd (g : Game) (s : Snake) (head : Position)
    (res : Game × Bool) (hvs : vsPlayerCheck g s head = some res) :
    res.2 = true := by
  unfold vsPlayerCheck at hvs
  by_cases hp : s.isPlayer
  · rw [if_pos hp] at hvs; exact absurd hvs (by simp)
  · rw [if_neg hp] at hvs
    cases hps : g.playerSnake with
    | none => rw [hps] at hvs; exact absurd hvs (by simp)
    | some p =>
      rw [hps] at hvs
      dsimp only at hvs
      cases hpb : p.body with
      | nil => rw [hpb] at hvs; exact absurd hvs (by simp)
      | cons playerHead playerRest =>
        rw [hpb] at hvs
        dsimp only at hvs
        by_cases h1 : head = playerHead
        · rw [if_pos h1] at hvs
          cases hvs
          rfl
        · rw [if_neg h1] at hvs
          by_cases h2 : playerRest.contains head
          · rw [if_pos h2] at hvs
            cases hvs
            rfl
          · rw [if_neg h2] at hvs; exact absurd hvs (by simp)

/-- If `checkInterSnakeCollisions` reports no collision, it did not touch
the game state. -/
theorem check_not_collided (g : Game) (s : Snake)
    (h : (checkInterSnakeCollisions g s).2 = false) :
    (checkInterSnakeCollisions g s).1 = g := by
  unfold checkInterSnakeCollisions at h ⊢
  cases hb : s.body with
  | nil => rfl
  | cons head t =>
    rw [hb] at h
    dsimp only at h ⊢
    cases hvs : vsPlayerCheck g s head with
    | none =>
      rw [hvs] at h
      exact interEnemyLoop_not_collided g s head g.enemySnakes h
    | some res =>
      rw [hvs] at h
      have h2 : res.2 = false := h
      rw [vsPlayerCheck_snd g s head res hvs] at h2
      cases h2

/-- If `afterMove` lets processing continue, the stepped snake is still
present (needs the snake stored at an enemy ref to be flagged non-player). -/
theorem afterMove_continue_present (G : Game) (ref : SnakeRef) (rng : Rng)
    (hcoh : ∀ x, getSnake G ref = some x →
      ∀ i, ref = SnakeRef.enemy i → x.isPlayer = false)
    (hgo : (afterMove G ref rng).2.2 = false) :
    ∃ x, getSnake (afterMove G ref rng).1 ref = some x := by
  unfold afterMove at hgo ⊢
  cases hG : getSnake G ref with
  | none =>
    rw [hG] at hgo
    cases hgo
  | some s5 =>
    rw [hG] at hgo
    dsimp only at hgo ⊢
    by_cases hw : (s5.checkCollision GridWidth GridHeight).1 = true ∨
        (s5.checkCollision GridWidth GridHeight).2 = true
    · rw [if_pos hw] at hgo
      by_cases hp : s5.isPlayer = true
      · rw [if_pos hp] at hgo; cases hgo
      · rw [if_neg hp] at hgo; cases hgo
    · rw [if_neg hw] at hgo ⊢
      by_cases hc : (checkInterSnakeCollisions G s5).2 = true
      · rw [if_pos hc] at hgo ⊢
        by_cases hsa : (checkInterSnakeCollisions G s5).1.isOver = true ∨
            isSnakeAlive (checkInterSnakeCollisions G s5).1 s5 = false
        · rw [if_pos hsa] at hgo; cases hgo
        · rw [if_neg hsa]
          have halive : isSnakeAlive (checkInterSnakeCollisions G s5).1 s5 = true := by
            rcases Bool.eq_false_or_eq_true
              (isSnakeAlive (checkInterSnakeCollisions G s5).1 s5) with hta | hfa
            · exact hta
            · exact absurd (Or.inr hfa) hsa
          have hframe := collisionFrame_check G s5
          cases ref with
          | player =>
            have hmap := hframe.2.2.2.2.2.2.1
            have hGp : G.playerSnake = some s5 := hG
            rw [hGp] at hmap
            rcases Option.map_eq_some'.mp hmap with ⟨y, hy, _⟩
            exact ⟨y, hy⟩
          | enemy i =>
            have hplf : s5.isPlayer = false := hcoh s5 hG i rfl
            unfold isSnakeAlive at halive
            rw [if_neg (by simp [hplf])] at halive
            rcases List.any_eq_true.mp halive with ⟨e, hem, hei⟩
            have hid5 : s5.id = i := (getSnake_enemy_facts G i s5 hG).2
            have : ∃ x, getSnake (checkInterSnakeCollisions G s5).1
                (SnakeRef.enemy i) = some x := by
              have hfind : ((checkInterSnakeCollisions G s5).1.enemySnakes.find?
                  (fun e => decide (e.id = i))).isSome :=
                List.find?_isSome.mpr ⟨e, hem, by
                  simp only [decide_eq_true_eq]
                  rw [← hid5]
                  simpa using hei⟩
              rcases Option.isSome_iff_exists.mp hfind with ⟨x, hx⟩
              exact ⟨x, hx⟩
            exact this
      · rw [if_neg hc] at hgo ⊢
        rw [check_not_collided G s5 (by simpa using hc)]
        exact ⟨s5, hG⟩

theorem applyFoodEffect_isPlayer (now : ℚ) (fd : Food) (s : Snake) :
    (applyFoodEffect now fd s).isPlayer = s.isPlayer := by
  have gpl := (grow_fields s).2.2.2.2.2.1
  unfold applyFoodEffect
  cases fd.type with
  | FoodTypeStandard => exact gpl
  | FoodTypeSpeedUp =>
    rw [(applySpeedBoost_fields s.grow now (3 / 2) fd.duration).2.2.2.2.2.2.1]
    exact gpl
  | FoodTypeSlowDown =>
    rw [(applySpeedBoost_fields s.grow now (3 / 5) fd.duration).2.2.2.2.2.2.1]
    exact gpl

theorem getSnake_set_enemy_eq (g : Game) (i : Nat) (s x : Snake)
    (h : getSnake (setSnake g (.enemy i) s) (.enemy i) = some x) : x = s := by
  obtain ⟨hmem, hid⟩ := getSnake_enemy_facts _ i x h
  rcases setSnake_enemy_mem g i s x hmem with ⟨_, _, _, hxs⟩ | ⟨_, hne, _⟩ | ⟨_, hxs⟩
  · exact hxs
  · exact absurd hid hne
  · exact hxs

/-- Whatever `eatPhase` leaves stored at `ref`, its `isPlayer` flag is the
stepped snake's. -/
theorem eatPhase_isPlayer (now : ℚ) (g0 : Game) (ref : SnakeRef) (s3 : Snake)
    (newHead : Position) (rng : Rng) :
    ∀ x, getSnake (eatPhase now g0 ref s3 newHead rng).1 ref = some x →
      x.isPlayer = s3.isPlayer := by
  intro x hx
  unfold eatPhase at hx
  cases hidx : g0.foodItems.findIdx? (fun food => newHead = food.pos) with
  | none =>
    rw [hidx] at hx
    dsimp only at hx
    cases ref with
    | player =>
      have hx' : some (moveBody s3 newHead) = some x := hx
      cases hx'
      exact (moveBody_fields s3 newHead).2.2.1
    | enemy i =>
      have hx' : getSnake (setSnake g0 (.enemy i) (moveBody s3 newHead))
          (.enemy i) = some x := hx
      rw [getSnake_set_enemy_eq g0 i (moveBody s3 newHead) x hx']
      exact (moveBody_fields s3 newHead).2.2.1
  | some idx =>
    rw [hidx] at hx
    dsimp only at hx
    cases ref with
    | player =>
      have hx' : some (moveBody (applyFoodEffect now
          (g0.foodItems.getD idx default) s3) newHead) = some x := hx
      cases hx'
      rw [(moveBody_fields _ newHead).2.2.1]
      exact applyFoodEffect_isPlayer now _ s3
    | enemy i =>
      have hx' : getSnake (setSnake
          (recordEaten (spawnFoodItem (setSnake
            (addScore g0 s3.isPlayer (g0.foodItems.getD idx default).points)
            (.enemy i) (applyFoodEffect now (g0.foodItems.getD idx default) s3))
            rng).1 (applyFoodEffect now (g0.foodItems.getD idx default) s3).isPlayer
            (g0.foodItems.getD idx default).pos now)
          (.enemy i) (moveBody (applyFoodEffect now
            (g0.foodItems.getD idx default) s3) newHead)) (.enemy i) = some x := hx
      rw [getSnake_set_enemy_eq _ i _ x hx']
      rw [(moveBody_fields _ newHead).2.2.1]
      exact applyFoodEffect_isPlayer now _ s3

/-- If the collision phase of a finalized step asks to stop, then a still
present stepped snake means the game just ended. -/
theorem finalizeStep_stop (now : ℚ) (g : Game) (ref : SnakeRef) (rng : Rng)
    (s : Snake) (hs : getSnake g ref = some s)
    (hpl : ref = SnakeRef.player → s.isPlayer = true)
    (hstop : (finalizeStep now g ref rng).2.2 = true) :
    ∀ s', getSnake (finalizeStep now g ref rng).1 ref = some s' →
      (finalizeStep now g ref rng).1.isOver = true := by
  intro s' hs'
  unfold finalizeStep at hstop hs' ⊢
  rw [hs] at hstop hs' ⊢
  dsimp only at hstop hs' ⊢
  refine afterMove_stop _ ref _ ?_ hstop s' hs'
  intro x hx href
  have hx2 := eatPhase_isPlayer now g ref _ _ rng x hx
  rw [hx2]
  rw [(commitStep_fields _).2.2.2.2.2.2.2,
    (popPathStep_fields _).2.2.2.2.2.2.2]
  exact hpl href

/-- If the collision phase of a finalized step lets processing continue,
the stepped snake is still present. -/
theorem finalizeStep_present (now : ℚ) (g : Game) (ref : SnakeRef) (rng : Rng)
    (s : Snake) (hs : getSnake g ref = some s)
    (hplf : ∀ i, ref = SnakeRef.enemy i → s.isPlayer = false)
    (hgo : (finalizeStep now g ref rng).2.2 = false) :
    ∃ x, getSnake (finalizeStep now g ref rng).1 ref = some x := by
  unfold finalizeStep at hgo ⊢
  rw [hs] at hgo ⊢
  dsimp only at hgo ⊢
  refine afterMove_continue_present _ ref _ ?_ hgo
  intro x hx i href
  have hx2 := eatPhase_isPlayer now g ref _ _ rng x hx
  rw [hx2]
  rw [(commitStep_fields _).2.2.2.2.2.2.2,
    (popPathStep_fields _).2.2.2.2.2.2.2]
  exact hplf i href

/-- Per-step facts for any food layout: the surviving stepped snake has one
unit of progress consumed, unchanged identity/ownership, a nonempty body
matching `prevBody` in length, and a speed factor that is either preserved
or one of the two boost values. -/
theorem finalizeStep_snake_facts (now : ℚ) (g : Game) (ref : SnakeRef)
    (rng : Rng) (s : Snake) (hs : getSnake g ref = some s) (hb : s.body ≠ []) :
    ∀ s', getSnake (finalizeStep now g ref rng).1 ref = some s' →
      s'.moveProgress = s.moveProgress - 1 ∧ s'.isPlayer = s.isPlayer ∧
        s'.id = s.id ∧ s'.body ≠ [] ∧ s'.body.length = s'.prevBody.length ∧
        (s'.speedFactor = s.speedFactor ∨ s'.speedFactor = (3 / 2 : ℚ) ∨
          s'.speedFactor = (3 / 5 : ℚ)) := by
  intro s' hs'
  have hlen : 0 < s.body.length := List.length_pos.mpr hb
  rcases foods_split (stepPos s.body.headI s.nextDir) g.foodItems with
    hnone | ⟨pre, fd, post, hfoods, hfd, hpre⟩
  · obtain ⟨c1, c2, c3, c4, c5, c6⟩ :=
      (finalizeStep_noFood now g ref rng s hs hb hnone).2.2.2 s' hs'
    refine ⟨c5, c4, c3, ?_, ?_, Or.inl c6⟩
    · rw [← List.length_pos, c1]; exact hlen
    · rw [c1, c2]
  · obtain ⟨c1, c2, c3, c4, c5, c6⟩ :=
      (finalizeStep_eats now g ref rng s hs hb pre post fd hfoods hfd
        (fun f hf => hpre f hf)).2.2 s' hs'
    refine ⟨c5, c4, c3, ?_, ?_, ?_⟩
    · rw [← List.length_pos, c1]; omega
    · rw [c1, c2]
    · rw [c6]
      cases fd.type with
      | FoodTypeStandard => exact Or.inl rfl
      | FoodTypeSpeedUp => exact Or.inr (Or.inl rfl)
      | FoodTypeSlowDown => exact Or.inr (Or.inr rfl)

theorem ratFloor_sub_one (q : ℚ) : (q - 1).floor = q.floor - 1 := by
  have h1 : q.floor = ⌊q⌋ := rfl
  have h2 : (q - 1).floor = ⌊q - 1⌋ := rfl
  rw [h1, h2, Int.floor_sub_one]

/-- The step-drain loop of `updateSnakeProgress`: with enough fuel, if the
game is not over afterwards and the stepped snake survived, its residual
`moveProgress` lies in `[0, 1)`. -/
theorem drainLoop_spec (now : ℚ) : ∀ (fuel : Nat) (g : Game) (rng : Rng)
    (ref : SnakeRef) (s : Snake), getSnake g ref = some s →
    (ref = SnakeRef.player → s.isPlayer = true) →
    (∀ i, ref = SnakeRef.enemy i → s.isPlayer = false) →
    s.body ≠ [] →
    0 ≤ s.moveProgress →
    s.moveProgress.floor.toNat + 1 ≤ fuel →
    ∀ s', getSnake (drainLoop now fuel g ref rng).1 ref = some s' →
      (drainLoop now fuel g ref rng).1.isOver = false →
      0 ≤ s'.moveProgress ∧ s'.moveProgress < 1 := by
  intro fuel
  induction fuel with
  | zero => intro g rng ref s _ _ _ _ _ hfuel; omega
  | succ fuel ih =>
    intro g rng ref s hs hpl hplf hb h0 hfuel s' hs' hover
    unfold drainLoop at hs' hover
    rw [hs] at hs' hover
    dsimp only at hs' hover
    by_cases hge : s.moveProgress ≥ 1
    · rw [if_pos hge] at hs' hover
      by_cases hstop : (finalizeStep now g ref rng).2.2 = true
      · rw [if_pos hstop] at hs' hover
        have hov' : (finalizeStep now g ref rng).1.isOver = false := hover
        exact absurd (finalizeStep_stop now g ref rng s hs hpl hstop s' hs')
          (by simp [hov'])
      · have hstop' : (finalizeStep now g ref rng).2.2 = false :=
          Bool.eq_false_iff.mpr hstop
        rw [if_neg (by simp [hstop'])] at hs' hover
        obtain ⟨x, hx⟩ := finalizeStep_present now g ref rng s hs hplf hstop'
        obtain ⟨f1, f2, _, f4, _, _⟩ :=
          finalizeStep_snake_facts now g ref rng s hs hb x hx
        have hfloor1 : (1 : ℤ) ≤ s.moveProgress.floor := by
          have h' : (1 : ℤ) ≤ ⌊s.moveProgress⌋ :=
            Int.le_floor.mpr (by exact_mod_cast hge)
          exact h'
        refine ih (finalizeStep now g ref rng).1 (finalizeStep now g ref rng).2.1
          ref x hx ?_ ?_ f4 ?_ ?_ s' hs' hover
        · intro h; rw [f2]; exact hpl h
        · intro i h; rw [f2]; exact hplf i h
        · rw [f1]; linarith
        · rw [f1, ratFloor_sub_one]
          have h2 : s.moveProgress.floor.toNat + 1 ≤ fuel + 1 := hfuel
          omega
    · rw [if_neg hge] at hs' hover
      have hss : s' = s := by
        rw [hs] at hs'
        exact (Option.some.injEq _ _).mp hs'.symm ▸ rfl
      rw [hss]
      exact ⟨h0, lt_of_not_ge hge⟩

/-- C3 (corrected): after `updateSnakeProgress` returns, IF the game is not
over and the stepped snake is still present, its `moveProgress` lies in
[0, 1).  The original claim is false as stated: when a step kills the snake
the source returns early and leftover accumulated progress (≥ 1) survives
the frame, see the counterexample. -/
theorem updateSnakeProgress_drains (now dt : ℚ) (g : Game) (ref : SnakeRef)
    (rng : Rng) (s : Snake) (hs : getSnake g ref = some s)
    (hpl : ref = SnakeRef.player → s.isPlayer = true)
    (hplf : ∀ i, ref = SnakeRef.enemy i → s.isPlayer = false)
    (h0 : 0 ≤ s.moveProgress) (hlt : s.moveProgress < 1)
    (hdt : 0 ≤ dt) (hsf : 0 ≤ s.speedFactor) (hsp : 0 ≤ g.speed) :
    ∀ s', getSnake (updateSnakeProgress now dt g ref rng).1 ref = some s' →
      (updateSnakeProgress now dt g ref rng).1.isOver = false →
      0 ≤ s'.moveProgress ∧ s'.moveProgress < 1 := by
  intro s' hs' hover
  unfold updateSnakeProgress at hs' hover
  rw [hs] at hs' hover
  dsimp only at hs' hover
  by_cases hbe : s.body = []
  · rw [if_pos hbe] at hs' hover
    have hss : s' = s := by
      rw [hs] at hs'
      exact (Option.some.injEq _ _).mp hs'.symm ▸ rfl
    rw [hss]
    exact ⟨h0, hlt⟩
  · rw [if_neg hbe] at hs' hover
    have hamt : 0 ≤ s.speedFactor * g.speed * dt :=
      mul_nonneg (mul_nonneg hsf hsp) hdt
    have hs1 : getSnake (setSnake g ref
        { s with moveProgress := s.moveProgress + s.speedFactor * g.speed * dt })
        ref = some { s with moveProgress := s.moveProgress + s.speedFactor * g.speed * dt } := by
      cases ref with
      | player => rfl
      | enemy i =>
        obtain ⟨hmem, hid⟩ := getSnake_enemy_facts g i s hs
        exact getSnake_set_enemy g i _ ⟨s, hmem, hid⟩ hid
    exact drainLoop_spec now _ _ _ ref _ hs1 (fun h => hpl h) (fun i h => hplf i h)
      hbe (by dsimp only; linarith) (le_refl _) s' hs' hover

attribute [local semireducible] Rat.mul Rat.add Rat.sub Rat.inv

/-- Counterexample to C3 as stated: a frame in which the player hits the
wall mid-drain ends the game with one full unit of progress still stored on
the surviving snake record. -/
theorem updateSnakeProgress_drains_cex :
    (Update 0 (1 / 4) gWall testRng).map (fun gr =>
      (gr.1.isOver, gr.1.playerSnake.map Snake.moveProgress)) =
      some (true, some 1) := by
  decide

theorem updateSnakeProgress_drains_witness :
    ∃ s', getSnake (updateSnakeProgress 0 (1 / 4) gBase SnakeRef.player
        testRng).1 SnakeRef.player = some s' ∧
      0 ≤ s'.moveProgress ∧ s'.moveProgress < 1 := by
  have hlook : (getSnake (updateSnakeProgress 0 (1 / 4) gBase SnakeRef.player
      testRng).1 SnakeRef.player).isSome = true := by decide
  obtain ⟨s', hs'⟩ := Option.isSome_iff_exists.mp hlook
  exact ⟨s', hs', updateSnakeProgress_drains 0 (1 / 4) gBase SnakeRef.player
    testRng _ rfl (fun _ => rfl) (fun i h => SnakeRef.noConfusion h)
    (by decide) (by decide) (by decide) (by decide) (by decide)
    s' hs' (by decide)⟩

/-- C5: when a finalized player step moves the head onto the cell of a
Standard food item (the only item on that cell), the body grows by exactly
one segment, the score increases by exactly that item's points, and the
item is removed: no food item remains on the eaten cell. -/
theorem player_standard_food_step (now : ℚ) (g : Game) (rng : Rng) (p : Snake)
    (hp : g.playerSnake = some p) (hpl : p.isPlayer = true) (hb : p.body ≠ [])
    (pre post : List Food) (fd : Food)
    (hfoods : g.foodItems = pre ++ fd :: post)
    (hfd : fd.pos = stepPos p.body.headI p.nextDir)
    (honly : ∀ f ∈ pre ++ post, f.pos ≠ stepPos p.body.headI p.nextDir) :
    (finalizeStep now g SnakeRef.player rng).1.score = g.score + fd.points ∧
      (∀ p', (finalizeStep now g SnakeRef.player rng).1.playerSnake = some p' →
        p'.body.length = p.body.length + 1) ∧
      (∀ f ∈ (finalizeStep now g SnakeRef.player rng).1.foodItems,
        f.pos ≠ stepPos p.body.headI p.nextDir) := by
  have hs : getSnake g SnakeRef.player = some p := hp
  obtain ⟨e1, e2, e3⟩ := finalizeStep_eats now g SnakeRef.player rng p hs hb
    pre post fd hfoods hfd
    (fun f hf => honly f (List.mem_append_left post hf))
  refine ⟨by rw [hpl] at e1; simpa using e1, ?_, ?_⟩
  · intro p' hp'
    exact (e3 p' hp').1
  · obtain ⟨tail, hfeq, htail, _⟩ := e2
    intro f hf heq
    rw [hfeq] at hf
    rcases List.mem_append.mp hf with hf' | hf'
    · exact honly f hf' heq
    · refine htail f hf' ?_
      rw [hfoods] at *
      refine List.mem_map.mpr ⟨fd, ?_, ?_⟩
      · exact List.mem_append_right pre (List.mem_cons_self fd post)
      · rw [hfd, ← heq]

theorem player_standard_food_step_witness :
    (finalizeStep 0 gEat SnakeRef.player testRng).1.score = gEat.score + (10 : Int) ∧
      (∀ p', (finalizeStep 0 gEat SnakeRef.player testRng).1.playerSnake = some p' →
        p'.body.length =
          (mkSnake 0 [⟨10, 15⟩, ⟨9, 15⟩, ⟨8, 15⟩] DirRight true).body.length + 1) ∧
      (∀ f ∈ (finalizeStep 0 gEat SnakeRef.player testRng).1.foodItems,
        f.pos ≠ stepPos (mkSnake 0 [⟨10, 15⟩, ⟨9, 15⟩, ⟨8, 15⟩] DirRight
          true).body.headI (mkSnake 0 [⟨10, 15⟩, ⟨9, 15⟩, ⟨8, 15⟩] DirRight
          true).nextDir) :=
  player_standard_food_step 0 gEat testRng _ rfl rfl (by decide) [] []
    ⟨⟨11, 15⟩, FoodTypeStandard, 10, 0⟩ rfl (by decide) (by simp)

/-- C10: a finalized step in which an enemy head lands on a food item (the
only item on that cell) leaves the session score unchanged, removes the
item from the collection, applies the food effect (growth plus the type's
speed factor) to the enemy, and attempts at most one replacement spawn. -/
theorem enemy_eat_keeps_score (now : ℚ) (g : Game) (rng : Rng) (i : Nat)
    (e : Snake) (hs : getSnake g (SnakeRef.enemy i) = some e)
    (hple : e.isPlayer = false) (hb : e.body ≠ [])
    (pre post : List Food) (fd : Food)
    (hfoods : g.foodItems = pre ++ fd :: post)
    (hfd : fd.pos = stepPos e.body.headI e.nextDir)
    (honly : ∀ f ∈ pre ++ post, f.pos ≠ stepPos e.body.headI e.nextDir) :
    (finalizeStep now g (SnakeRef.enemy i) rng).1.score = g.score ∧
      (∀ f ∈ (finalizeStep now g (SnakeRef.enemy i) rng).1.foodItems,
        f.pos ≠ stepPos e.body.headI e.nextDir) ∧
      (∀ e', getSnake (finalizeStep now g (SnakeRef.enemy i) rng).1
          (SnakeRef.enemy i) = some e' →
        e'.body.length = e.body.length + 1 ∧
          e'.speedFactor = (match fd.type with
            | FoodTypeStandard => e.speedFactor
            | FoodTypeSpeedUp => (3 / 2 : ℚ)
            | FoodTypeSlowDown => (3 / 5 : ℚ))) ∧
      (∃ tail, (finalizeStep now g (SnakeRef.enemy i) rng).1.foodItems =
        (pre ++ post) ++ tail ∧ tail.length ≤ 1) := by
  obtain ⟨e1, e2, e3⟩ := finalizeStep_eats now g (SnakeRef.enemy i) rng e hs hb
    pre post fd hfoods hfd
    (fun f hf => honly f (List.mem_append_left post hf))
  obtain ⟨tail, hfeq, htail, hlen⟩ := e2
  refine ⟨by rw [hple] at e1; simpa using e1, ?_, ?_, ⟨tail, hfeq, hlen⟩⟩
  · intro f hf heq
    rw [hfeq] at hf
    rcases List.mem_append.mp hf with hf' | hf'
    · exact honly f hf' heq
    · refine htail f hf' ?_
      refine List.mem_map.mpr ⟨fd, ?_, ?_⟩
      · exact List.mem_append_right pre (List.mem_cons_self fd post)
      · rw [hfd, ← heq]
  · intro e' he'
    obtain ⟨c1, _, _, _, _, c6⟩ := e3 e' he'
    exact ⟨c1, c6⟩

theorem enemy_eat_keeps_score_witness :
    (finalizeStep 0 gEnEat (SnakeRef.enemy 1) testRng).1.score = gEnEat.score ∧
      (∀ f ∈ (finalizeStep 0 gEnEat (SnakeRef.enemy 1) testRng).1.foodItems,
        f.pos ≠ stepPos eEat.body.headI eEat.nextDir) ∧
      (∀ e', getSnake (finalizeStep 0 gEnEat (SnakeRef.enemy 1) testRng).1
          (SnakeRef.enemy 1) = some e' →
        e'.body.length = eEat.body.length + 1 ∧
          e'.speedFactor = (match (⟨⟨19, 10⟩, FoodTypeSpeedUp, 15, 7⟩ : Food).type with
            | FoodTypeStandard => eEat.speedFactor
            | FoodTypeSpeedUp => (3 / 2 : ℚ)
            | FoodTypeSlowDown => (3 / 5 : ℚ))) ∧
      (∃ tail, (finalizeStep 0 gEnEat (SnakeRef.enemy 1) testRng).1.foodItems =
        ([] ++ []) ++ tail ∧ tail.length ≤ 1) :=
  enemy_eat_keeps_score 0 gEnEat testRng 1 eEat rfl rfl (by decide) [] []
    ⟨⟨19, 10⟩, FoodTypeSpeedUp, 15, 7⟩ rfl (by decide) (by simp)

theorem createEnemyLoop_facts (occ : Position → Bool) (newId : Nat) :
    ∀ (fuel : Nat) (rng : Rng) (e : Snake) (rng' : Rng),
      createEnemyLoop occ newId fuel rng = (some e, rng') →
      e.speedFactor = 1 ∧ e.isPlayer = false ∧ e.moveProgress = 0 ∧
        e.prevBody = e.body ∧ e.body.length = InitialSnakeLen ∧
        e.id = newId := by
  intro fuel
  induction fuel with
  | zero =>
    intro rng e rng' h
    unfold createEnemyLoop at h
    exact absurd (congrArg Prod.fst h) (by simp)
  | succ fuel ih =>
    intro rng e rng' h
    unfold createEnemyLoop at h
    dsimp only at h
    split at h
    · injection h with h1 h2
      injection h1 with h1
      subst h1
      refine ⟨rfl, rfl, rfl, rfl, by simp [InitialSnakeLen]; decide, rfl⟩
    · exact ih _ e rng' h

/-- The enemy-allocation path gives every fresh AI snake the base factor. -/
theorem createEnemy_factor (occ : Position → Bool) (newId : Nat) (rng : Rng)
    (e : Snake) (rng' : Rng) (h : createEnemy occ newId rng = (some e, rng')) :
    e.speedFactor = 1 :=
  (createEnemyLoop_facts occ newId _ rng e rng' h).1

/-- C7 (corrected): freshly created AI snakes do start at the base factor
1.0, but the claim that enemies never get another factor is false: the food
effect path applies speed boosts regardless of `isPlayer`, so a finalized
enemy step either keeps the factor or sets it to 3/2 (SpeedUp) or 3/5
(SlowDown); the counterexample shows an enemy actually reaching 3/2. -/
theorem enemy_speed_factor_policy :
    (∀ (occ : Position → Bool) (newId : Nat) (rng rng' : Rng) (e : Snake),
      createEnemy occ newId rng = (some e, rng') → e.speedFactor = 1) ∧
    (∀ (now : ℚ) (g : Game) (i : Nat) (rng : Rng) (e : Snake),
      getSnake g (SnakeRef.enemy i) = some e → e.body ≠ [] →
      ∀ e', getSnake (finalizeStep now g (SnakeRef.enemy i) rng).1
          (SnakeRef.enemy i) = some e' →
        e'.speedFactor = e.speedFactor ∨ e'.speedFactor = (3 / 2 : ℚ) ∨
          e'.speedFactor = (3 / 5 : ℚ)) :=
  ⟨fun occ newId rng rng' e h => createEnemy_factor occ newId rng e rng' h,
   fun now g i rng e hs hb e' he' =>
    (finalizeStep_snake_facts now g (SnakeRef.enemy i) rng e hs hb e' he').2.2.2.2.2⟩

theorem enemy_speed_factor_policy_cex :
    gEnEat.enemySnakes.map Snake.speedFactor = [1] ∧
      (finalizeStep 0 gEnEat (SnakeRef.enemy 1) testRng).1.enemySnakes.map
        Snake.speedFactor = [3 / 2] :=
  ⟨by decide, by decide⟩

theorem enemy_speed_factor_policy_witness :
    ((createEnemy (fun _ => false) 5 testRng).1.map Snake.speedFactor =
      some 1) ∧
    (((getSnake (finalizeStep 0 gEnEat (SnakeRef.enemy 1) testRng).1
        (SnakeRef.enemy 1)).map Snake.speedFactor = some eEat.speedFactor) ∨
      ((getSnake (finalizeStep 0 gEnEat (SnakeRef.enemy 1) testRng).1
        (SnakeRef.enemy 1)).map Snake.speedFactor = some (3 / 2)) ∨
      ((getSnake (finalizeStep 0 gEnEat (SnakeRef.enemy 1) testRng).1
        (SnakeRef.enemy 1)).map Snake.speedFactor = some (3 / 5))) := by
  constructor
  · obtain ⟨e0, he0⟩ := Option.isSome_iff_exists.mp
      (show (createEnemy (fun _ => false) 5 testRng).1.isSome = true by decide)
    have h := enemy_speed_factor_policy.1 (fun _ => false) 5 testRng
      (createEnemy (fun _ => false) 5 testRng).2 e0
      (Prod.ext he0 rfl)
    rw [he0]
    simp [h]
  · obtain ⟨e', he'⟩ := Option.isSome_iff_exists.mp
      (show (getSnake (finalizeStep 0 gEnEat (SnakeRef.enemy 1) testRng).1
        (SnakeRef.enemy 1)).isSome = true by decide)
    have h := enemy_speed_factor_policy.2 0 gEnEat 1 testRng eEat rfl
      (by decide) e' he'
    rw [he']
    rcases h with h | h | h
    · exact Or.inl (by simp [h])
    · exact Or.inr (Or.inl (by simp [h]))
    · exact Or.inr (Or.inr (by simp [h]))

theorem createEnemies_facts (occ : List Position) (nextId : Nat) :
    ∀ (k : Nat) (rng : Rng) (occ' : List Position) (nid : Nat),
      ∀ e ∈ (createEnemies occ' nid k rng).1,
        e.prevBody = e.body ∧ e.speedFactor = 1 ∧ e.isPlayer = false ∧
          e.moveProgress = 0 := by
  intro k
  induction k with
  | zero => intro rng occ' nid e he; exact absurd he (List.not_mem_nil e)
  | succ k ih =>
    intro rng occ' nid e he
    unfold createEnemies at he
    dsimp only at he
    cases hc : (createEnemy (fun p => occ'.contains p) nid rng).1 with
    | none =>
      rw [hc] at he
      exact ih _ _ _ e he
    | some e0 =>
      rw [hc] at he
      dsimp only at he
      rcases List.mem_cons.mp he with rfl | he'
      · obtain ⟨f1, f2, f3, f4, _, _⟩ := createEnemyLoop_facts
          (fun p => occ'.contains p) nid _ rng e
          (createEnemy (fun p => occ'.contains p) nid rng).2
          (Prod.ext hc rfl)
        exact ⟨f4, f1, f2, f3⟩
      · exact ih _ _ _ e he'

theorem spawnInitialFood_snakes :
    ∀ (k : Nat) (g : Game) (rng : Rng),
      (spawnInitialFood k g rng).1.playerSnake = g.playerSnake ∧
        (spawnInitialFood k g rng).1.enemySnakes = g.enemySnakes := by
  intro k
  induction k with
  | zero => intro g rng; exact ⟨rfl, rfl⟩
  | succ k ih =>
    intro g rng
    unfold spawnInitialFood
    dsimp only
    obtain ⟨h1, h2, _, _⟩ := spawnFoodItem_fields g rng
    obtain ⟨i1, i2⟩ := ih (spawnFoodItem g rng).1 (spawnFoodItem g rng).2
    exact ⟨i1.trans h1, i2.trans h2⟩


theorem resetPipeline_snakes (now : ℚ) (g1 : Game) (rng : Rng) (k : Nat) :
    (scheduleNextEnemySpawn now (scheduleNextFoodSpawn now
      (spawnInitialFood k g1 rng).1)).playerSnake = g1.playerSnake ∧
    (scheduleNextEnemySpawn now (scheduleNextFoodSpawn now
      (spawnInitialFood k g1 rng).1)).enemySnakes = g1.enemySnakes := by
  obtain ⟨s1, s2⟩ := spawnInitialFood_snakes k g1 rng
  exact ⟨s1, s2⟩

theorem Reset_snakes (now : ℚ) (g : Game) (rng : Rng) :
    (∀ p, (Reset now g rng).1.playerSnake = some p →
      p.body.length = p.prevBody.length) ∧
    (∀ e ∈ (Reset now g rng).1.enemySnakes,
      e.body.length = e.prevBody.length) := by
  unfold Reset
  dsimp only
  refine ⟨?_, ?_⟩
  · intro p hp
    rw [(resetPipeline_snakes now _ _ _).1] at hp
    dsimp only at hp
    cases hp
    rfl
  · intro e he
    rw [(resetPipeline_snakes now _ _ _).2] at he
    dsimp only at he
    obtain ⟨hprev, -, -, -⟩ := createEnemies_facts [] 0 NumEnemySnakes rng _ 1 e he
    rw [hprev]

/-- C4: `len(Body) = len(PrevBody)` holds after every operation: it is
established by `Reset` (player and created enemies), preserved by the
mid-game enemy spawn, preserved by `grow`, re-established by every
finalized movement step, and an eating step grows both by exactly one,
keeping them equal. -/
theorem body_prevBody_lockstep :
    (∀ (now : ℚ) (g : Game) (rng : Rng),
      (∀ p, (Reset now g rng).1.playerSnake = some p →
        p.body.length = p.prevBody.length) ∧
      (∀ e ∈ (Reset now g rng).1.enemySnakes,
        e.body.length = e.prevBody.length)) ∧
    (∀ (g : Game) (rng : Rng),
      (∀ e ∈ g.enemySnakes, e.body.length = e.prevBody.length) →
      ∀ e ∈ (spawnEnemyIfPossible g rng).1.enemySnakes,
        e.body.length = e.prevBody.length) ∧
    (∀ s : Snake, s.body.length = s.prevBody.length →
      s.grow.body.length = s.grow.prevBody.length) ∧
    (∀ (now : ℚ) (g : Game) (ref : SnakeRef) (rng : Rng) (s : Snake),
      getSnake g ref = some s → s.body ≠ [] →
      ∀ s', getSnake (finalizeStep now g ref rng).1 ref = some s' →
        s'.body.length = s'.prevBody.length) ∧
    (∀ (now : ℚ) (g : Game) (ref : SnakeRef) (rng : Rng) (s : Snake)
      (pre post : List Food) (fd : Food),
      getSnake g ref = some s → s.body ≠ [] →
      s.body.length = s.prevBody.length →
      g.foodItems = pre ++ fd :: post →
      fd.pos = stepPos s.body.headI s.nextDir →
      (∀ f ∈ pre, f.pos ≠ stepPos s.body.headI s.nextDir) →
      ∀ s', getSnake (finalizeStep now g ref rng).1 ref = some s' →
        s'.body.length = s.body.length + 1 ∧
          s'.prevBody.length = s.prevBody.length + 1 ∧
          s'.body.length = s'.prevBody.length) := by
  refine ⟨Reset_snakes, ?_, ?_, ?_, ?_⟩
  · intro g rng hall e he
    unfold spawnEnemyIfPossible at he
    by_cases hcap : g.enemySnakes.length < MaxEnemySnakes
    · rw [if_pos hcap] at he
      dsimp only at he
      cases hc : (createEnemy (fun p => (occupiedCells g).contains p)
          g.nextSnakeId rng).1 with
      | none =>
        rw [hc] at he
        exact hall e he
      | some e0 =>
        rw [hc] at he
        dsimp only at he
        rcases List.mem_append.mp he with he' | he'
        · exact hall e he'
        · rcases List.mem_cons.mp he' with rfl | he''
          · obtain ⟨-, -, -, hprev, -, -⟩ := createEnemyLoop_facts
              (fun p => (occupiedCells g).contains p) g.nextSnakeId _ rng e
              (createEnemy (fun p => (occupiedCells g).contains p)
                g.nextSnakeId rng).2 (Prod.ext hc rfl)
            rw [hprev]
          · exact absurd he'' (List.not_mem_nil e)
    · rw [if_neg hcap] at he
      exact hall e he
  · intro s heq
    by_cases hb : s.body = []
    · unfold Snake.grow
      rw [hb]
      exact heq
    · obtain ⟨h1, h2⟩ := grow_lengths s hb
      rw [h1, h2, heq]
  · intro now g ref rng s hs hb s' hs'
    exact (finalizeStep_snake_facts now g ref rng s hs hb s' hs').2.2.2.2.1
  · intro now g ref rng s pre post fd hs hb heq hfoods hfd hpre s' hs'
    obtain ⟨c1, c2, -, -, -, -⟩ := (finalizeStep_eats now g ref rng s hs hb
      pre post fd hfoods hfd hpre).2.2 s' hs'
    exact ⟨c1, by rw [c2, heq], by rw [c1, c2]⟩

theorem body_prevBody_lockstep_witness :
    eEat.grow.body.length = eEat.grow.prevBody.length :=
  body_prevBody_lockstep.2.2.1 eEat (by decide)

theorem heuristic_nonneg (a b : Position) : 0 ≤ heuristic a b := by
  unfold heuristic
  dsimp only
  split_ifs <;> omega

theorem heuristic_self (a : Position) : heuristic a a = 0 := by
  unfold heuristic
  dsimp only
  split_ifs <;> omega

theorem adj_cases (p q : Position) (h : Adj p q) :
    q = ⟨p.x, p.y - 1⟩ ∨ q = ⟨p.x, p.y + 1⟩ ∨ q = ⟨p.x - 1, p.y⟩ ∨
      q = ⟨p.x + 1, p.y⟩ := by
  obtain ⟨off, hoff, hq⟩ := h
  simp only [neighborOffsets, List.mem_cons, List.not_mem_nil, or_false] at hoff
  rcases hoff with rfl | rfl | rfl | rfl
  · exact Or.inl (by rw [hq]; congr 1 <;> dsimp only <;> omega)
  · exact Or.inr (Or.inl (by rw [hq]; congr 1 <;> dsimp only <;> omega))
  · exact Or.inr (Or.inr (Or.inl (by rw [hq]; congr 1 <;> dsimp only <;> omega)))
  · exact Or.inr (Or.inr (Or.inr (by rw [hq]; congr 1 <;> dsimp only <;> omega)))

theorem adj_consistent (p q t : Position) (h : Adj p q) :
    heuristic p t ≤ heuristic q t + 1 := by
  rcases adj_cases p q h with rfl | rfl | rfl | rfl <;>
    · unfold heuristic
      dsimp only
      split_ifs <;> omega

theorem steps_heuristic {w h : Int} {obs : Position → Bool}
    {p q : Position} {n : Nat} (hs : Steps w h obs p q n) (t : Position) :
    heuristic p t ≤ heuristic q t + n := by
  induction hs with
  | refl => simp
  | tail hs hadj hfree ih =>
    have := adj_consistent _ _ t hadj
    push_cast
    push_cast at ih
    omega

theorem steps_lower {w h : Int} {obs : Position → Bool}
    {p q : Position} {n : Nat} (hs : Steps w h obs p q n) :
    heuristic p q ≤ n := by
  have := steps_heuristic hs q
  rw [heuristic_self] at this
  omega

theorem steps_cons {w h : Int} {obs : Position → Bool}
    {p q z : Position} {n : Nat} (hs : Steps w h obs q z n) (hadj : Adj p q)
    (hfree : freeCell w h obs q) : Steps w h obs p z (n + 1) := by
  induction hs with
  | refl => exact Steps.tail (Steps.refl p) hadj hfree
  | tail hs hadj' hfree' ih => exact Steps.tail ih hadj' hfree'

theorem routeList_steps {w h : Int} {obs : Position → Bool} :
    ∀ (qs : List Position) (p : Position), RouteList w h obs p qs →
      Steps w h obs p (qs.getLastD p) qs.length := by
  intro qs
  induction qs with
  | nil => intro p _; exact Steps.refl p
  | cons q rest ih =>
    intro p hr
    obtain ⟨hadj, hfree, hrest⟩ := hr
    have := ih q hrest
    rw [List.getLastD_cons]
    exact steps_cons this hadj hfree

theorem routeList_append_single {w h : Int} {obs : Position → Bool} :
    ∀ (xs : List Position) (s p : Position), RouteList w h obs s xs →
      Adj (xs.getLastD s) p → freeCell w h obs p →
      RouteList w h obs s (xs ++ [p]) := by
  intro xs
  induction xs with
  | nil => intro s p _ hadj hfree; exact ⟨hadj, hfree, trivial⟩
  | cons x rest ih =>
    intro s p hr hadj hfree
    obtain ⟨h1, h2, h3⟩ := hr
    rw [List.getLastD_cons] at hadj
    exact ⟨h1, h2, ih x p h3 hadj hfree⟩

theorem lookupNode_mem_keys : ∀ (m : NodeMap) (p : Position) (a : ANode),
    lookupNode m p = some a → p ∈ m.map Prod.fst := by
  intro m
  induction m with
  | nil => intro p a h; cases h
  | cons e rest ih =>
    intro p a h
    unfold lookupNode at h
    by_cases hp : p = e.1
    · rw [List.map_cons]
      exact hp ▸ List.mem_cons_self _ _
    · rw [if_neg hp] at h
      exact List.mem_cons_of_mem _ (ih p a h)

theorem keys_lookupNode : ∀ (m : NodeMap) (p : Position),
    p ∈ m.map Prod.fst → ∃ a, lookupNode m p = some a := by
  intro m
  induction m with
  | nil => intro p h; exact absurd h (List.not_mem_nil p)
  | cons e rest ih =>
    intro p h
    unfold lookupNode
    by_cases hp : p = e.1
    · rw [if_pos hp]; exact ⟨e.2, rfl⟩
    · rw [if_neg hp]
      rcases List.mem_cons.mp h with h' | h'
      · exact absurd h' hp
      · exact ih p h'

theorem lookupNode_insert_self : ∀ (m : NodeMap) (p : Position) (a : ANode),
    lookupNode (insertNode m p a) p = some a := by
  intro m
  induction m with
  | nil => intro p a; simp [insertNode, lookupNode]
  | cons e rest ih =>
    intro p a
    unfold insertNode
    by_cases hp : p = e.1
    · rw [if_pos hp]
      unfold lookupNode
      rw [if_pos rfl]
    · rw [if_neg hp]
      unfold lookupNode
      rw [if_neg hp]
      exact ih p a

theorem lookupNode_insert_ne : ∀ (m : NodeMap) (p q : Position) (a : ANode),
    q ≠ p → lookupNode (insertNode m p a) q = lookupNode m q := by
  intro m
  induction m with
  | nil =>
    intro p q a hqp
    unfold insertNode lookupNode
    rw [if_neg hqp]
    rfl
  | cons e rest ih =>
    intro p q a hqp
    unfold insertNode
    by_cases hp : p = e.1
    · rw [if_pos hp]
      unfold lookupNode
      rw [if_neg (hp ▸ hqp), if_neg (hp ▸ hqp)]
    · rw [if_neg hp]
      unfold lookupNode
      by_cases hq : q = e.1
      · rw [if_pos hq, if_pos hq]
      · rw [if_neg hq, if_neg hq]
        exact ih p q a hqp

theorem insertNode_keys_mem : ∀ (m : NodeMap) (p : Position) (a : ANode),
    p ∈ m.map Prod.fst → (insertNode m p a).map Prod.fst = m.map Prod.fst := by
  intro m
  induction m with
  | nil => intro p a h; exact absurd h (List.not_mem_nil p)
  | cons e rest ih =>
    intro p a h
    unfold insertNode
    by_cases hp : p = e.1
    · rw [if_pos hp, List.map_cons, List.map_cons, hp]
    · rw [if_neg hp, List.map_cons, List.map_cons]
      rcases List.mem_cons.mp h with h' | h'
      · exact absurd h' hp
      · rw [ih p a h']

theorem insertNode_keys_new : ∀ (m : NodeMap) (p : Position) (a : ANode),
    p ∉ m.map Prod.fst →
      (insertNode m p a).map Prod.fst = m.map Prod.fst ++ [p] := by
  intro m
  induction m with
  | nil => intro p a _; rfl
  | cons e rest ih =>
    intro p a h
    unfold insertNode
    by_cases hp : p = e.1
    · exact absurd (show p ∈ (e :: rest).map Prod.fst by
        rw [List.map_cons, hp]; exact List.mem_cons_self _ _) h
    · rw [if_neg hp, List.map_cons, List.map_cons,
        ih p a (fun hm => h (List.mem_cons_of_mem _ hm)), List.cons_append]

theorem nodeLess_irrefl (m : NodeMap) (p : Position) :
    nodeLess m p p = false := by
  unfold nodeLess
  dsimp only
  split_ifs <;> simp

theorem nodeLess_trans (m : NodeMap) {a b c : Position}
    (h1 : nodeLess m a b = true) (h2 : nodeLess m b c = true) :
    nodeLess m a c = true := by
  unfold nodeLess at h1 h2 ⊢
  dsimp only at h1 h2 ⊢
  split_ifs at h1 h2 ⊢ <;> simp_all <;> omega

theorem nodeLess_shift (m : NodeMap) {y best r : Position}
    (h1 : nodeLess m y r = true) (h2 : nodeLess m y best = false) :
    nodeLess m best r = true := by
  unfold nodeLess at h1 h2 ⊢
  dsimp only at h1 h2 ⊢
  split_ifs at h1 h2 ⊢ <;> simp_all <;> omega

theorem selectMin_mem (m : NodeMap) :
    ∀ (l : List Position) (best : Position), selectMin m best l ∈ best :: l := by
  intro l
  induction l with
  | nil => intro best; exact List.mem_cons_self _ _
  | cons y ys ih =>
    intro best
    unfold selectMin
    by_cases hc : nodeLess m y best = true
    · rw [if_pos hc]
      exact List.mem_cons_of_mem _ (ih y)
    · rw [if_neg hc]
      rcases List.mem_cons.mp (ih best) with h | h
      · rw [h]; exact List.mem_cons_self _ _
      · exact List.mem_cons_of_mem _ (List.mem_cons_of_mem _ h)

theorem selectMin_not_less (m : NodeMap) :
    ∀ (l : List Position) (best x : Position), x ∈ best :: l →
      nodeLess m x (selectMin m best l) = false := by
  intro l
  induction l with
  | nil =>
    intro best x hx
    rcases List.mem_cons.mp hx with h | h'
    · rw [h]; exact nodeLess_irrefl m best
    · exact absurd h' (List.not_mem_nil x)
  | cons y ys ih =>
    intro best x hx
    unfold selectMin
    by_cases hc : nodeLess m y best = true
    · rw [if_pos hc]
      rcases List.mem_cons.mp hx with h | hx'
    -- x = best
      · rw [h]
        rcases Bool.eq_false_or_eq_true (nodeLess m best (selectMin m y ys)) with ht | hf
        · have hy := ih y y (List.mem_cons_self _ _)
          rw [nodeLess_trans m hc ht] at hy
          cases hy
        · exact hf
      · exact ih y x hx'
    · rw [if_neg hc]
      rcases List.mem_cons.mp hx with h | hx'
      · rw [h]
        exact ih best best (List.mem_cons_self _ _)
      · rcases List.mem_cons.mp hx' with h | hx''
        · rw [h]
          rcases Bool.eq_false_or_eq_true (nodeLess m y (selectMin m best ys)) with ht | hf
          · have hb := ih best best (List.mem_cons_self _ _)
            have := nodeLess_shift m ht (Bool.eq_false_iff.mpr hc)
            rw [this] at hb
            cases hb
          · exact hf
        · exact ih best x (List.mem_cons_of_mem _ hx'')

theorem astarFrontier {w h : Int} {obs : Position → Bool} {start target : Position}
    {st : AState} (inv : AInv w h obs start target st) :
    ∀ (z : Position) (n : Nat), Steps w h obs start z n → z ∉ st.closedSet →
      ∃ y a m k, lookupNode st.nodes y = some a ∧ y ∈ st.openList ∧
        a.g ≤ (m : Int) ∧ Steps w h obs y z k ∧ m + k = n := by
  intro z n hs
  induction hs with
  | refl =>
    intro hz
    obtain ⟨a, ha⟩ := keys_lookupNode _ _ inv.start_key
    rcases inv.key_split start inv.start_key with ⟨ho, _⟩ | ⟨hc, _⟩
    · exact ⟨start, a, 0, 0, ha, ho, by
        simpa using (inv.start_node a ha).1.le, Steps.refl start, rfl⟩
    · exact absurd hc hz
  | tail hs hadj hfree ih =>
    intro hz
    rename_i q' r' n'
    by_cases hq : q' ∈ st.closedSet
    · obtain ⟨aq, haq⟩ := keys_lookupNode _ _ (inv.closed_sub q' hq)
      obtain ⟨b, hb, hro, hbg⟩ := inv.closed_exp q' hq aq haq r' hadj hfree hz
      have hgq := inv.closed_opt q' hq aq haq _ hs
      refine ⟨r', b, n' + 1, 0, hb, hro, ?_, Steps.refl r', by omega⟩
      push_cast
      omega
    · obtain ⟨y, a, m, k, h1, h2, h3, h4, h5⟩ := ih hq
      exact ⟨y, a, m, k + 1, h1, h2, h3, Steps.tail h4 hadj hfree, by omega⟩

theorem AInv.core {w h : Int} {obs : Position → Bool} {start target : Position}
    {st : AState} (inv : AInv w h obs start target st) :
    ACore w h obs start target st :=
  ⟨inv.keys_nodup, inv.open_nodup, inv.closed_nodup, inv.open_sub,
    inv.closed_sub, inv.key_split, inv.keys_valid, inv.start_key,
    inv.start_node, inv.g_nonneg, inv.hf_def, inv.parent_prop⟩

theorem pop_optimal {w h : Int} {obs : Position → Bool} {start target : Position}
    {st : AState} (inv : AInv w h obs start target st) (o : Position)
    (os : List Position) (hopen : st.openList = o :: os) (ca : ANode)
    (hca : lookupNode st.nodes (selectMin st.nodes o os) = some ca) :
    ∀ (n : Nat), Steps w h obs start (selectMin st.nodes o os) n →
      ca.g ≤ (n : Int) := by
  intro n hs
  have hcuro : selectMin st.nodes o os ∈ st.openList := by
    rw [hopen]; exact selectMin_mem st.nodes os o
  have hcurnc : selectMin st.nodes o os ∉ st.closedSet := by
    rcases inv.key_split _ (inv.open_sub _ hcuro) with ⟨_, hnc⟩ | ⟨_, hno⟩
    · exact hnc
    · exact absurd hcuro hno
  obtain ⟨y, a, m, k, hy, hyo, hgm, hyz, hmk⟩ :=
    astarFrontier inv (selectMin st.nodes o os) n hs hcurnc
  have hless : nodeLess st.nodes y (selectMin st.nodes o os) = false :=
    selectMin_not_less st.nodes os o y (by rw [← hopen]; exact hyo)
  have hfle : ca.f ≤ a.f := by
    unfold nodeLess at hless
    dsimp only at hless
    rw [hy, hca] at hless
    simp only [Option.getD_some] at hless
    split_ifs at hless with hfeq
    · omega
    · simp only [decide_eq_false_iff_not] at hless
      omega
  obtain ⟨hah, haf⟩ := inv.hf_def y a hy
  obtain ⟨hch, hcf⟩ := inv.hf_def _ ca hca
  have hcons := steps_heuristic hyz target
  rw [hah] at haf
  rw [hch] at hcf
  omega

theorem acore_insert_fresh {w h : Int} {obs : Position → Bool}
    {start target : Position} {st : AState} {cur npos : Position} {curG : Int}
    (core : ACore w h obs start target st)
    (ca : ANode) (hca : lookupNode st.nodes cur = some ca) (hcag : ca.g = curG)
    (hcc : cur ∈ st.closedSet) (hadj : Adj cur npos)
    (hfree : freeCell w h obs npos) (hncl : npos ∉ st.closedSet)
    (hnb : lookupNode st.nodes npos = none) :
    ACore w h obs start target
      { st with
        nodes := insertNode st.nodes npos
          ⟨curG + 1, heuristic npos target,
            curG + 1 + heuristic npos target, some cur⟩
        openList := st.openList ++ [npos] } := by
  have hcg0 : 0 ≤ curG := hcag ▸ core.g_nonneg cur ca hca
  have hnk : npos ∉ st.nodes.map Prod.fst := by
    intro hm
    obtain ⟨a, ha⟩ := keys_lookupNode _ _ hm
    rw [hnb] at ha
    cases ha
  have hkeys := insertNode_keys_new st.nodes npos
    ⟨curG + 1, heuristic npos target, curG + 1 + heuristic npos target,
      some cur⟩ hnk
  have hne_start : start ≠ npos := fun he => hnk (he ▸ core.start_key)
  have hnopen : npos ∉ st.openList := fun ho => hnk (core.open_sub _ ho)
  have hcur_ne : cur ≠ npos := fun he => hnk (he ▸ core.closed_sub cur hcc)
  have hsame : ∀ (p : Position), p ≠ npos → lookupNode (insertNode st.nodes npos
      ⟨curG + 1, heuristic npos target, curG + 1 + heuristic npos target,
        some cur⟩) p = lookupNode st.nodes p :=
    fun p hp => lookupNode_insert_ne st.nodes npos p _ hp
  have hself := lookupNode_insert_self st.nodes npos
    ⟨curG + 1, heuristic npos target, curG + 1 + heuristic npos target,
      some cur⟩
  refine ⟨?_, ?_, core.closed_nodup, ?_, ?_, ?_, ?_, ?_, ?_, ?_, ?_, ?_⟩
  · show ((insertNode st.nodes npos _).map Prod.fst).Nodup
    rw [hkeys]
    simp only [List.nodup_append, List.nodup_cons, List.not_mem_nil,
      List.nodup_nil, not_false_iff, true_and, and_true]
    refine ⟨core.keys_nodup, ?_⟩
    intro x hx
    simp only [List.mem_singleton]
    intro he
    exact hnk (he ▸ hx)
  · show (st.openList ++ [npos]).Nodup
    simp only [List.nodup_append, List.nodup_cons, List.not_mem_nil,
      List.nodup_nil, not_false_iff, true_and, and_true]
    refine ⟨core.open_nodup, ?_⟩
    intro x hx
    simp only [List.mem_singleton]
    intro he
    exact hnopen (he ▸ hx)
  · show ∀ p ∈ st.openList ++ [npos], p ∈ (insertNode st.nodes npos _).map Prod.fst
    intro p hp
    rw [hkeys]
    rcases List.mem_append.mp hp with hp' | hp'
    · exact List.mem_append_left _ (core.open_sub p hp')
    · exact List.mem_append_right _ hp'
  · show ∀ p ∈ st.closedSet, p ∈ (insertNode st.nodes npos _).map Prod.fst
    intro p hp
    rw [hkeys]
    exact List.mem_append_left _ (core.closed_sub p hp)
  · show ∀ p ∈ (insertNode st.nodes npos _).map Prod.fst,
      (p ∈ st.openList ++ [npos] ∧ p ∉ st.closedSet) ∨
        (p ∈ st.closedSet ∧ p ∉ st.openList ++ [npos])
    intro p hp
    rw [hkeys] at hp
    rcases List.mem_append.mp hp with hp' | hp'
    · rcases core.key_split p hp' with ⟨ho, hnc⟩ | ⟨hc, hno⟩
      · exact Or.inl ⟨List.mem_append_left _ ho, hnc⟩
      · refine Or.inr ⟨hc, ?_⟩
        intro hmem
        rcases List.mem_append.mp hmem with hm | hm
        · exact hno hm
        · rw [List.mem_singleton] at hm
          exact hncl (hm ▸ hc)
    · rw [List.mem_singleton] at hp'
      subst hp'
      exact Or.inl ⟨List.mem_append_right _ (List.mem_singleton.mpr rfl),
        hncl⟩
  · show ∀ p ∈ (insertNode st.nodes npos _).map Prod.fst,
      p = start ∨ freeCell w h obs p
    intro p hp
    rw [hkeys] at hp
    rcases List.mem_append.mp hp with hp' | hp'
    · exact core.keys_valid p hp'
    · rw [List.mem_singleton] at hp'
      exact Or.inr (hp' ▸ hfree)
  · show start ∈ (insertNode st.nodes npos _).map Prod.fst
    rw [hkeys]
    exact List.mem_append_left _ core.start_key
  · intro a ha
    rw [hsame start hne_start] at ha
    exact core.start_node a ha
  · intro p a ha
    by_cases hp : p = npos
    · subst hp
      rw [hself] at ha
      cases ha
      dsimp only
      omega
    · rw [hsame p hp] at ha
      exact core.g_nonneg p a ha
  · intro p a ha
    by_cases hp : p = npos
    · subst hp
      rw [hself] at ha
      cases ha
      exact ⟨rfl, rfl⟩
    · rw [hsame p hp] at ha
      exact core.hf_def p a ha
  · intro p a ha hps
    by_cases hp : p = npos
    · subst hp
      rw [hself] at ha
      cases ha
      refine ⟨cur, ca, rfl, ?_, hadj, hfree, by dsimp only; omega, hcc⟩
      rw [hsame cur hcur_ne]
      exact hca
    · rw [hsame p hp] at ha
      obtain ⟨q, b, h1, h2, h3, h4, h5, h6⟩ := core.parent_prop p a ha hps
      have hq_ne : q ≠ npos := fun he => hncl (he ▸ h6)
      exact ⟨q, b, h1, by rw [hsame q hq_ne]; exact h2, h3, h4, h5, h6⟩

theorem acore_insert_relax {w h : Int} {obs : Position → Bool}
    {start target : Position} {st : AState} {cur npos : Position} {curG : Int}
    (core : ACore w h obs start target st)
    (ca : ANode) (hca : lookupNode st.nodes cur = some ca) (hcag : ca.g = curG)
    (hcc : cur ∈ st.closedSet) (hadj : Adj cur npos)
    (hfree : freeCell w h obs npos) (hncl : npos ∉ st.closedSet)
    (nb : ANode) (hnb : lookupNode st.nodes npos = some nb)
    (hlt : curG + 1 < nb.g) :
    ACore w h obs start target
      { st with
        nodes := insertNode st.nodes npos
          ⟨curG + 1, heuristic npos target,
            curG + 1 + heuristic npos target, some cur⟩ } := by
  have hcg0 : 0 ≤ curG := hcag ▸ core.g_nonneg cur ca hca
  have hnk : npos ∈ st.nodes.map Prod.fst := lookupNode_mem_keys _ _ _ hnb
  have hkeys := insertNode_keys_mem st.nodes npos
    ⟨curG + 1, heuristic npos target, curG + 1 + heuristic npos target,
      some cur⟩ hnk
  have hne_start : start ≠ npos := by
    intro he
    obtain ⟨hg0, -⟩ := core.start_node nb (he ▸ hnb)
    omega
  have hcur_ne : cur ≠ npos := fun he => hncl (he ▸ hcc)
  have hsame : ∀ (p : Position), p ≠ npos → lookupNode (insertNode st.nodes npos
      ⟨curG + 1, heuristic npos target, curG + 1 + heuristic npos target,
        some cur⟩) p = lookupNode st.nodes p :=
    fun p hp => lookupNode_insert_ne st.nodes npos p _ hp
  have hself := lookupNode_insert_self st.nodes npos
    ⟨curG + 1, heuristic npos target, curG + 1 + heuristic npos target,
      some cur⟩
  refine ⟨?_, core.open_nodup, core.closed_nodup, ?_, ?_, ?_, ?_, ?_, ?_,
    ?_, ?_, ?_⟩
  · show ((insertNode st.nodes npos _).map Prod.fst).Nodup
    rw [hkeys]
    exact core.keys_nodup
  · show ∀ p ∈ st.openList, p ∈ (insertNode st.nodes npos _).map Prod.fst
    intro p hp
    rw [hkeys]
    exact core.open_sub p hp
  · show ∀ p ∈ st.closedSet, p ∈ (insertNode st.nodes npos _).map Prod.fst
    intro p hp
    rw [hkeys]
    exact core.closed_sub p hp
  · show ∀ p ∈ (insertNode st.nodes npos _).map Prod.fst,
      (p ∈ st.openList ∧ p ∉ st.closedSet) ∨
        (p ∈ st.closedSet ∧ p ∉ st.openList)
    intro p hp
    rw [hkeys] at hp
    exact core.key_split p hp
  · show ∀ p ∈ (insertNode st.nodes npos _).map Prod.fst,
      p = start ∨ freeCell w h obs p
    intro p hp
    rw [hkeys] at hp
    exact core.keys_valid p hp
  · show start ∈ (insertNode st.nodes npos _).map Prod.fst
    rw [hkeys]
    exact core.start_key
  · intro a ha
    rw [hsame start hne_start] at ha
    exact core.start_node a ha
  · intro p a ha
    by_cases hp : p = npos
    · subst hp
      rw [hself] at ha
      cases ha
      dsimp only
      omega
    · rw [hsame p hp] at ha
      exact core.g_nonneg p a ha
  · intro p a ha
    by_cases hp : p = npos
    · subst hp
      rw [hself] at ha
      cases ha
      exact ⟨rfl, rfl⟩
    · rw [hsame p hp] at ha
      exact core.hf_def p a ha
  · intro p a ha hps
    by_cases hp : p = npos
    · subst hp
      rw [hself] at ha
      cases ha
      refine ⟨cur, ca, rfl, ?_, hadj, hfree, by dsimp only; omega, hcc⟩
      rw [hsame cur hcur_ne]
      exact hca
    · rw [hsame p hp] at ha
      obtain ⟨q, b, h1, h2, h3, h4, h5, h6⟩ := core.parent_prop p a ha hps
      have hq_ne : q ≠ npos := fun he => hncl (he ▸ h6)
      exact ⟨q, b, h1, by rw [hsame q hq_ne]; exact h2, h3, h4, h5, h6⟩

theorem processNeighbor_core {w h : Int} {obs : Position → Bool}
    {start target : Position} {st : AState} {cur : Position} {curG : Int}
    (core : ACore w h obs start target st)
    (ca : ANode) (hca : lookupNode st.nodes cur = some ca) (hcag : ca.g = curG)
    (hcc : cur ∈ st.closedSet)
    (off : Position) (hoff : off ∈ neighborOffsets) :
    ACore w h obs start target (processNeighbor w h obs target cur curG st off) ∧
      (processNeighbor w h obs target cur curG st off).closedSet =
        st.closedSet ∧
      (∀ p ∈ st.openList,
        p ∈ (processNeighbor w h obs target cur curG st off).openList) ∧
      (∀ p a, lookupNode st.nodes p = some a →
        ∃ a', lookupNode (processNeighbor w h obs target cur curG st off).nodes
            p = some a' ∧ a'.g ≤ a.g ∧ (p ∈ st.closedSet → a' = a)) ∧
      (freeCell w h obs ⟨cur.x + off.x, cur.y + off.y⟩ →
        (⟨cur.x + off.x, cur.y + off.y⟩ : Position) ∉ st.closedSet →
        ∃ b, lookupNode (processNeighbor w h obs target cur curG st off).nodes
            ⟨cur.x + off.x, cur.y + off.y⟩ = some b ∧
          (⟨cur.x + off.x, cur.y + off.y⟩ : Position) ∈
            (processNeighbor w h obs target cur curG st off).openList ∧
          b.g ≤ curG + 1) := by
  have hadj : Adj cur ⟨cur.x + off.x, cur.y + off.y⟩ := ⟨off, hoff, rfl⟩
  unfold processNeighbor
  dsimp only
  by_cases hskip : ¬ (isValid ⟨cur.x + off.x, cur.y + off.y⟩ w h = true) ∨
      obs ⟨cur.x + off.x, cur.y + off.y⟩ = true ∨
      (⟨cur.x + off.x, cur.y + off.y⟩ : Position) ∈ st.closedSet
  · rw [if_pos hskip]
    refine ⟨core, rfl, fun p hp => hp,
      fun p a ha => ⟨a, ha, le_refl _, fun _ => rfl⟩, ?_⟩
    intro hfree hnc
    rcases hskip with h1 | h2 | h3
    · exact absurd hfree.1 h1
    · exact absurd hfree.2 (by rw [h2]; simp)
    · exact absurd h3 hnc
  · rw [if_neg hskip]
    push_neg at hskip
    obtain ⟨hval, hobs, hncl⟩ := hskip
    have hfree : freeCell w h obs ⟨cur.x + off.x, cur.y + off.y⟩ :=
      ⟨by simpa using hval, by simpa using hobs⟩
    cases hnb : lookupNode st.nodes ⟨cur.x + off.x, cur.y + off.y⟩ with
    | none =>
      dsimp only
      have hnk : (⟨cur.x + off.x, cur.y + off.y⟩ : Position) ∉
          st.nodes.map Prod.fst := by
        intro hm
        obtain ⟨a, ha⟩ := keys_lookupNode _ _ hm
        rw [hnb] at ha
        cases ha
      have hsame : ∀ (p : Position),
          p ≠ (⟨cur.x + off.x, cur.y + off.y⟩ : Position) →
          lookupNode (insertNode st.nodes ⟨cur.x + off.x, cur.y + off.y⟩
            ⟨curG + 1, heuristic ⟨cur.x + off.x, cur.y + off.y⟩ target,
              curG + 1 + heuristic ⟨cur.x + off.x, cur.y + off.y⟩ target,
              some cur⟩) p = lookupNode st.nodes p :=
        fun p hp => lookupNode_insert_ne st.nodes _ p _ hp
      refine ⟨acore_insert_fresh core ca hca hcag hcc hadj hfree hncl hnb,
        rfl, fun p hp => List.mem_append_left _ hp, ?_, ?_⟩
      · intro p a ha
        have hp_ne : p ≠ (⟨cur.x + off.x, cur.y + off.y⟩ : Position) := by
          intro he
          rw [he, hnb] at ha
          cases ha
        exact ⟨a, by rw [hsame p hp_ne]; exact ha, le_refl _, fun _ => rfl⟩
      · intro _ _
        exact ⟨_, lookupNode_insert_self st.nodes _ _,
          List.mem_append_right _ (List.mem_singleton.mpr rfl), by
            dsimp only
            have : 0 ≤ curG := hcag ▸ core.g_nonneg cur ca hca
            omega⟩
    | some nb =>
      dsimp only
      by_cases hrel : curG + 1 < nb.g
      · rw [if_pos hrel]
        have hsame : ∀ (p : Position),
            p ≠ (⟨cur.x + off.x, cur.y + off.y⟩ : Position) →
            lookupNode (insertNode st.nodes ⟨cur.x + off.x, cur.y + off.y⟩
              ⟨curG + 1, heuristic ⟨cur.x + off.x, cur.y + off.y⟩ target,
                curG + 1 + heuristic ⟨cur.x + off.x, cur.y + off.y⟩ target,
                some cur⟩) p = lookupNode st.nodes p :=
          fun p hp => lookupNode_insert_ne st.nodes _ p _ hp
        have hopen : (⟨cur.x + off.x, cur.y + off.y⟩ : Position) ∈
            st.openList := by
          rcases core.key_split _ (lookupNode_mem_keys _ _ _ hnb) with
            ⟨ho, -⟩ | ⟨hc, -⟩
          · exact ho
          · exact absurd hc hncl
        refine ⟨acore_insert_relax core ca hca hcag hcc hadj hfree hncl nb
          hnb hrel, rfl, fun p hp => hp, ?_, ?_⟩
        · intro p a ha
          by_cases hp : p = (⟨cur.x + off.x, cur.y + off.y⟩ : Position)
          · subst hp
            rw [hnb] at ha
            cases ha
            exact ⟨_, lookupNode_insert_self st.nodes _ _, by
              dsimp only; omega, fun hc => absurd hc hncl⟩
          · exact ⟨a, by rw [hsame p hp]; exact ha, le_refl _, fun _ => rfl⟩
        · intro _ _
          exact ⟨_, lookupNode_insert_self st.nodes _ _, hopen, by
            dsimp only; omega⟩
      · rw [if_neg hrel]
        have hopen : (⟨cur.x + off.x, cur.y + off.y⟩ : Position) ∈
            st.openList := by
          rcases core.key_split _ (lookupNode_mem_keys _ _ _ hnb) with
            ⟨ho, -⟩ | ⟨hc, -⟩
          · exact ho
          · exact absurd hc hncl
        refine ⟨core, rfl, fun p hp => hp,
          fun p a ha => ⟨a, ha, le_refl _, fun _ => rfl⟩, ?_⟩
        intro _ _
        exact ⟨nb, hnb, hopen, by omega⟩

theorem fold_core {w h : Int} {obs : Position → Bool}
    {start target : Position} {cur : Position} {curG : Int} :
    ∀ (offs : List Position) (st : AState),
      (∀ off ∈ offs, off ∈ neighborOffsets) →
      ACore w h obs start target st →
      (∃ ca, lookupNode st.nodes cur = some ca ∧ ca.g = curG ∧
        cur ∈ st.closedSet) →
      ACore w h obs start target
          (offs.foldl (processNeighbor w h obs target cur curG) st) ∧
        (offs.foldl (processNeighbor w h obs target cur curG) st).closedSet =
          st.closedSet ∧
        (∀ p ∈ st.openList,
          p ∈ (offs.foldl (processNeighbor w h obs target cur curG)
            st).openList) ∧
        (∀ p a, lookupNode st.nodes p = some a →
          ∃ a', lookupNode (offs.foldl
              (processNeighbor w h obs target cur curG) st).nodes p =
            some a' ∧ a'.g ≤ a.g ∧ (p ∈ st.closedSet → a' = a)) ∧
        (∀ off ∈ offs, freeCell w h obs ⟨cur.x + off.x, cur.y + off.y⟩ →
          (⟨cur.x + off.x, cur.y + off.y⟩ : Position) ∉ st.closedSet →
          ∃ b, lookupNode (offs.foldl
                (processNeighbor w h obs target cur curG) st).nodes
              ⟨cur.x + off.x, cur.y + off.y⟩ = some b ∧
            (⟨cur.x + off.x, cur.y + off.y⟩ : Position) ∈
              (offs.foldl (processNeighbor w h obs target cur curG)
                st).openList ∧
            b.g ≤ curG + 1) := by
  intro offs
  induction offs with
  | nil =>
    intro st _ core hcur
    exact ⟨core, rfl, fun p hp => hp,
      fun p a ha => ⟨a, ha, le_refl _, fun _ => rfl⟩,
      fun off hoff => absurd hoff (List.not_mem_nil off)⟩
  | cons o rest ih =>
    intro st hoffs core hcur
    obtain ⟨ca, hca, hcag, hcc⟩ := hcur
    have ho : o ∈ neighborOffsets := hoffs o (List.mem_cons_self _ _)
    obtain ⟨core1, hcl1, hop1, hmono1, hnew1⟩ :=
      processNeighbor_core core ca hca hcag hcc o ho
    obtain ⟨ca1, hca1, hg1, heq1⟩ := hmono1 cur ca hca
    have hcag1 : ca1.g = curG := by rw [heq1 hcc, hcag]
    have hcc1 : cur ∈ (processNeighbor w h obs target cur curG st o).closedSet := by
      rw [hcl1]; exact hcc
    rw [List.foldl_cons]
    obtain ⟨coreR, hclR, hopR, hmonoR, hnewR⟩ :=
      ih (processNeighbor w h obs target cur curG st o)
        (fun off hoff => hoffs off (List.mem_cons_of_mem _ hoff)) core1
        ⟨ca1, hca1, hcag1, hcc1⟩
    refine ⟨coreR, hclR.trans hcl1, fun p hp => hopR p (hop1 p hp), ?_, ?_⟩
    · intro p a ha
      obtain ⟨a1, ha1, hg1', heq1'⟩ := hmono1 p a ha
      obtain ⟨a2, ha2, hg2', heq2'⟩ := hmonoR p a1 ha1
      refine ⟨a2, ha2, le_trans hg2' hg1', ?_⟩
      intro hpc
      have hpc1 : p ∈ (processNeighbor w h obs target cur curG st o).closedSet := by
        rw [hcl1]; exact hpc
      rw [heq2' hpc1, heq1' hpc]
    · intro off hoff hfree hncl
      rcases List.mem_cons.mp hoff with rfl | hoff'
      · obtain ⟨b, hb, hbo, hbg⟩ := hnew1 hfree hncl
        obtain ⟨b2, hb2, hbg2, -⟩ := hmonoR _ b hb
        exact ⟨b2, hb2, hopR _ hbo, le_trans hbg2 hbg⟩
      · have hncl1 : (⟨cur.x + off.x, cur.y + off.y⟩ : Position) ∉
            (processNeighbor w h obs target cur curG st o).closedSet := by
          rw [hcl1]; exact hncl
        exact hnewR off hoff' hfree hncl1

theorem getLastD_append_single {α : Type} (xs : List α) (p : α) :
    ∀ d, (xs ++ [p]).getLastD d = p := by
  induction xs with
  | nil => intro d; rfl
  | cons x rest ih =>
    intro d
    rw [List.cons_append, List.getLastD_cons]
    exact ih x

theorem reconstruct_bundle {w h : Int} {obs : Position → Bool}
    {start : Position} {m : NodeMap}
    (hstart : ∀ a, lookupNode m start = some a → a.g = 0 ∧ a.parent = none)
    (hparent : ∀ p a, lookupNode m p = some a → p ≠ start →
      ∃ q b, a.parent = some q ∧ lookupNode m q = some b ∧ Adj q p ∧
        freeCell w h obs p ∧ a.g = b.g + 1)
    (hg0 : ∀ p a, lookupNode m p = some a → 0 ≤ a.g) :
    ∀ (gn : Nat) (p : Position) (a : ANode), lookupNode m p = some a →
      a.g = (gn : Int) →
      ∃ l : List Position,
        (∀ fuel, gn < fuel → reconstructPathAux m fuel p = l) ∧
        l.length = gn ∧
        RouteList w h obs start l.reverse ∧
        l.reverse.getLastD start = p ∧
        start ∉ l ∧
        (∀ x ∈ l, ∃ ax, lookupNode m x = some ax ∧ 1 ≤ ax.g ∧ ax.g ≤ a.g ∧
          x ∈ m.map Prod.fst) ∧
        l.Nodup ∧
        Steps w h obs start p gn := by
  intro gn
  induction gn using Nat.strong_induction_on with
  | _ gn ih =>
    intro p a ha hag
    by_cases hps : p = start
    · subst hps
      obtain ⟨hg, hpar⟩ := hstart a ha
      have hgn : gn = 0 := by omega
      subst hgn
      refine ⟨[], ?_, rfl, trivial, rfl, List.not_mem_nil p, ?_, List.nodup_nil,
        Steps.refl p⟩
      · intro fuel hf
        cases fuel with
        | zero => omega
        | succ f =>
          unfold reconstructPathAux
          rw [ha]
          dsimp only
          rw [hpar]
      · intro x hx
        exact absurd hx (List.not_mem_nil x)
    · obtain ⟨q, b, hpar, hqb, hadj, hfree, hgeq⟩ := hparent p a ha hps
      have hb0 : 0 ≤ b.g := hg0 q b hqb
      have hgn1 : 1 ≤ gn := by omega
      have hbg : b.g = ((gn - 1 : Nat) : Int) := by omega
      obtain ⟨lq, hauxq, hlenq, hrouteq, hlastq, hstartq, hnodesq, hnodupq,
        hstepsq⟩ := ih (gn - 1) (by omega) q b hqb hbg
      refine ⟨p :: lq, ?_, ?_, ?_, ?_, ?_, ?_, ?_, ?_⟩
      · intro fuel hf
        cases fuel with
        | zero => omega
        | succ f =>
          unfold reconstructPathAux
          rw [ha]
          dsimp only
          rw [hpar]
          dsimp only
          rw [hauxq f (by omega)]
      · simp [hlenq]; omega
      · rw [List.reverse_cons]
        refine routeList_append_single lq.reverse start p hrouteq ?_ hfree
        rw [hlastq]
        exact hadj
      · rw [List.reverse_cons]
        exact getLastD_append_single _ _ _
      · intro hmem
        rcases List.mem_cons.mp hmem with he | hm
        · exact hps he.symm
        · exact hstartq hm
      · intro x hx
        rcases List.mem_cons.mp hx with rfl | hx'
        · exact ⟨a, ha, by omega, le_refl _, lookupNode_mem_keys _ _ _ ha⟩
        · obtain ⟨ax, h1, h2, h3, h4⟩ := hnodesq x hx'
          exact ⟨ax, h1, h2, by omega, h4⟩
      · refine List.nodup_cons.mpr ⟨?_, hnodupq⟩
        intro hp
        obtain ⟨ax, h1, -, h3, -⟩ := hnodesq p hp
        rw [ha] at h1
        cases h1
        omega
      · have : Steps w h obs start p ((gn - 1) + 1) :=
          Steps.tail hstepsq hadj hfree
        have hgn : (gn - 1) + 1 = gn := by omega
        rw [hgn] at this
        exact this

theorem nodup_subset_length {α : Type} [DecidableEq α] {l₁ l₂ : List α}
    (d : l₁.Nodup) (s : l₁ ⊆ l₂) : l₁.length ≤ l₂.length :=
  (d.subperm s).length_le

theorem isValid_mem_gridCells (p : Position) (w h : Int)
    (hv : isValid p w h = true) : p ∈ gridCells w h := by
  unfold isValid at hv
  simp only [Bool.and_eq_true, decide_eq_true_eq] at hv
  obtain ⟨⟨⟨h1, h2⟩, h3⟩, h4⟩ := hv
  unfold gridCells
  simp only [List.mem_flatMap, List.mem_map, List.mem_range]
  refine ⟨p.y.toNat, ?_, p.x.toNat, ?_, ?_⟩
  · omega
  · simp only [List.mem_flatMap, List.mem_range, List.mem_singleton, List.pure_def,
      List.bind_eq_flatMap]
    exact ⟨p.x.toNat, by omega, rfl⟩
  · cases p with
    | mk x y =>
      dsimp only at *
      congr 1 <;> omega

theorem astar_success {w h : Int} {obs : Position → Bool}
    {start target : Position} {st : AState}
    (inv : AInv w h obs start target st) (o : Position) (os : List Position)
    (hopen : st.openList = o :: os) (hcur : selectMin st.nodes o os = target) :
    RouteList w h obs start (reconstructPath st.nodes target) ∧
      (reconstructPath st.nodes target).getLastD start = target ∧
      start ∉ reconstructPath st.nodes target ∧
      (reconstructPath st.nodes target = [] ↔ start = target) ∧
      (∀ n, Steps w h obs start target n →
        (reconstructPath st.nodes target).length ≤ n) := by
  have hmem : target ∈ st.openList := by
    rw [hopen, ← hcur]
    exact selectMin_mem st.nodes os o
  obtain ⟨ta, hta⟩ := keys_lookupNode _ _ (inv.open_sub _ hmem)
  have hg0 : 0 ≤ ta.g := inv.g_nonneg _ _ hta
  obtain ⟨l, haux, hlen, hroute, hlast, hstartl, hnodes, hnodup, hsteps⟩ :=
    reconstruct_bundle inv.start_node
      (fun p a ha hne => by
        obtain ⟨q, b, h1, h2, h3, h4, h5, h6⟩ := inv.parent_prop p a ha hne
        exact ⟨q, b, h1, h2, h3, h4, h5⟩)
      inv.g_nonneg ta.g.toNat target ta hta (by omega)
  have hsub : (start :: l) ⊆ st.nodes.map Prod.fst := by
    intro x hx
    rcases List.mem_cons.mp hx with rfl | hx'
    · exact inv.start_key
    · exact (hnodes x hx').choose_spec.2.2.2
  have hnd : (start :: l).Nodup := List.nodup_cons.mpr ⟨hstartl, hnodup⟩
  have hcount : ta.g.toNat + 1 ≤ st.nodes.length := by
    have hle := nodup_subset_length hnd hsub
    rw [List.length_cons, hlen, List.length_map] at hle
    omega
  have hpath : reconstructPath st.nodes target = l.reverse := by
    unfold reconstructPath
    rw [haux st.nodes.length (by omega)]
  rw [hpath]
  have hgt_zero : ta.g = 0 ↔ start = target := by
    constructor
    · intro hz
      by_contra hne
      obtain ⟨q, b, -, hqb, -, -, h5, -⟩ :=
        inv.parent_prop target ta hta (fun he => hne he.symm)
      have := inv.g_nonneg q b hqb
      omega
    · intro he
      subst he
      exact (inv.start_node ta hta).1
  refine ⟨hroute, hlast, ?_, ?_, ?_⟩
  · rw [List.mem_reverse]
    exact hstartl
  · rw [List.reverse_eq_nil_iff]
    constructor
    · intro hnil
      rw [hnil] at hlen
      exact hgt_zero.mp (by simp at hlen; omega)
    · intro he
      have := hgt_zero.mpr he
      have hl0 : l.length = 0 := by omega
      exact List.eq_nil_of_length_eq_zero hl0
  · intro n hs
    have hopt := pop_optimal inv o os hopen ta (by rw [hcur]; exact hta) n
      (by rw [hcur]; exact hs)
    rw [List.length_reverse, hlen]
    omega

theorem astar_step {w h : Int} {obs : Position → Bool}
    {start target : Position} {st : AState}
    (inv : AInv w h obs start target st) (o : Position) (os : List Position)
    (hopen : st.openList = o :: os) (cur : Position)
    (hcur : cur = selectMin st.nodes o os) (hne : cur ≠ target)
    (ca : ANode) (hca : lookupNode st.nodes cur = some ca) :
    AInv w h obs start target
        (neighborOffsets.foldl (processNeighbor w h obs target cur ca.g)
          { st with
            openList := (o :: os).erase cur
            closedSet := cur :: st.closedSet }) ∧
      (neighborOffsets.foldl (processNeighbor w h obs target cur ca.g)
        { st with
          openList := (o :: os).erase cur
          closedSet := cur :: st.closedSet }).closedSet.length =
        st.closedSet.length + 1 := by
  have hcuro : cur ∈ st.openList := by
    rw [hopen, hcur]
    exact selectMin_mem st.nodes os o
  have hcurk : cur ∈ st.nodes.map Prod.fst := inv.open_sub _ hcuro
  have hcurnc : cur ∉ st.closedSet := by
    rcases inv.key_split cur hcurk with ⟨-, hnc⟩ | ⟨-, hno⟩
    · exact hnc
    · exact absurd hcuro hno
  have hopen_nd : (o :: os).Nodup := hopen ▸ inv.open_nodup
  have core1 : ACore w h obs start target
      { st with
        openList := (o :: os).erase cur
        closedSet := cur :: st.closedSet } := by
    refine ⟨inv.keys_nodup, hopen_nd.erase cur,
      List.nodup_cons.mpr ⟨hcurnc, inv.closed_nodup⟩, ?_, ?_, ?_,
      inv.keys_valid, inv.start_key, inv.start_node, inv.g_nonneg,
      inv.hf_def, ?_⟩
    · intro p hp
      exact inv.open_sub p (hopen ▸ List.mem_of_mem_erase hp)
    · intro p hp
      rcases List.mem_cons.mp hp with rfl | hp'
      · exact hcurk
      · exact inv.closed_sub p hp'
    · intro p hp
      rcases inv.key_split p hp with ⟨ho, hnc⟩ | ⟨hc, hno⟩
      · by_cases hpc : p = cur
        · subst hpc
          refine Or.inr ⟨List.mem_cons_self _ _, ?_⟩
          exact hopen_nd.not_mem_erase
        · refine Or.inl ⟨?_, ?_⟩
          · exact (List.Nodup.mem_erase_iff hopen_nd).mpr ⟨hpc, hopen ▸ ho⟩
          · intro hm
            rcases List.mem_cons.mp hm with he | hm'
            · exact hpc he
            · exact hnc hm'
      · refine Or.inr ⟨List.mem_cons_of_mem _ hc, ?_⟩
        intro hm
        exact hno (hopen ▸ List.mem_of_mem_erase hm)
    · intro p a ha hps
      obtain ⟨q, b, h1, h2, h3, h4, h5, h6⟩ := inv.parent_prop p a ha hps
      exact ⟨q, b, h1, h2, h3, h4, h5, List.mem_cons_of_mem _ h6⟩
  obtain ⟨coreR, hclR, hopR, hmonoR, hnewR⟩ :=
    fold_core neighborOffsets
      { st with
        openList := (o :: os).erase cur
        closedSet := cur :: st.closedSet }
      (fun off hoff => hoff) core1 ⟨ca, hca, rfl, List.mem_cons_self _ _⟩
  have hclR' : (neighborOffsets.foldl (processNeighbor w h obs target cur ca.g)
      { st with
        openList := (o :: os).erase cur
        closedSet := cur :: st.closedSet }).closedSet = cur :: st.closedSet :=
    hclR
  refine ⟨⟨coreR.keys_nodup, coreR.open_nodup, coreR.closed_nodup,
    coreR.open_sub, coreR.closed_sub, coreR.key_split, coreR.keys_valid,
    coreR.start_key, coreR.start_node, coreR.g_nonneg, coreR.hf_def,
    coreR.parent_prop, ?_, ?_, ?_⟩, ?_⟩
  · -- closed_exp
    intro p hp a'' ha'' q hadj hfree hqnc
    rw [hclR'] at hp hqnc
    rcases List.mem_cons.mp hp with rfl | hpc
    · obtain ⟨a', ha', -, heq⟩ := hmonoR p ca hca
      have ha'ca : a' = ca := heq (List.mem_cons_self _ _)
      rw [ha', ha'ca] at ha''
      cases ha''
      obtain ⟨offq, hoffq, hq⟩ := hadj
      subst hq
      obtain ⟨b, hb, hbo, hbg⟩ := hnewR offq hoffq hfree hqnc
      exact ⟨b, hb, hbo, hbg⟩
    · obtain ⟨a, ha⟩ := keys_lookupNode _ _ (inv.closed_sub p hpc)
      obtain ⟨a', ha', -, heq⟩ := hmonoR p a ha
      have ha'a : a' = a := heq (List.mem_cons_of_mem _ hpc)
      rw [ha', ha'a] at ha''
      cases ha''
      have hqnc' : q ∉ st.closedSet := fun hm => hqnc (List.mem_cons_of_mem _ hm)
      have hqne : q ≠ cur := fun he => hqnc (he ▸ List.mem_cons_self _ _)
      obtain ⟨b, hb, hbo, hbg⟩ :=
        inv.closed_exp p hpc a'' ha q hadj hfree hqnc'
      obtain ⟨b', hb', hble, -⟩ := hmonoR q b hb
      refine ⟨b', hb', ?_, by omega⟩
      refine hopR q ?_
      exact (List.Nodup.mem_erase_iff hopen_nd).mpr ⟨hqne, hopen ▸ hbo⟩
  · -- closed_opt
    intro p hp a'' ha'' n hs
    rw [hclR'] at hp
    rcases List.mem_cons.mp hp with rfl | hpc
    · obtain ⟨a', ha', -, heq⟩ := hmonoR p ca hca
      have ha'ca : a' = ca := heq (List.mem_cons_self _ _)
      rw [ha', ha'ca] at ha''
      cases ha''
      refine pop_optimal inv o os hopen ca (by rw [← hcur]; exact hca) n ?_
      rw [← hcur]
      exact hs
    · obtain ⟨a, ha⟩ := keys_lookupNode _ _ (inv.closed_sub p hpc)
      obtain ⟨a', ha', -, heq⟩ := hmonoR p a ha
      have ha'a : a' = a := heq (List.mem_cons_of_mem _ hpc)
      rw [ha', ha'a] at ha''
      cases ha''
      exact inv.closed_opt p hpc a'' ha n hs
  · -- target_open
    rw [hclR']
    intro hm
    rcases List.mem_cons.mp hm with he | hm'
    · exact hne he.symm
    · exact inv.target_open hm'
  · rw [hclR']
    rfl

theorem gridCells_length (w h : Int) :
    (gridCells w h).length = h.toNat * w.toNat := by
  unfold gridCells
  rw [List.length_flatMap]
  simp [Function.comp_def]

theorem closed_le_bound {w h : Int} {obs : Position → Bool}
    {start target : Position} {st : AState}
    (inv : AInv w h obs start target st) :
    st.closedSet.length ≤ w.toNat * h.toNat + 1 := by
  have hsub : st.closedSet ⊆ start :: gridCells w h := by
    intro p hp
    rcases inv.keys_valid p (inv.closed_sub p hp) with rfl | hfree
    · exact List.mem_cons_self _ _
    · exact List.mem_cons_of_mem _ (isValid_mem_gridCells p w h hfree.1)
  have hle := nodup_subset_length inv.closed_nodup hsub
  rw [List.length_cons, gridCells_length] at hle
  have : h.toNat * w.toNat = w.toNat * h.toNat := Nat.mul_comm _ _
  omega

theorem astarLoop_spec {w h : Int} {obs : Position → Bool}
    {start target : Position} :
    ∀ (fuel : Nat) (st : AState), AInv w h obs start target st →
      w.toNat * h.toNat + 2 ≤ fuel + st.closedSet.length →
      (∀ path, astarLoop w h obs target fuel st = some path →
        RouteList w h obs start path ∧ path.getLastD start = target ∧
        start ∉ path ∧ (path = [] ↔ start = target) ∧
        (∀ n, Steps w h obs start target n → path.length ≤ n)) ∧
      (astarLoop w h obs target fuel st = none →
        ∀ n, ¬ Steps w h obs start target n) := by
  intro fuel
  induction fuel with
  | zero =>
    intro st inv hfuel
    have hb := closed_le_bound inv
    exact absurd hfuel (by omega)
  | succ fuel ih =>
    intro st inv hfuel
    cases hopen : st.openList with
    | nil =>
      unfold astarLoop
      rw [hopen]
      constructor
      · intro path hp
        exact Option.noConfusion hp
      · intro _ n hs
        obtain ⟨y, a, m, k, -, hyo, -⟩ :=
          astarFrontier inv target n hs inv.target_open
        rw [hopen] at hyo
        exact absurd hyo (List.not_mem_nil y)
    | cons o os =>
      unfold astarLoop
      rw [hopen]
      dsimp only
      by_cases htgt : selectMin st.nodes o os = target
      · rw [if_pos htgt, htgt]
        have hps := astar_success inv o os hopen htgt
        constructor
        · intro path hp
          cases hp
          exact hps
        · intro hn
          exact Option.noConfusion hn
      · rw [if_neg htgt]
        obtain ⟨ca, hca⟩ := keys_lookupNode _ _
          (inv.open_sub _ (by rw [hopen]; exact selectMin_mem st.nodes os o))
        rw [hca]
        simp only [Option.getD_some]
        obtain ⟨inv2, hlen2⟩ := astar_step inv o os hopen _ rfl htgt ca hca
        refine ih _ inv2 ?_
        rw [hlen2]
        omega

theorem findPath_spec (start target : Position) (w h : Int)
    (obs : Position → Bool) :
    (∀ path, findPath start target w h obs = some path →
      RouteList w h obs start path ∧ path.getLastD start = target ∧
      start ∉ path ∧ (path = [] ↔ start = target) ∧
      (∀ n, Steps w h obs start target n → path.length ≤ n)) ∧
    (findPath start target w h obs = none →
      ∀ n, ¬ Steps w h obs start target n) := by
  have hlook : ∀ (p : Position) (a : ANode),
      lookupNode [(start, ⟨0, heuristic start target,
        heuristic start target, none⟩)] p = some a →
      p = start ∧ a = ⟨0, heuristic start target,
        heuristic start target, none⟩ := by
    intro p a ha
    unfold lookupNode at ha
    by_cases hp : p = start
    · rw [if_pos hp] at ha
      cases ha
      exact ⟨hp, rfl⟩
    · rw [if_neg hp] at ha
      cases ha
  have inv0 : AInv w h obs start target
      ⟨[start], [], [(start, ⟨0, heuristic start target,
        heuristic start target, none⟩)]⟩ := by
    refine ⟨?_, ?_, ?_, ?_, ?_, ?_, ?_, ?_, ?_, ?_, ?_, ?_, ?_, ?_, ?_⟩
    · simp
    · simp
    · simp
    · intro p hp; simpa using hp
    · intro p hp; exact absurd hp (List.not_mem_nil p)
    · intro p hp
      exact Or.inl ⟨by simpa using hp, List.not_mem_nil p⟩
    · intro p hp
      exact Or.inl (by simpa using hp)
    · simp
    · intro a ha
      obtain ⟨-, rfl⟩ := hlook start a ha
      exact ⟨rfl, rfl⟩
    · intro p a ha
      obtain ⟨-, rfl⟩ := hlook p a ha
      exact le_refl 0
    · intro p a ha
      obtain ⟨rfl, rfl⟩ := hlook p a ha
      exact ⟨rfl, by simp⟩
    · intro p a ha hps
      obtain ⟨rfl, -⟩ := hlook p a ha
      exact absurd rfl hps
    · intro p hp
      exact absurd hp (List.not_mem_nil p)
    · intro p hp
      exact absurd hp (List.not_mem_nil p)
    · exact List.not_mem_nil target
  have hfuel : w.toNat * h.toNat + 2 ≤ astarFuel w h + ([] : List Position).length := by
    unfold astarFuel
    simp
    omega
  have hspec := astarLoop_spec (astarFuel w h)
    ⟨[start], [], [(start, ⟨0, heuristic start target,
      heuristic start target, none⟩)]⟩ inv0 hfuel
  unfold findPath
  dsimp only
  exact hspec

theorem steps_line {w h : Int} {obs : Position → Bool} (d : Position)
    (hd : d ∈ neighborOffsets) :
    ∀ (n : Nat) (a : Position),
      (∀ i : Nat, i < n →
        freeCell w h obs ⟨a.x + (i + 1) * d.x, a.y + (i + 1) * d.y⟩) →
      Steps w h obs a ⟨a.x + n * d.x, a.y + n * d.y⟩ n := by
  intro n
  induction n with
  | zero =>
    intro a _
    have h0 : (⟨a.x + ((0 : Nat) : Int) * d.x,
        a.y + ((0 : Nat) : Int) * d.y⟩ : Position) = a := by
      cases a
      dsimp only
      congr 1 <;> push_cast <;> ring
    rw [h0]
    exact Steps.refl a
  | succ n ih =>
    intro a hf
    have hstep : Steps w h obs a ⟨a.x + n * d.x, a.y + n * d.y⟩ n :=
      ih a (fun i hi => hf i (by omega))
    have hadj : Adj ⟨a.x + n * d.x, a.y + n * d.y⟩
        ⟨a.x + ((n + 1 : Nat) : Int) * d.x, a.y + ((n + 1 : Nat) : Int) * d.y⟩ := by
      refine ⟨d, hd, ?_⟩
      dsimp only
      congr 1 <;> push_cast <;> ring
    have hfree : freeCell w h obs
        ⟨a.x + ((n + 1 : Nat) : Int) * d.x, a.y + ((n + 1 : Nat) : Int) * d.y⟩ := by
      have := hf n (by omega)
      simpa using this
    exact Steps.tail hstep hadj hfree

theorem segCells_steps {w h : Int} {obs : Position → Bool} (a b : Position)
    (hline : a.y = b.y ∨ a.x = b.x)
    (hfree : ∀ p ∈ segCells a b, freeCell w h obs p) :
    Steps w h obs a b (heuristic a b).toNat := by
  rcases hline with hrow | hcol
  · by_cases hle : a.x ≤ b.x
    · have hn : (heuristic a b).toNat = (b.x - a.x).natAbs := by
        unfold heuristic
        dsimp only
        split_ifs <;> omega
      have hmain := @steps_line w h obs ⟨1, 0⟩ (by simp [neighborOffsets]) (b.x - a.x).natAbs a ?hf
      case hf =>
        intro i hi
        refine hfree _ ?_
        unfold segCells
        rw [if_pos hrow]
        refine List.mem_map.mpr ⟨i, List.mem_range.mpr hi, ?_⟩
        rw [if_pos hle]
        dsimp only
        congr 1 <;> (first | (simp only [Int.ofNat_eq_natCast]; omega) | omega)
      have hb : (⟨a.x + ((b.x - a.x).natAbs : Int) * (⟨1, 0⟩ : Position).x,
          a.y + ((b.x - a.x).natAbs : Int) * (⟨1, 0⟩ : Position).y⟩ :
            Position) = b := by
        cases b
        dsimp only at *
        congr 1 <;> (first | (simp only [Int.ofNat_eq_natCast]; omega) | omega)
      rw [hb] at hmain
      rw [hn]
      exact hmain
    · have hn : (heuristic a b).toNat = (b.x - a.x).natAbs := by
        unfold heuristic
        dsimp only
        split_ifs <;> omega
      have hmain := @steps_line w h obs ⟨-1, 0⟩ (by simp [neighborOffsets]) (b.x - a.x).natAbs a ?hf
      case hf =>
        intro i hi
        refine hfree _ ?_
        unfold segCells
        rw [if_pos hrow]
        refine List.mem_map.mpr ⟨i, List.mem_range.mpr hi, ?_⟩
        rw [if_neg hle]
        dsimp only
        congr 1 <;> (first | (simp only [Int.ofNat_eq_natCast]; omega) | omega)
      have hb : (⟨a.x + ((b.x - a.x).natAbs : Int) * (⟨-1, 0⟩ : Position).x,
          a.y + ((b.x - a.x).natAbs : Int) * (⟨-1, 0⟩ : Position).y⟩ :
            Position) = b := by
        cases b
        dsimp only at *
        congr 1 <;> (first | (simp only [Int.ofNat_eq_natCast]; omega) | omega)
      rw [hb] at hmain
      rw [hn]
      exact hmain
  · by_cases hrow : a.y = b.y
    · have hb : b = a := by
        cases a
        cases b
        dsimp only at *
        congr 1 <;> (first | (simp only [Int.ofNat_eq_natCast]; omega) | omega)
      subst hb
      rw [heuristic_self]
      exact Steps.refl b
    · by_cases hle : a.y ≤ b.y
      · have hn : (heuristic a b).toNat = (b.y - a.y).natAbs := by
          unfold heuristic
          dsimp only
          split_ifs <;> omega
        have hmain := @steps_line w h obs   ⟨0, 1⟩ (by simp [neighborOffsets]) (b.y - a.y).natAbs a ?hf
        case hf =>
          intro i hi
          refine hfree _ ?_
          unfold segCells
          rw [if_neg hrow]
          refine List.mem_map.mpr ⟨i, List.mem_range.mpr hi, ?_⟩
          rw [if_pos hle]
          dsimp only
          congr 1 <;> (first | (simp only [Int.ofNat_eq_natCast]; omega) | omega)
        have hb : (⟨a.x + ((b.y - a.y).natAbs : Int) * (⟨0, 1⟩ : Position).x,
            a.y + ((b.y - a.y).natAbs : Int) * (⟨0, 1⟩ : Position).y⟩ :
              Position) = b := by
          cases b
          dsimp only at *
          congr 1 <;> (first | (simp only [Int.ofNat_eq_natCast]; omega) | omega)
        rw [hb] at hmain
        rw [hn]
        exact hmain
      · have hn : (heuristic a b).toNat = (b.y - a.y).natAbs := by
          unfold heuristic
          dsimp only
          split_ifs <;> omega
        have hmain := @steps_line w h obs   ⟨0, -1⟩ (by simp [neighborOffsets]) (b.y - a.y).natAbs a ?hf
        case hf =>
          intro i hi
          refine hfree _ ?_
          unfold segCells
          rw [if_neg hrow]
          refine List.mem_map.mpr ⟨i, List.mem_range.mpr hi, ?_⟩
          rw [if_neg hle]
          dsimp only
          congr 1 <;> (first | (simp only [Int.ofNat_eq_natCast]; omega) | omega)
        have hb : (⟨a.x + ((b.y - a.y).natAbs : Int) * (⟨0, -1⟩ : Position).x,
            a.y + ((b.y - a.y).natAbs : Int) * (⟨0, -1⟩ : Position).y⟩ :
              Position) = b := by
          cases b
          dsimp only at *
          congr 1 <;> (first | (simp only [Int.ofNat_eq_natCast]; omega) | omega)
        rw [hb] at hmain
        rw [hn]
        exact hmain

/-- C1 (corrected): a returned path is a 4-connected obstacle-avoiding
route in travel order that excludes the start; it ends at the target
whenever it is nonempty, which happens exactly when `start ≠ target` (for
`start = target` the source returns an EMPTY path, not one ending at the
target, see the counterexample); its length is minimal among all such
routes; when the target is unreachable `findPath` returns `nil`; and for a
pair on a common row or column whose connecting straight segment is free,
a path is returned and its length is exactly the Manhattan distance. -/
theorem findPath_correct (start target : Position) (w h : Int)
    (obs : Position → Bool) :
    (∀ path, findPath start target w h obs = some path →
      RouteList w h obs start path ∧
      path.getLastD start = target ∧
      start ∉ path ∧
      (path = [] ↔ start = target) ∧
      (∀ qs, RouteList w h obs start qs → qs.getLastD start = target →
        path.length ≤ qs.length)) ∧
    ((¬ ∃ n, Steps w h obs start target n) →
      findPath start target w h obs = none) ∧
    ((start.y = target.y ∨ start.x = target.x) →
      (∀ p ∈ segCells start target, freeCell w h obs p) →
      ∃ path, findPath start target w h obs = some path ∧
        path.length = (heuristic start target).toNat) := by
  obtain ⟨hsome, hnone⟩ := findPath_spec start target w h obs
  refine ⟨?_, ?_, ?_⟩
  · intro path hp
    obtain ⟨h1, h2, h3, h4, h5⟩ := hsome path hp
    refine ⟨h1, h2, h3, h4, ?_⟩
    intro qs hq hlast
    have hst := routeList_steps qs start hq
    rw [hlast] at hst
    exact h5 qs.length hst
  · intro hnr
    cases hfp : findPath start target w h obs with
    | none => rfl
    | some path =>
      obtain ⟨h1, h2, -, -, -⟩ := hsome path hfp
      have hst := routeList_steps path start h1
      rw [h2] at hst
      exact absurd ⟨path.length, hst⟩ hnr
  · intro hline hfree
    have hst := segCells_steps start target hline hfree
    cases hfp : findPath start target w h obs with
    | none => exact absurd hst (hnone hfp _)
    | some path =>
      obtain ⟨h1, h2, -, -, h5⟩ := hsome path hfp
      refine ⟨path, rfl, ?_⟩
      have hle := h5 _ hst
      have hge : heuristic start target ≤ (path.length : Int) := by
        have hst2 := routeList_steps path start h1
        rw [h2] at hst2
        exact steps_lower hst2
      have hnn := heuristic_nonneg start target
      omega

/-- Counterexample to C1 as stated: with `start = target` the source
returns an empty path, which does not end at the target cell. -/
theorem findPath_correct_cex :
    ∃ path, findPath ⟨3, 3⟩ ⟨3, 3⟩ 5 5 (fun _ => false) = some path ∧
      path.getLast? ≠ some ⟨3, 3⟩ :=
  ⟨[], by decide, by decide⟩

theorem findPath_correct_witness :
    ∃ path, findPath ⟨0, 0⟩ ⟨3, 0⟩ 5 5 (fun _ => false) = some path ∧
      path.length = (heuristic ⟨0, 0⟩ ⟨3, 0⟩).toNat :=
  (findPath_correct ⟨0, 0⟩ ⟨3, 0⟩ 5 5 (fun _ => false)).2.2 (by decide)
    (by decide)
